import Mathlib

/-!
# The flogo API code generator (`api/generate.go`)

A shallow embedding of `api.Generate`, the pass that turns an application
descriptor (`app.Config`) into the text of a Go program, and theorems about
the text it emits.

Conventions of the embedding.

* Go strings are Lean strings; `fmt.Sprintf` with `%s` and `%d` is string
  concatenation with `toString` on naturals (indices of `range` loops are
  never negative).  Slicing `s[1:]` is on the bytes of the UTF-8 encoding, as
  in Go; a slice that cuts a character in two is no text and no key of a map.
* A Go map is an association list with unique keys (`mapSet`, `mapGet`).
* Everything the pass obtains from other packages (the dependency resolver,
  the alias registry, the schema store, loaders, factories, `fmt`'s rendering
  of values, the Go parser and printer, the file system) is a field of `Env`.
* A `panic` is a `Step.abort` carrying the state reached so far.
-/

namespace api

/-! ## Data model -/

/-- A value of Go type `interface{}` taken from the descriptor. -/
inductive Value where
  | null
  | bool (b : Bool)
  | num (n : Int)
  | str (s : String)
  | arr (items : List Value)
  | obj (fields : List (String × Value))

/-- The two methods of `util.Import` the pass calls. -/
structure Import where
  CanonicalAlias : String
  GoImportPath : String
deriving DecidableEq, Repr

/-- The Go type `data.Attribute`, seen through `Name()`, `Type().Name()`, `Value()`. -/
structure Attribute where
  Name : String
  TypeName : String
  Value : Value

/-- The Go type `resource.Config`. -/
structure ResourceConfig where
  ID : String
  Data : String
deriving DecidableEq, Repr

/-- The Go type `action.Config`. -/
structure ActionConfig where
  Ref : String
  Settings : Value
  Id : String

/-- The Go type `trigger.ActionConfig`: an embedded `action.Config` plus condition and mappings. -/
structure HandlerActionConfig where
  Config : ActionConfig
  If : String
  Input : List (String × Value)
  Output : List (String × Value)

/-- The Go type `trigger.HandlerConfig`. -/
structure HandlerConfig where
  Settings : Value
  Actions : List HandlerActionConfig

/-- The Go type `trigger.Config`. -/
structure TriggerConfig where
  Ref : String
  Settings : Value
  Handlers : List HandlerConfig

/-- The Go type `app.Config`. -/
structure Config where
  Name : String
  /-- The field `Type` of the descriptor. -/
  Type_ : String
  Version : String
  Description : String
  AppModel : String
  Imports : List String
  Properties : List Attribute
  Channels : List String
  Triggers : List TriggerConfig
  Resources : List ResourceConfig
  Actions : List ActionConfig
  Schemas : List (String × Value)

/-- A loaded `*resource.Resource`; only its identity matters to the pass. -/
structure Resource where
  tag : String
deriving DecidableEq, Repr

/-- A resource loader: `LoadResource`, and the answer of the optional
`GenerateResource` hook (`none` when the loader does not implement it). -/
structure Loader where
  LoadResource : ResourceConfig → Except String Resource
  Generate : Option Bool

/-- An action factory: the outcome of `Initialize`, and the optional
`Generator` capability (`none` when the factory does not implement it). -/
structure Factory where
  Initialize : Option String
  Generate : Option (String → List Import → ActionConfig → Except String String)

/-- The collaborators of the pass. -/
structure Env where
  /-- `util.ParseImports`; its error is discarded by the pass. -/
  ParseImports : List String → List Import
  /-- `util.GetContribDescriptorFromImport` followed by `GetContribType`. -/
  GetContribType : Import → Except String String
  /-- `support.RegisterAlias` on the registrations made so far: the error, if any. -/
  RegisterAlias : List (String × String × String) → String → String → String → Option String
  /-- What `CanonicalAlias()` yields on the zero value of `util.Import`
  (`none`: the call aborts, the zero value being a nil interface). -/
  zeroAlias : Option String
  /-- `schema.Register` on the definitions registered so far: the error, if any. -/
  SchemaRegister : List (String × Value) → String → Value → Option String
  /-- `schema.ResolveSchemas` on the registered definitions: the error, if any. -/
  ResolveSchemas : List (String × Value) → Option String
  /-- The order in which `range` visits the entries of a map. -/
  rangeOrder : List (String × Value) → List (String × Value)
  /-- `action.Factories()`. -/
  Factories : List Factory
  /-- `action.GetFactory`. -/
  GetFactory : String → Option Factory
  /-- `resource.GetTypeFromID`. -/
  GetTypeFromID : String → Except String String
  /-- `resource.GetLoader` (`none`: a nil loader). -/
  GetLoader : String → Option Loader
  /-- `fmt`'s verb `%#v` on a descriptor value. -/
  sharpV : Value → String
  /-- `fmt`'s verb `%v` on a descriptor value. -/
  plainV : Value → String
  /-- `fmt`'s verb `%#v` on a `[]string`. -/
  sharpVStrings : List String → String
  /-- `os.Create`: the error, if any. -/
  Create : String → Option String
  /-- `parser.ParseFile` on (file name, source text): the diagnostic, if any. -/
  ParseFile : String → String → Option String
  /-- `printer.Fprint` on the tree parsed from a source text: what it wrote, and its error, if any. -/
  Fprint : String → String × Option String

/-- The ways the pass can abort. -/
inductive Failure where
  /-- `panic("invalid app type")`. -/
  | invalidAppType
  /-- `panic(err)` with the error of a collaborator, or the `fmt.Errorf` of the last stage. -/
  | error (msg : String)
  /-- A run-time panic of Go itself: slice bounds out of range, nil dereference. -/
  | runtime (msg : String)
deriving DecidableEq, Repr

/-- The process-wide registries and the file system the pass touches. -/
structure World where
  /-- Successful `support.RegisterAlias` calls: (contribution type, alias, path). -/
  aliases : List (String × String × String)
  /-- Successful `schema.Register` calls. -/
  schemas : List (String × Value)
  /-- Whether `schema.ResolveSchemas` has been called. -/
  schemasResolved : Bool
  /-- The manager installed by `property.SetDefaultManager`. -/
  propertyManager : Option (List (String × Value))
  /-- The file system: path ↦ contents. -/
  files : List (String × String)

/-- The state of a pass: the world, and the local variables of `Generate`. -/
structure State extends World where
  /-- The variable `app.pkgs`. -/
  pkgs : List (String × Import)
  /-- The map `resources`, owned by `app.resManager`. -/
  resources : List (String × Resource)
  /-- How many factories have been initialised. -/
  initialized : Nat
  /-- The variable `header`. -/
  header : String
  /-- The variable `output`. -/
  output : String

/-- Outcome of a stage: it completes, or it panics in the state reached. -/
inductive Step (σ : Type) where
  | ok (s : σ)
  | abort (s : σ) (f : Failure)

namespace Step

/-- Sequencing: a panic ends the pass. -/
def bind {σ : Type} (x : Step σ) (f : σ → Step σ) : Step σ :=
  match x with
  | ok s => f s
  | abort s e => abort s e

/-- The state a stage ended in. -/
def state {σ : Type} : Step σ → σ
  | ok s => s
  | abort s _ => s

/-- The panic of a stage, if any. -/
def failure {σ : Type} : Step σ → Option Failure
  | ok _ => none
  | abort _ e => some e

end Step

/-! ## Go maps -/

/-- The assignment `m[k] = v`. -/
def mapSet {α : Type} (m : List (String × α)) (k : String) (v : α) : List (String × α) :=
  match m with
  | [] => [(k, v)]
  | (k', v') :: rest => if k' = k then (k, v) :: rest else (k', v') :: mapSet rest k v

/-- The lookup `m[k]`. -/
def mapGet {α : Type} (m : List (String × α)) (k : String) : Option α :=
  match m with
  | [] => none
  | (k', v') :: rest => if k' = k then some v' else mapGet rest k

/-- A `for i, x := range xs` loop whose body may panic; `i` is the index of the head. -/
def forRange {α σ : Type} (body : Nat → α → σ → Step σ) : Nat → List α → σ → Step σ
  | _, [], s => Step.ok s
  | i, x :: xs, s => (body i x s).bind (forRange body (i + 1) xs)

/-! ## The naming scheme -/

/-- The literal `resource%d`. -/
def resourceName (i : Nat) : String := "resource" ++ toString i

/-- The literal `actionSettings%d`. -/
def actionSettingsName (i : Nat) : String := "actionSettings" ++ toString i

/-- The literal `trg%d`. -/
def trgName (i : Nat) : String := "trg" ++ toString i

/-- The literal `handler%d_%d`. -/
def handlerName (i j : Nat) : String := "handler" ++ toString i ++ "_" ++ toString j

/-- The literal `action%d_%d_%d`. -/
def actionName (i j k : Nat) : String :=
  "action" ++ toString i ++ "_" ++ toString j ++ "_" ++ toString k

/-- The literal `settings%d_%d_%d`. -/
def settingsName (i j k : Nat) : String :=
  "settings" ++ toString i ++ "_" ++ toString j ++ "_" ++ toString k

/-- The kinds of generated identifier, each with its position tuple. -/
inductive Ident where
  | resource (i : Nat)
  | actionSettings (i : Nat)
  | trg (i : Nat)
  | handler (i j : Nat)
  | action (i j k : Nat)
  | settings (i j k : Nat)
deriving DecidableEq, Repr

/-- The identifier the pass writes for a kind and position tuple. -/
def Ident.render : Ident → String
  | .resource i => resourceName i
  | .actionSettings i => actionSettingsName i
  | .trg i => trgName i
  | .handler i j => handlerName i j
  | .action i j k => actionName i j k
  | .settings i j k => settingsName i j k

/-- The identifiers the emitted program uses with a fixed spelling. -/
def fixedNames : List String := ["app", "err", "name", "buffSize", "e"]

/-! ## Statements -/

/-- The three lines of an error check. -/
def errorCheckText : String := "if err != nil \x7b\n" ++ "panic(err)\n" ++ "\x7d\n"

/-- The closure `errorCheck`: three appends to `output`. -/
def errorCheck (output : String) : String :=
  output ++ "if err != nil \x7b\n" ++ "panic(err)\n" ++ "\x7d\n"

/-- Header line of an import that is bound to its alias. -/
def importLine (val : Import) : String :=
  val.CanonicalAlias ++ " \"" ++ val.GoImportPath ++ "\"\n"

/-- Header line of an import made for its side effects only. -/
def blankImportLine (val : Import) : String :=
  "_ \"" ++ val.GoImportPath ++ "\"\n"

/-- The statement that declares the raw data of resource `i`. -/
def resourceLiteralStmt (i : Nat) (data : String) : String :=
  resourceName i ++ " := json.RawMessage(`" ++ data ++ "`)\n"

/-- The statement that adds resource `i` under its id. -/
def addResourceStmt (i : Nat) (id : String) : String :=
  "app.AddResource(\"" ++ id ++ "\", " ++ resourceName i ++ ")\n"

/-- The statement that adds a property. -/
def addPropertyStmt (env : Env) (property : Attribute) : String :=
  "app.AddProperty(\"" ++ property.Name ++ "\", data." ++ property.TypeName ++ ", "
    ++ env.sharpV property.Value ++ ")\n"

/-- The decode statement of channel `i`: a declaration for the first, an assignment after. -/
def decodeStmt (i : Nat) (channel : String) : String :=
  if i = 0 then "name, buffSize := channels.Decode(\"" ++ channel ++ "\")\n"
  else "name, buffSize = channels.Decode(\"" ++ channel ++ "\")\n"

/-- The statement that creates a channel. -/
def newChannelStmt : String := "_, err = channels.New(name, buffSize)\n"

/-- The literal settings statement, used when the factory is no `Generator`. -/
def settingsLiteralStmt (env : Env) (settingsName : String) (settings : Value) : String :=
  settingsName ++ " := " ++ env.sharpV settings ++ "\n"

/-- The statement that adds an application-scope action. -/
def addActionStmt (id qual settingsName : String) : String :=
  "err = app.AddAction(\"" ++ id ++ "\", &" ++ qual ++ ".Action\x7b\x7d, " ++ settingsName ++ ")\n"

/-- The statement that constructs trigger `i`. -/
def newTriggerStmt (env : Env) (i : Nat) (qual : String) (settings : Value) : String :=
  trgName i ++ " := app.NewTrigger(&" ++ qual ++ ".Trigger\x7b\x7d, " ++ env.sharpV settings ++ ")\n"

/-- The statement that constructs handler `j` of trigger `i`. -/
def newHandlerStmt (env : Env) (i j : Nat) (settings : Value) : String :=
  handlerName i j ++ ", err := " ++ trgName i ++ ".NewHandler(" ++ env.sharpV settings ++ ")\n"

/-- The statement that looks an application-scope action up by its id. -/
def lookupActionStmt (i j k : Nat) (id : String) : String :=
  actionName i j k ++ ", err := " ++ handlerName i j ++ ".NewAction(\"" ++ id ++ "\")\n"

/-- The statement that constructs an inline handler action. -/
def newActionStmt (i j k : Nat) (qual settingsName : String) : String :=
  actionName i j k ++ ", err := " ++ handlerName i j ++ ".NewAction(&" ++ qual ++ ".Action\x7b\x7d, "
    ++ settingsName ++ ")\n"

/-- The statement that sets the condition of a handler action. -/
def setConditionStmt (i j k : Nat) (cond : String) : String :=
  actionName i j k ++ ".SetCondition(\"" ++ cond ++ "\")\n"

/-- The slice `mappings`: one entry per key, in the order `range` visits the map. -/
def mappingEntries (env : Env) (m : List (String × Value)) : List String :=
  (env.rangeOrder m).map fun kv => kv.1 ++ env.plainV kv.2

/-- The statement that sets the input mappings of a handler action. -/
def setInputMappingsStmt (env : Env) (i j k : Nat) (m : List (String × Value)) : String :=
  actionName i j k ++ ".SetInputMappings(" ++ env.sharpVStrings (mappingEntries env m) ++ "...)\n"

/-- The statement that sets the output mappings of a handler action. -/
def setOutputMappingsStmt (env : Env) (i j k : Nat) (m : List (String × Value)) : String :=
  actionName i j k ++ ".SetOutputMappings(" ++ env.sharpVStrings (mappingEntries env m) ++ "...)\n"

/-! ## The pass -/

/-- The statement `output += text`. -/
def State.emit (s : State) (text : String) : State :=
  { s with output := s.output ++ text }

/-- A call of the closure `errorCheck`. -/
def State.check (s : State) : State :=
  { s with output := errorCheck s.output }

/-- The statement `header += text`. -/
def State.addHeader (s : State) (text : String) : State :=
  { s with header := s.header ++ text }

/-- The length of a Go string: the number of bytes of its UTF-8 encoding. -/
def utf8Length : List Char → Nat
  | [] => 0
  | c :: cs => c.utf8Size + utf8Length cs

/-- The text after the first `n` bytes; `none` when the cut falls inside a
character, so that what is left is no valid UTF-8. -/
def dropBytes : List Char → Nat → Option (List Char)
  | cs, 0 => some cs
  | [], _ + 1 => some []
  | c :: cs, n + 1 => if c.utf8Size ≤ n + 1 then dropBytes cs (n + 1 - c.utf8Size) else none

/-- The text of the first `n` bytes; `none` when the cut falls inside a character. -/
def takeBytes : List Char → Nat → Option (List Char)
  | _, 0 => some []
  | [], _ + 1 => some []
  | c :: cs, n + 1 =>
    if c.utf8Size ≤ n + 1 then (takeBytes cs (n + 1 - c.utf8Size)).map fun rest => c :: rest
    else none

/-- The slice expression `s[:n]`, on bytes: `none` when Go panics with slice
bounds out of range, `some none` when the bytes are no valid UTF-8. -/
def sliceTo (s : String) (n : Nat) : Option (Option String) :=
  if n ≤ utf8Length s.data then some ((takeBytes s.data n).map String.mk) else none

/-- The slice expression `s[n:]`, on bytes: `none` when Go panics with slice
bounds out of range, `some none` when the bytes are no valid UTF-8. -/
def sliceFrom (s : String) (n : Nat) : Option (Option String) :=
  if n ≤ utf8Length s.data then some ((dropBytes s.data n).map String.mk) else none

/-- The lookup `app.pkgs[key]` for a key obtained by slicing: the keys of the
alias map are texts, so bytes that are no valid UTF-8 are bound to nothing. -/
def lookupSliced (pkgs : List (String × Import)) (key : Option String) : Option Import :=
  match key with
  | some k => mapGet pkgs k
  | none => none

/-- The message of Go's slice panic. -/
def sliceFailure : Failure := Failure.runtime "slice bounds out of range"

/-- The message of Go's nil dereference panic. -/
def nilFailure : Failure := Failure.runtime "invalid memory address or nil pointer dereference"

/-- Lines 179-183 and 218-222: the import an action reference resolves to
(`none`: the zero value the map yields for a missing key). -/
def actionImport (pkgs : List (String × Import)) (ref : String) : Except Failure (Option Import) :=
  match sliceTo ref 0 with
  | none => .error sliceFailure
  | some sigil =>
    if sigil = some "#" then
      match sliceFrom ref 1 with
      | none => .error sliceFailure
      | some key => .ok (lookupSliced pkgs key)
    else .ok (mapGet pkgs ref)

/-- Lines 203-207: the import a trigger reference resolves to; both branches slice `Ref[1:]`. -/
def triggerImport (pkgs : List (String × Import)) (ref : String) : Except Failure (Option Import) :=
  match sliceTo ref 0 with
  | none => .error sliceFailure
  | some sigil =>
    if sigil = some "#" then
      match sliceFrom ref 1 with
      | none => .error sliceFailure
      | some key => .ok (lookupSliced pkgs key)
    else
      match sliceFrom ref 1 with
      | none => .error sliceFailure
      | some key => .ok (lookupSliced pkgs key)

/-- The call `imp.CanonicalAlias()` on the result of a map lookup. -/
def canonicalAliasOf (env : Env) (imp : Option Import) : Option String :=
  match imp with
  | some val => some val.CanonicalAlias
  | none => env.zeroAlias

/-- Body of the loop over the parsed imports (lines 60-80). -/
def importStep (env : Env) (val : Import) (s : State) : Step State :=
  let s1 : State := { s with pkgs := mapSet s.pkgs val.CanonicalAlias val }
  match env.GetContribType val with
  | .error e => .abort s1 (.error e)
  | .ok contribType =>
    match env.RegisterAlias s1.aliases contribType val.CanonicalAlias val.GoImportPath with
    | some e => .abort s1 (.error e)
    | none =>
      let s2 : State :=
        { s1 with aliases := s1.aliases ++ [(contribType, val.CanonicalAlias, val.GoImportPath)] }
      if contribType ≠ "activity" then .ok (s2.addHeader (importLine val))
      else .ok (s2.addHeader (blankImportLine val))

/-- Body of the loop over the schema definitions (lines 85-90). -/
def schemaStep (env : Env) (entry : String × Value) (s : State) : Step State :=
  match env.SchemaRegister s.schemas entry.1 entry.2 with
  | some e => .abort s (.error e)
  | none => .ok { s with schemas := s.schemas ++ [entry] }

/-- The map `properties` (lines 94-97). -/
def propertyMap (props : List Attribute) : List (String × Value) :=
  props.foldl (fun m attr => mapSet m attr.Name attr.Value) []

/-- Body of the loop over the action factories (lines 105-110). -/
def factoryStep (actionFactory : Factory) (s : State) : Step State :=
  match actionFactory.Initialize with
  | some e => .abort s (.error e)
  | none => .ok { s with initialized := s.initialized + 1 }

/-- The comment block and the prologue of `main` (lines 112-128). -/
def prologue (config : Config) : String :=
  "/*\n" ++ ("* Name: " ++ config.Name ++ "\n") ++ ("* Type: " ++ config.Type_ ++ "\n")
    ++ ("* Version: " ++ config.Version ++ "\n") ++ ("* Description: " ++ config.Description ++ "\n")
    ++ ("* AppModel: " ++ config.AppModel ++ "\n") ++ "*/\n\n"
    ++ "func main() \x7b\n" ++ "var err error\n" ++ "app := api.NewApp()\n"

/-- Body of the loop over the resources (lines 130-153). -/
def resourceStep (env : Env) (i : Nat) (resConfig : ResourceConfig) (s : State) : Step State :=
  match env.GetTypeFromID resConfig.ID with
  | .error e => .abort s (.error e)
  | .ok resType =>
    match env.GetLoader resType with
    | none => .abort s nilFailure
    | some loader =>
      match loader.LoadResource resConfig with
      | .error e => .abort s (.error e)
      | .ok res =>
        let generate : Bool :=
          match loader.Generate with
          | some g => g
          | none => true
        let s1 : State :=
          if generate then
            ((s.addHeader " \"encoding/json\" \n ").emit
              (resourceLiteralStmt i resConfig.Data)).emit (addResourceStmt i resConfig.ID)
          else s
        .ok { s1 with resources := mapSet s1.resources resConfig.ID res }

/-- The property statements (lines 155-161). -/
def propertiesStage (env : Env) (props : List Attribute) (s : State) : State :=
  if 0 < props.length then
    props.foldl (fun st property => st.emit (addPropertyStmt env property))
      (s.addHeader " \"github.com/project-flogo/core/data \" \n")
  else s

/-- Body of the loop over the channels (lines 166-174). -/
def channelStep (i : Nat) (channel : String) (s : State) : Step State :=
  .ok ((s.emit (decodeStmt i channel)).emit newChannelStmt).check

/-- The channel statements (lines 163-175). -/
def channelsStage (channels : List String) (s : State) : Step State :=
  if 0 < channels.length then
    forRange channelStep 0 channels
      (s.addHeader " \"github.com/project-flogo/core/engine/channels\" \n ")
  else .ok s

/-- The settings of an action (lines 185-196 and 224-235): the fragment of the
factory's generator between two newlines, or the literal statement. -/
def settingsStep (env : Env) (imports : List Import) (settingsName : String)
    (act : ActionConfig) (s : State) : Step State :=
  match (env.GetFactory act.Ref).bind Factory.Generate with
  | some generator =>
    match generator settingsName imports act with
    | .error e => .abort s (.error e)
    | .ok code => .ok (((s.emit "\n").emit code).emit "\n")
  | none => .ok (s.emit (settingsLiteralStmt env settingsName act.Settings))

/-- Body of the loop over the application-scope actions (lines 177-199). -/
def actionStep (env : Env) (imports : List Import) (i : Nat) (act : ActionConfig)
    (s : State) : Step State :=
  match actionImport s.pkgs act.Ref with
  | .error f => .abort s f
  | .ok actImport =>
    (settingsStep env imports (actionSettingsName i) act s).bind fun s1 =>
      match canonicalAliasOf env actImport with
      | none => .abort s1 nilFailure
      | some qual => .ok (s1.emit (addActionStmt act.Id qual (actionSettingsName i))).check

/-- Lines 214-237: the lookup or the construction of a handler action. -/
def handlerActionHead (env : Env) (imports : List Import) (i j k : Nat)
    (act : HandlerActionConfig) (s : State) : Step State :=
  if act.Config.Id ≠ "" then .ok (s.emit (lookupActionStmt i j k act.Config.Id))
  else
    match actionImport s.pkgs act.Config.Ref with
    | .error f => .abort s f
    | .ok actImport =>
      (settingsStep env imports (settingsName i j k) act.Config s).bind fun s1 =>
        match canonicalAliasOf env actImport with
        | none => .abort s1 nilFailure
        | some qual => .ok (s1.emit (newActionStmt i j k qual (settingsName i j k)))

/-- Lines 238-255: error check, condition and mappings of a handler action. -/
def handlerActionTail (env : Env) (i j k : Nat) (act : HandlerActionConfig) (s : State) : State :=
  let s1 := s.check
  let s2 := if act.If ≠ "" then s1.emit (setConditionStmt i j k act.If) else s1
  let s3 := if 0 < act.Input.length then s2.emit (setInputMappingsStmt env i j k act.Input) else s2
  if 0 < act.Output.length then s3.emit (setOutputMappingsStmt env i j k act.Output) else s3

/-- Body of the loop over the actions of a handler (lines 213-257). -/
def handlerActionStep (env : Env) (imports : List Import) (i j k : Nat)
    (act : HandlerActionConfig) (s : State) : Step State :=
  (handlerActionHead env imports i j k act s).bind fun s1 =>
    .ok (handlerActionTail env i j k act s1)

/-- Body of the loop over the handlers of a trigger (lines 210-259). -/
def handlerStep (env : Env) (imports : List Import) (i j : Nat) (handler : HandlerConfig)
    (s : State) : Step State :=
  forRange (handlerActionStep env imports i j) 0 handler.Actions
    (s.emit (newHandlerStmt env i j handler.Settings)).check

/-- Body of the loop over the triggers (lines 200-261). -/
def triggerStep (env : Env) (imports : List Import) (i : Nat) (trigger : TriggerConfig)
    (s : State) : Step State :=
  match triggerImport s.pkgs trigger.Ref with
  | .error f => .abort s f
  | .ok trigImport =>
    match canonicalAliasOf env trigImport with
    | none => .abort s nilFailure
    | some qual =>
      forRange (handlerStep env imports i) 0 trigger.Handlers
        (s.emit (newTriggerStmt env i qual trigger.Settings))

/-- The engine statements and the end of the header (lines 263-269). -/
def epilogue (s : State) : State :=
  ((((s.emit "e, err := api.NewEngine(app)\n").check).emit "engine.RunEngine(e)\n").emit
    "\x7d\n").addHeader "\n )\n"

/-- The locals of `Generate` before its first statement. -/
def State.init (w : World) : State :=
  { toWorld := w, pkgs := [], resources := [], initialized := 0, header := "", output := "" }

/-- Lines 41-269 of `Generate`: everything up to the concatenation of header and body. -/
def synthesize (env : Env) (config : Config) (w : World) : Step State :=
  if config.Type_ ≠ "flogo:app" then .abort (State.init w) .invalidAppType
  else
    let pkgImports := env.ParseImports config.Imports
    let s0 : State := (State.init w).addHeader ("package main\n\n" ++ "import (\n")
    (forRange (fun _ => importStep env) 0 pkgImports s0).bind fun s1 =>
    let s2 := (s1.addHeader " \"github.com/project-flogo/core/api\" \n ").addHeader
      " \"github.com/project-flogo/core/engine\" \n "
    (forRange (fun _ => schemaStep env) 0 (env.rangeOrder config.Schemas) s2).bind fun s3 =>
    let s4 : State :=
      { s3 with schemasResolved := true, propertyManager := some (propertyMap config.Properties),
                resources := [] }
    (forRange (fun _ => factoryStep) 0 env.Factories s4).bind fun s5 =>
    (forRange (resourceStep env) 0 config.Resources (s5.emit (prologue config))).bind fun s6 =>
    (channelsStage config.Channels (propertiesStage env config.Properties s6)).bind fun s7 =>
    (forRange (actionStep env pkgImports) 0 config.Actions s7).bind fun s8 =>
    (forRange (triggerStep env pkgImports) 0 config.Triggers s8).bind fun s9 =>
    .ok (epilogue s9)

/-- The text handed to the parser: `header + output` (line 270). -/
def State.text (s : State) : String := s.header ++ s.output

/-- Lines 270-291 of `Generate`: create the file, parse the text, write it. -/
def validate (env : Env) (file : String) (s : State) : Step State :=
  let s1 : State := { s with output := s.text }
  match env.Create file with
  | some e => .abort s1 (.error e)
  | none =>
    let s2 : State := { s1 with files := mapSet s1.files file "" }
    match env.ParseFile file s2.output with
    | some diag =>
      .abort { s2 with files := mapSet s2.files file s2.output }
        (.error (file ++ ": " ++ diag))
    | none =>
      let printed := env.Fprint s2.output
      let s3 : State := { s2 with files := mapSet s2.files file printed.1 }
      match printed.2 with
      | some e =>
        .abort { s3 with files := mapSet s3.files file (printed.1 ++ s3.output) }
          (.error (file ++ ": " ++ e))
      | none => .ok s3

/-- The function `Generate`. -/
def Generate (env : Env) (config : Config) (file : String) (w : World) : Step State :=
  (synthesize env config w).bind (validate env file)

/-! ## Reading decimal digits back -/

/-- The value a run of decimal digits denotes. -/
def decVal (cs : List Char) : Nat := cs.foldl (fun a c => 10 * a + (c.toNat - 48)) 0

/-! ## Vocabulary of the theorems -/

/-- The concatenation of a list of statements, in order. -/
def joinStmts (stmts : List String) : String := stmts.foldr (fun a b => a ++ b) ""

/-- A text occurs in another as a contiguous run of characters. -/
def occursIn (needle hay : String) : Prop := needle.data <:+: hay.data

/-- Occurrence is decidable, by search. -/
instance occursInDecidable (needle hay : String) : Decidable (occursIn needle hay) :=
  inferInstanceAs (Decidable (needle.data <:+: hay.data))

/-- Group `m` of the channel part: decode, create, error check. -/
def channelGroup (m : Nat) (channel : String) : String :=
  decodeStmt m channel ++ newChannelStmt ++ errorCheckText

/-- A later state of the same pass: the header has only been appended to and
the alias map is the same. -/
def Grows (s t : State) : Prop := (∃ added, t.header = s.header ++ added) ∧ t.pkgs = s.pkgs

/-- Every alias bound in the alias map is the canonical alias of its import,
and the header holds the line of that import: bound to the alias, or blank
when the contribution type is `activity`. -/
def AliasesInHeader (env : Env) (s : State) : Prop :=
  ∀ (key : String) (imp : Import), mapGet s.pkgs key = some imp →
    imp.CanonicalAlias = key ∧
    ∀ kind, env.GetContribType imp = .ok kind →
      (kind ≠ "activity" → occursIn (importLine imp) s.header) ∧
      (kind = "activity" → occursIn (blankImportLine imp) s.header)

/-! ## Sample collaborators and descriptors

A small environment to run the pass on concrete descriptors: imports are
named after the last segment of their path, contribution types come from a
table, the alias registry rejects an alias already registered for the same
contribution type, no factory is a `Generator`, the resource type is the part
of the id before the colon, and the loader of type `skip` opts out of
serialization. -/

/-- The last segment of a slash-separated path. -/
def lastSegment (path : String) : String :=
  String.mk ((path.data.reverse.takeWhile fun c => c != '/').reverse)

/-- The part of a resource id before the colon. -/
def beforeColon (id : String) : String :=
  String.mk (id.data.takeWhile fun c => c != ':')

/-- Rendering `%#v` of the values the samples use. -/
def demoSharpV : Value → String
  | .str s => "\"" ++ s ++ "\""
  | .num n => toString n
  | .bool b => toString b
  | .obj [] => "map[string]interface \x7b\x7d\x7b\x7d"
  | _ => "map[string]interface \x7b\x7d(nil)"

/-- Rendering `%v` of the values the samples use. -/
def demoPlainV : Value → String
  | .str s => s
  | .num n => toString n
  | .bool b => toString b
  | _ => "<nil>"

/-- Rendering `%#v` of a `[]string`, without escapes. -/
def demoSharpVStrings (l : List String) : String :=
  "[]string\x7b" ++ ", ".intercalate (l.map fun e => "\"" ++ e ++ "\"") ++ "\x7d"

/-- A registry that rejects an alias already registered for the same contribution type. -/
def demoRegisterAlias (registered : List (String × String × String))
    (contribType qual _ref : String) : Option String :=
  if registered.any (fun r => r.1 == contribType && r.2.1 == qual) then
    some (contribType ++ " alias already registered: " ++ qual)
  else none

/-- The loader of a resource type: type `skip` opts out of serialization, type
`keep` implements the hook and answers true, other loaders do not implement it. -/
def demoLoader (resType : String) : Loader :=
  { LoadResource := fun rc => .ok ⟨rc.ID⟩,
    Generate := if resType = "skip" then some false else if resType = "keep" then some true
      else none }

/-- The sample environment, for a table of contribution types by import path. -/
def demoEnv (kinds : List (String × String)) : Env :=
  { ParseImports := fun l => l.map fun p => ⟨lastSegment p, p⟩,
    GetContribType := fun val =>
      match mapGet kinds val.GoImportPath with
      | some k => .ok k
      | none => .error ("no descriptor for " ++ val.GoImportPath),
    RegisterAlias := demoRegisterAlias,
    zeroAlias := none,
    SchemaRegister := fun _ _ _ => none,
    ResolveSchemas := fun _ => none,
    rangeOrder := fun m => m,
    Factories := [],
    GetFactory := fun _ => none,
    GetTypeFromID := fun id => .ok (beforeColon id),
    GetLoader := fun t => some (demoLoader t),
    sharpV := demoSharpV,
    plainV := demoPlainV,
    sharpVStrings := demoSharpVStrings,
    Create := fun _ => none,
    ParseFile := fun _ _ => none,
    Fprint := fun src => ("// formatted\n" ++ src, none) }

/-- A world with empty registries and an empty file system. -/
def emptyWorld : World :=
  { aliases := [], schemas := [], schemasResolved := false, propertyManager := none, files := [] }

/-- A descriptor of type `flogo:app` with every list empty. -/
def emptyApp : Config :=
  { Name := "demo", Type_ := "flogo:app", Version := "1.0.0", Description := "", AppModel := "1.1.0",
    Imports := [], Properties := [], Channels := [], Triggers := [], Resources := [],
    Actions := [], Schemas := [] }

/-- The state of a pass in which the alias `t1` is bound. -/
def stateWithT1 : State :=
  { State.init emptyWorld with pkgs := [("t1", ⟨"t1", "github.com/acme/t1"⟩)] }

/-- A handler action that refers to the application-scope action `a1` by id. -/
def actionByIdA1 : HandlerActionConfig :=
  { Config := { Ref := "", Settings := .null, Id := "a1" }, If := "", Input := [], Output := [] }

/-- A resource whose loader opts out of serialization. -/
def skippedResource : ResourceConfig := { ID := "skip:r1", Data := "\x7b\x7d" }

/-- A resource whose loader does not implement the hook. -/
def flowResource : ResourceConfig := { ID := "flow:r2", Data := "\x7b\x7d" }

/-- A descriptor whose type marker is not `flogo:app`. -/
def wrongTypeApp : Config := { emptyApp with Type_ := "flogo:flow", Imports := ["github.com/acme/t1"] }

/-- The sample environment with a printer that fails before writing anything. -/
def failingPrinterEnv : Env :=
  { demoEnv [] with Fprint := fun _ => ("", some "write main.go: no space left on device") }

/-- The sample environment with a parser that rejects every text. -/
def failingParserEnv : Env :=
  { demoEnv [] with ParseFile := fun file _ => some (file ++ ":1:1: expected declaration") }

/-- Two distinct imports with the same canonical alias `rest`. -/
def twoRestImports : Config :=
  { emptyApp with Imports := ["github.com/acme/trigger/rest", "github.com/acme/action/rest"] }

/-- The two `rest` imports are contributions of different types. -/
def restKindsDiffer : List (String × String) :=
  [("github.com/acme/trigger/rest", "trigger"), ("github.com/acme/action/rest", "action")]

/-- The two `rest` imports are contributions of the same type. -/
def restKindsEqual : List (String × String) :=
  [("github.com/acme/trigger/rest", "trigger"), ("github.com/acme/action/rest", "trigger")]

/-- A descriptor with two resources, both serialized. -/
def twoResourcesApp : Config :=
  { emptyApp with Resources := [⟨"flow:r1", "\x7b\x7d"⟩, ⟨"flow:r2", "\x7b\x7d"⟩] }

/-- A descriptor with the single property `x` of type string and value `hello`. -/
def onePropertyApp : Config :=
  { emptyApp with Properties := [⟨"x", "string", .str "hello"⟩] }

/-- A descriptor whose only import is an activity, referred to by an application-scope action. -/
def activityAsAction : Config :=
  { emptyApp with
    Imports := ["github.com/acme/activity/log"],
    Actions := [⟨"log", .null, "a"⟩] }

/-- The import of `activityAsAction` is a contribution of type `activity`. -/
def logIsActivity : List (String × String) := [("github.com/acme/activity/log", "activity")]

/-- A descriptor with a trigger import, a serialized resource and a channel. -/
def restApp : Config :=
  { emptyApp with
    Imports := ["github.com/acme/trigger/rest"],
    Resources := [⟨"flow:r1", "\x7b\x7d"⟩],
    Channels := ["A,10"],
    Triggers := [⟨"#rest", .null, []⟩] }

/-! ## Sample descriptors for reference resolution -/

/-- Contribution types of the imports `rest` (a trigger) and `flow` (an action). -/
def restFlowKinds : List (String × String) :=
  [("github.com/acme/trigger/rest", "trigger"), ("github.com/acme/action/flow", "action")]

/-- A descriptor that imports `rest` and `flow`. -/
def restFlowApp : Config :=
  { emptyApp with Imports := ["github.com/acme/trigger/rest", "github.com/acme/action/flow"] }

/-- An application-scope action that refers to the import `flow` with the sigil. -/
def sigilActionApp : Config := { restFlowApp with Actions := [⟨"#flow", .null, "a1"⟩] }

/-- An application-scope action that refers to the import `flow` by the bare alias. -/
def bareActionApp : Config := { restFlowApp with Actions := [⟨"flow", .null, "a1"⟩] }

/-- A trigger that refers to the import `rest` with the sigil. -/
def sigilTriggerApp : Config := { restFlowApp with Triggers := [⟨"#rest", .null, []⟩] }

/-- A trigger that refers to the import `rest` by the bare alias. -/
def bareTriggerApp : Config := { restFlowApp with Triggers := [⟨"rest", .null, []⟩] }

/-- A trigger whose reference is the empty string. -/
def emptyRefTriggerApp : Config := { restFlowApp with Triggers := [⟨"", .null, []⟩] }

/-! ## Sample collaborators for schemas and generators -/

/-- A descriptor with one schema definition. -/
def oneSchemaApp : Config := { emptyApp with Schemas := [("s1", .obj [])] }

/-- The sample environment with a schema store whose batch resolution reports a failure. -/
def failingResolveEnv : Env :=
  { demoEnv [] with ResolveSchemas := fun _ => some "unable to resolve schema: s1" }

/-- The sample environment with a schema store that refuses every registration. -/
def failingRegisterEnv : Env :=
  { demoEnv [] with SchemaRegister := fun _ id _ => some ("invalid schema: " ++ id) }

/-- A factory whose generator writes a composite literal for the settings. -/
def flowFactory : Factory :=
  { Initialize := none,
    Generate := some fun name _ _ => .ok (name ++ " := &flow.Settings\x7b\x7d") }

/-- A factory whose generator fails. -/
def brokenFactory : Factory :=
  { Initialize := none, Generate := some fun _ _ _ => .error "cannot generate settings" }

/-- The sample environment where the reference `flow` has a generating factory
and the reference `rest` a factory whose generator fails. -/
def generatorEnv : Env :=
  { demoEnv restFlowKinds with
    GetFactory := fun ref =>
      if ref = "flow" then some flowFactory else if ref = "rest" then some brokenFactory
      else none }

/-- An application-scope action whose factory's generator fails. -/
def brokenActionApp : Config := { restFlowApp with Actions := [⟨"rest", .null, "a1"⟩] }

/-- The state of a pass in which the aliases `rest` and `flow` are bound. -/
def stateWithFlow : State :=
  { State.init emptyWorld with
    pkgs := [("rest", ⟨"rest", "github.com/acme/trigger/rest"⟩),
             ("flow", ⟨"flow", "github.com/acme/action/flow"⟩)] }

/-- A handler action with a condition, one input mapping and two output mappings. -/
def mappedAction : HandlerActionConfig :=
  { Config := { Ref := "", Settings := .null, Id := "a1" }, If := "$.x > 1",
    Input := [("in", .str "=$.y")], Output := [("out", .num 3), ("o2", .bool true)] }

/-- A descriptor with a trigger whose handler has the action `mappedAction`. -/
def mappedApp : Config :=
  { restFlowApp with Triggers := [⟨"#rest", .null, [⟨.null, [mappedAction]⟩]⟩] }

/-- A descriptor with a serialized resource, a property, a channel, an
application-scope action with an id, and a trigger whose handler has an inline action. -/
def inlineApp : Config :=
  { restFlowApp with
    Resources := [⟨"flow:r1", "\x7b\x7d"⟩],
    Properties := [⟨"x", "string", .str "hello"⟩],
    Channels := ["A,10"],
    Actions := [⟨"flow", .null, "a1"⟩],
    Triggers := [⟨"#rest", .null, [⟨.null, [⟨⟨"flow", .null, ""⟩, "", [], []⟩]⟩]⟩] }

/-- The sample environment, with `range` visiting the entries of a map in the opposite order. -/
def reversedRangeEnv : Env := { demoEnv restFlowKinds with rangeOrder := List.reverse }

/-! ## The body as a sequence of pieces

The text of the body read as the sequence of the appends that produce it,
each tagged with its kind. -/

/-- One append to the body. -/
inductive Piece where
  /-- Text of the driver that does not assign `err`. -/
  | plain (text : String)
  /-- A statement of the driver that assigns `err`. -/
  | assign (text : String)
  /-- A call of the closure `errorCheck`. -/
  | check
  /-- A fragment returned by a pluggable generator. -/
  | fragment (code : String)
deriving DecidableEq, Repr

/-- The text of a piece. -/
def Piece.render : Piece → String
  | .plain text => text
  | .assign text => text
  | .check => errorCheckText
  | .fragment code => code

/-- The text of a sequence of pieces. -/
def renderPieces (ps : List Piece) : String := joinStmts (ps.map Piece.render)

/-- The pieces of a loop: those of each element, in index order from 0. -/
def indexed {α : Type} (xs : List α) (f : Nat → α → List Piece) : List Piece :=
  ((xs.enumFrom 0).map fun p => f p.1 p.2).flatten

/-- Whether the loader of a resource has it serialized (lines 142-145). -/
def serialized (env : Env) (rc : ResourceConfig) : Bool :=
  match env.GetTypeFromID rc.ID with
  | .error _ => false
  | .ok resType =>
    match env.GetLoader resType with
    | none => false
    | some loader =>
      match loader.Generate with
      | some g => g
      | none => true

/-- The pieces of resource `i` (lines 146-150). -/
def resourcePieces (env : Env) (i : Nat) (rc : ResourceConfig) : List Piece :=
  if serialized env rc then
    [.plain (resourceLiteralStmt i rc.Data), .plain (addResourceStmt i rc.ID)]
  else []

/-- The pieces of the properties (lines 157-160). -/
def propertyPieces (env : Env) (props : List Attribute) : List Piece :=
  props.map fun property => .plain (addPropertyStmt env property)

/-- The pieces of channel `i` (lines 167-173). -/
def channelPieces (i : Nat) (channel : String) : List Piece :=
  [.plain (decodeStmt i channel), .assign newChannelStmt, .check]

/-- The pieces of the settings of an action (lines 186-196 and 225-235). -/
def settingsPieces (env : Env) (imports : List Import) (name : String) (act : ActionConfig) :
    List Piece :=
  match (env.GetFactory act.Ref).bind Factory.Generate with
  | some generator =>
    match generator name imports act with
    | .error _ => []
    | .ok code => [.plain "\n", .fragment code, .plain "\n"]
  | none => [.plain (settingsLiteralStmt env name act.Settings)]

/-- The qualifier written for a key of the alias map (empty when the lookup aborts). -/
def qualifierOf (env : Env) (pkgs : List (String × Import)) (key : String) : String :=
  (canonicalAliasOf env (mapGet pkgs key)).getD ""

/-- The pieces of application-scope action `i` (lines 185-198). -/
def actionPieces (env : Env) (imports : List Import) (pkgs : List (String × Import)) (i : Nat)
    (act : ActionConfig) : List Piece :=
  settingsPieces env imports (actionSettingsName i) act
    ++ [.assign (addActionStmt act.Id (qualifierOf env pkgs act.Ref) (actionSettingsName i)),
        .check]

/-- The pieces of handler action `(i, j, k)` (lines 214-255). -/
def handlerActionPieces (env : Env) (imports : List Import) (pkgs : List (String × Import))
    (i j k : Nat) (act : HandlerActionConfig) : List Piece :=
  (if act.Config.Id ≠ "" then [.assign (lookupActionStmt i j k act.Config.Id)]
    else settingsPieces env imports (settingsName i j k) act.Config
      ++ [.assign (newActionStmt i j k (qualifierOf env pkgs act.Config.Ref)
            (settingsName i j k))])
    ++ [.check]
    ++ (if act.If ≠ "" then [.plain (setConditionStmt i j k act.If)] else [])
    ++ (if 0 < act.Input.length then [.plain (setInputMappingsStmt env i j k act.Input)] else [])
    ++ (if 0 < act.Output.length then [.plain (setOutputMappingsStmt env i j k act.Output)]
        else [])

/-- The pieces of handler `(i, j)` (lines 211-257). -/
def handlerPieces (env : Env) (imports : List Import) (pkgs : List (String × Import))
    (i j : Nat) (handler : HandlerConfig) : List Piece :=
  [.assign (newHandlerStmt env i j handler.Settings), .check]
    ++ indexed handler.Actions (handlerActionPieces env imports pkgs i j)

/-- The qualifier written for a trigger reference (empty when the resolution aborts). -/
def triggerQualifier (env : Env) (pkgs : List (String × Import)) (ref : String) : String :=
  match triggerImport pkgs ref with
  | .ok trigImport => (canonicalAliasOf env trigImport).getD ""
  | .error _ => ""

/-- The pieces of trigger `i` (lines 209-259). -/
def triggerPieces (env : Env) (imports : List Import) (pkgs : List (String × Import))
    (i : Nat) (trigger : TriggerConfig) : List Piece :=
  .plain (newTriggerStmt env i (triggerQualifier env pkgs trigger.Ref) trigger.Settings)
    :: indexed trigger.Handlers (handlerPieces env imports pkgs i)

/-- The pieces of the engine statements (lines 263-267). -/
def enginePieces : List Piece :=
  [.assign "e, err := api.NewEngine(app)\n", .check, .plain "engine.RunEngine(e)\n",
   .plain "\x7d\n"]

/-- The pieces of the whole body after the prologue, section by section. -/
def bodyPieces (env : Env) (config : Config) (pkgs : List (String × Import)) : List Piece :=
  indexed config.Resources (resourcePieces env)
    ++ propertyPieces env config.Properties
    ++ indexed config.Channels channelPieces
    ++ indexed config.Actions (actionPieces env (env.ParseImports config.Imports) pkgs)
    ++ indexed config.Triggers (triggerPieces env (env.ParseImports config.Imports) pkgs)
    ++ enginePieces

/-- Every statement that assigns `err` is immediately followed by an error
check, and every error check immediately follows such a statement. -/
def checksFollowAssign : List Piece → Bool
  | [] => true
  | .assign _ :: .check :: rest => checksFollowAssign rest
  | .assign _ :: _ => false
  | .check :: _ => false
  | _ :: rest => checksFollowAssign rest

/-- The number of error checks in a sequence of pieces. -/
def countChecks (ps : List Piece) : Nat := ps.count .check

/-! ## A sample descriptor with every section -/

/-- Contribution types of the imports of `richApp`. -/
def richKinds : List (String × String) :=
  [("github.com/acme/trigger/rest", "trigger"), ("github.com/acme/action/flow", "action"),
   ("github.com/acme/activity/log", "activity")]

/-- A descriptor with resources, a property, channels, an application-scope
action and a trigger with one handler and two handler actions. -/
def richApp : Config :=
  { emptyApp with
    Imports := ["github.com/acme/trigger/rest", "github.com/acme/action/flow",
                "github.com/acme/activity/log"],
    Resources := [⟨"flow:r1", "\x7b\x7d"⟩, ⟨"skip:r2", "x"⟩],
    Properties := [⟨"x", "string", .str "hello"⟩],
    Channels := ["A,10", "B,5"],
    Actions := [⟨"flow", .null, "a1"⟩],
    Triggers := [⟨"#rest", .null,
      [⟨.null, [actionByIdA1, ⟨⟨"flow", .obj [], ""⟩, "$.x > 1", [("in", .str "=$.y")], []⟩]⟩]⟩] }

/-! # Theorems -/

/-! ## Stages and loops -/

@[simp] theorem Step.bind_ok {σ : Type} (s : σ) (f : σ → Step σ) : (Step.ok s).bind f = f s := rfl

@[simp] theorem Step.bind_abort {σ : Type} (s : σ) (e : Failure) (f : σ → Step σ) :
    (Step.abort s e).bind f = Step.abort s e := rfl

theorem Step.bind_eq_ok {σ : Type} {x : Step σ} {f : σ → Step σ} {t : σ}
    (h : x.bind f = Step.ok t) : ∃ s, x = Step.ok s ∧ f s = Step.ok t := by
  cases x with
  | ok s => exact ⟨s, rfl, h⟩
  | abort s e => simp at h

@[simp] theorem forRange_nil {α σ : Type} (body : Nat → α → σ → Step σ) (i : Nat) (s : σ) :
    forRange body i [] s = Step.ok s := rfl

@[simp] theorem forRange_cons {α σ : Type} (body : Nat → α → σ → Step σ) (i : Nat) (x : α)
    (xs : List α) (s : σ) :
    forRange body i (x :: xs) s = (body i x s).bind (forRange body (i + 1) xs) := rfl

theorem errorCheck_eq (output : String) : errorCheck output = output ++ errorCheckText := by
  simp [errorCheck, errorCheckText, String.append_assoc]

theorem State.emit_emit (s : State) (a b : String) : (s.emit a).emit b = s.emit (a ++ b) := by
  simp [State.emit, String.append_assoc]

theorem State.check_eq (s : State) : s.check = s.emit errorCheckText := by
  simp [State.check, State.emit, errorCheck_eq]

@[simp] theorem State.emit_empty (s : State) : s.emit "" = s := by
  simp [State.emit]

@[simp] theorem joinStmts_nil : joinStmts [] = "" := rfl

@[simp] theorem joinStmts_cons (a : String) (l : List String) :
    joinStmts (a :: l) = a ++ joinStmts l := rfl

/-! ## The naming scheme is injective -/

theorem digitChar_val {m : Nat} (h : m < 10) : (Nat.digitChar m).toNat - 48 = m := by
  interval_cases m <;> rfl

theorem digitChar_isDigit {m : Nat} (h : m < 10) : (Nat.digitChar m).isDigit = true := by
  interval_cases m <;> rfl

theorem decVal_toDigitsCore (fuel : Nat) : ∀ (n : Nat) (acc : List Char), n < fuel →
    decVal (Nat.toDigitsCore 10 fuel n acc)
      = acc.foldl (fun a c => 10 * a + (c.toNat - 48)) n := by
  induction fuel with
  | zero => intro n acc h; omega
  | succ fuel ih =>
    intro n acc hn
    have hmod : n % 10 < 10 := Nat.mod_lt n (by omega)
    by_cases hq : n / 10 = 0
    · have hsmall : n % 10 = n := Nat.mod_eq_of_lt (by omega)
      have hval : (Nat.digitChar n).toNat - 48 = n := digitChar_val (hsmall ▸ hmod)
      simp [Nat.toDigitsCore, hq, decVal, hsmall, hval]
    · have hrec := ih (n / 10) (Nat.digitChar (n % 10) :: acc) (by omega)
      have hsplit : 10 * (n / 10) + n % 10 = n := Nat.div_add_mod n 10
      simp only [Nat.toDigitsCore, hq, if_false]
      rw [hrec, List.foldl_cons, digitChar_val hmod, hsplit]

theorem toDigitsCore_chars (fuel : Nat) : ∀ (n : Nat) (acc : List Char),
    ∀ c ∈ Nat.toDigitsCore 10 fuel n acc, c.isDigit = true ∨ c ∈ acc := by
  induction fuel with
  | zero => intro n acc c hc; exact Or.inr hc
  | succ fuel ih =>
    intro n acc c hc
    have hd : (Nat.digitChar (n % 10)).isDigit = true :=
      digitChar_isDigit (Nat.mod_lt n (by omega))
    simp only [Nat.toDigitsCore] at hc
    split at hc
    · rcases List.mem_cons.mp hc with rfl | hmem
      · exact Or.inl hd
      · exact Or.inr hmem
    · rcases ih _ _ c hc with h | h
      · exact Or.inl h
      · rcases List.mem_cons.mp h with rfl | hmem
        · exact Or.inl hd
        · exact Or.inr hmem

theorem toDigitsCore_ne_nil (fuel : Nat) : ∀ (n : Nat) (acc : List Char),
    acc ≠ [] ∨ 0 < fuel → Nat.toDigitsCore 10 fuel n acc ≠ [] := by
  induction fuel with
  | zero =>
    intro n acc h
    rcases h with h | h
    · exact h
    · omega
  | succ fuel ih =>
    intro n acc _
    simp only [Nat.toDigitsCore]
    split
    · exact List.cons_ne_nil _ _
    · exact ih _ _ (Or.inl (List.cons_ne_nil _ _))

theorem toString_data (n : Nat) : (toString n).data = Nat.toDigits 10 n := rfl

theorem toDigits_run (n : Nat) :
    Nat.toDigits 10 n ≠ [] ∧ (∀ c ∈ Nat.toDigits 10 n, c.isDigit = true) ∧
      decVal (Nat.toDigits 10 n) = n := by
  refine ⟨toDigitsCore_ne_nil (n + 1) n [] (Or.inr (Nat.succ_pos n)), ?_, ?_⟩
  · intro c hc
    rcases toDigitsCore_chars (n + 1) n [] c hc with h | h
    · exact h
    · cases h
  · exact decVal_toDigitsCore (n + 1) n [] (Nat.lt_succ_self n)

theorem toDigits_inj {m n : Nat} (h : Nat.toDigits 10 m = Nat.toDigits 10 n) : m = n := by
  have := congrArg decVal h
  rwa [(toDigits_run m).2.2, (toDigits_run n).2.2] at this

theorem sep_split (sep : Char) : ∀ (d1 d2 r1 r2 : List Char),
    (∀ c ∈ d1, c ≠ sep) → (∀ c ∈ d2, c ≠ sep) →
    d1 ++ sep :: r1 = d2 ++ sep :: r2 → d1 = d2 ∧ r1 = r2 := by
  intro d1
  induction d1 with
  | nil =>
    intro d2 r1 r2 _ h2 h
    cases d2 with
    | nil => simpa using h
    | cons c d2 =>
      simp only [List.nil_append, List.cons_append, List.cons.injEq] at h
      exact absurd h.1.symm (h2 c (List.mem_cons_self _ _))
  | cons a d1 ih =>
    intro d2 r1 r2 h1 h2 h
    cases d2 with
    | nil =>
      simp only [List.nil_append, List.cons_append, List.cons.injEq] at h
      exact absurd h.1 (h1 a (List.mem_cons_self _ _))
    | cons c d2 =>
      simp only [List.cons_append, List.cons.injEq] at h
      obtain ⟨rfl, h⟩ := h
      obtain ⟨hd, hr⟩ := ih d2 r1 r2 (fun x hx => h1 x (List.mem_cons_of_mem _ hx))
        (fun x hx => h2 x (List.mem_cons_of_mem _ hx)) h
      exact ⟨by rw [hd], hr⟩

theorem toDigits_no_underscore (n : Nat) : ∀ c ∈ Nat.toDigits 10 n, c ≠ '_' := by
  intro c hc h
  have := (toDigits_run n).2.1 c hc
  rw [h] at this
  exact absurd this (by decide)

theorem toDigits_head (n : Nat) : ∃ c rest, Nat.toDigits 10 n = c :: rest ∧ c.isDigit = true := by
  obtain ⟨hne, hdig, _⟩ := toDigits_run n
  cases h : Nat.toDigits 10 n with
  | nil => exact absurd h hne
  | cons c rest => exact ⟨c, rest, rfl, hdig c (h ▸ List.mem_cons_self _ _)⟩

theorem digits_pair_inj {a b : Nat} {r s : List Char}
    (h : Nat.toDigits 10 a ++ '_' :: r = Nat.toDigits 10 b ++ '_' :: s) : a = b ∧ r = s := by
  obtain ⟨h1, h2⟩ := sep_split '_' _ _ _ _ (toDigits_no_underscore a) (toDigits_no_underscore b) h
  exact ⟨toDigits_inj h1, h2⟩

theorem digits_not_S {a : Nat} {r s : List Char}
    (h : Nat.toDigits 10 a ++ r = 'S' :: s) : False := by
  obtain ⟨c, rest, hc, hd⟩ := toDigits_head a
  rw [hc] at h
  simp only [List.cons_append, List.cons.injEq] at h
  rw [h.1] at hd
  exact absurd hd (by decide)

/-- C1. The naming scheme is injective: two generated identifiers are equal
only if they are of the same kind and have the same index tuple, and no
generated identifier is one of the fixed names `app`, `err`, `name`,
`buffSize`, `e`. -/
theorem ident_render_injective :
    Function.Injective Ident.render ∧ ∀ x : Ident, x.render ∉ fixedNames := by
  constructor
  · intro x y h
    cases x <;> cases y <;>
      simp only [Ident.render, resourceName, actionSettingsName, trgName, handlerName,
        actionName, settingsName] at h <;>
      rw [String.ext_iff] at h <;>
      simp [toString_data] at h
    case resource.resource => rw [toDigits_inj h]
    case actionSettings.actionSettings => rw [toDigits_inj h]
    case trg.trg => rw [toDigits_inj h]
    case actionSettings.action => exact (digits_not_S h.symm).elim
    case action.actionSettings => exact (digits_not_S h).elim
    case handler.handler =>
      obtain ⟨h1, h2⟩ := digits_pair_inj h
      rw [h1, toDigits_inj h2]
    case action.action =>
      obtain ⟨h1, h2⟩ := digits_pair_inj h
      obtain ⟨h3, h4⟩ := digits_pair_inj h2
      rw [h1, h3, toDigits_inj h4]
    case settings.settings =>
      obtain ⟨h1, h2⟩ := digits_pair_inj h
      obtain ⟨h3, h4⟩ := digits_pair_inj h2
      rw [h1, h3, toDigits_inj h4]
  · intro x hx
    simp only [fixedNames, List.mem_cons, List.mem_singleton, List.not_mem_nil, or_false] at hx
    cases x <;>
      simp only [Ident.render, resourceName, actionSettingsName, trgName, handlerName,
        actionName, settingsName] at hx <;>
      simp only [String.ext_iff] at hx <;>
      simp [toString_data] at hx


/-! ## Handler actions referring to an application-scope action -/

/-- C2. A handler action at (i,j,k) with a non-empty id emits exactly the
lookup statement `action<i>_<j>_<k>, err := handler<i>_<j>.NewAction("<id>")`
with the id verbatim, then the error check (then condition and mappings, if
any): no settings statement, no construction statement, and the same text
whatever the factories and generators of the environment are.  Hence a trigger
whose reference resolves, with one handler and one such action without
condition and mappings, yields exactly trigger construction, handler
construction, error check, lookup, error check. -/
theorem handlerAction_by_id (env : Env) (imports : List Import) (i j k : Nat)
    (act : HandlerActionConfig) (s : State) (hid : act.Config.Id ≠ "") :
    handlerActionHead env imports i j k act s
      = Step.ok (s.emit ("action" ++ toString i ++ "_" ++ toString j ++ "_" ++ toString k
          ++ ", err := " ++ ("handler" ++ toString i ++ "_" ++ toString j)
          ++ ".NewAction(\"" ++ act.Config.Id ++ "\")\n")) ∧
    (∀ (env2 : Env) (imports2 : List Import),
      handlerActionHead env2 imports2 i j k act s = handlerActionHead env imports i j k act s) ∧
    handlerActionStep env imports i j k act s
      = Step.ok (handlerActionTail env i j k act (s.emit (lookupActionStmt i j k act.Config.Id))) ∧
    (act.If = "" → act.Input = [] → act.Output = [] →
      handlerActionStep env imports i j k act s
        = Step.ok (s.emit (lookupActionStmt i j k act.Config.Id ++ errorCheckText)) ∧
      ∀ (n : Nat) (ref : String) (ts hs : Value) (imp : Option Import) (qual : String),
        triggerImport s.pkgs ref = .ok imp → canonicalAliasOf env imp = some qual →
        triggerStep env imports n ⟨ref, ts, [⟨hs, [act]⟩]⟩ s
          = Step.ok (s.emit (newTriggerStmt env n qual ts ++ newHandlerStmt env n 0 hs
              ++ errorCheckText ++ lookupActionStmt n 0 0 act.Config.Id ++ errorCheckText))) := by
  have hhead : ∀ (a b c : Nat) (t : State), handlerActionHead env imports a b c act t
      = Step.ok (t.emit (lookupActionStmt a b c act.Config.Id)) := by
    intro a b c t
    simp [handlerActionHead, hid]
  have hstep : ∀ (a b c : Nat) (t : State), handlerActionStep env imports a b c act t
      = Step.ok (handlerActionTail env a b c act (t.emit (lookupActionStmt a b c act.Config.Id))) := by
    intro a b c t
    simp [handlerActionStep, hhead]
  refine ⟨?_, ?_, hstep i j k s, ?_⟩
  · rw [hhead]
    simp [lookupActionStmt, actionName, handlerName, String.append_assoc]
  · intro env2 imports2
    simp [handlerActionHead, hid]
  · intro hif hin hout
    have htail : ∀ (a b c : Nat) (t : State), handlerActionTail env a b c act t = t.check := by
      intro a b c t
      simp [handlerActionTail, hif, hin, hout]
    refine ⟨?_, ?_⟩
    · rw [hstep, htail, State.check_eq, State.emit_emit]
    · intro n ref ts hs imp qual himp hq
      simp only [triggerStep, himp, hq, forRange_cons, forRange_nil, handlerStep, hstep, htail,
        Step.bind_ok, State.check_eq, State.emit_emit, String.append_assoc]

/-- The example of C2: trigger `#t1`, one handler, one action referring to `a1`. -/
theorem handlerAction_by_id_witness :
    actionByIdA1.Config.Id ≠ "" ∧
    triggerStep (demoEnv []) [] 0 ⟨"#t1", .null, [⟨.null, [actionByIdA1]⟩]⟩ stateWithT1
      = Step.ok (stateWithT1.emit
          ("trg0 := app.NewTrigger(&t1.Trigger\x7b\x7d, map[string]interface \x7b\x7d(nil))\n"
            ++ "handler0_0, err := trg0.NewHandler(map[string]interface \x7b\x7d(nil))\n"
            ++ "if err != nil \x7b\npanic(err)\n\x7d\n"
            ++ "action0_0_0, err := handler0_0.NewAction(\"a1\")\n"
            ++ "if err != nil \x7b\npanic(err)\n\x7d\n")) :=
  ⟨by decide,
    ((handlerAction_by_id (demoEnv []) [] 0 0 0 actionByIdA1 stateWithT1 (by decide)).2.2.2
      rfl rfl rfl).2 0 "#t1" .null .null (some ⟨"t1", "github.com/acme/t1"⟩) "t1" rfl rfl⟩

/-! ## Channels -/

theorem channelLoop_eq (channels : List String) : ∀ (i : Nat) (s : State),
    forRange channelStep i channels s
      = Step.ok (s.emit (joinStmts ((channels.enumFrom i).map fun p => channelGroup p.1 p.2))) := by
  induction channels with
  | nil => intro i s; simp
  | cons c cs ih =>
    intro i s
    rw [forRange_cons, channelStep, Step.bind_ok, ih]
    simp [State.check_eq, State.emit_emit, channelGroup, String.append_assoc]

/-- C3. For a non-empty channel list the channel part of the body is exactly
one group per channel, in index order, each group being the decode statement
of the channel, `_, err = channels.New(name, buffSize)` and an error check;
the decode statement of group 0 declares `name, buffSize` and that of every
later group assigns them; the channels import is added to the header once.
For an empty channel list neither header nor body changes. -/
theorem channelsStage_groups (s : State) :
    channelsStage [] s = Step.ok s ∧
    (∀ (c : String) (cs : List String),
      channelsStage (c :: cs) s
        = Step.ok ((s.addHeader " \"github.com/project-flogo/core/engine/channels\" \n ").emit
            (joinStmts (((c :: cs).enumFrom 0).map fun p => channelGroup p.1 p.2)))) ∧
    (∀ (m : Nat) (c : String),
      channelGroup m c
        = (if m = 0 then "name, buffSize := channels.Decode(\"" ++ c ++ "\")\n"
            else "name, buffSize = channels.Decode(\"" ++ c ++ "\")\n")
          ++ "_, err = channels.New(name, buffSize)\n"
          ++ "if err != nil \x7b\npanic(err)\n\x7d\n") := by
  refine ⟨rfl, ?_, ?_⟩
  · intro c cs
    simp only [channelsStage, List.length_cons, Nat.zero_lt_succ, if_true]
    exact channelLoop_eq (c :: cs) 0 _
  · intro m c
    simp only [channelGroup, decodeStmt, newChannelStmt, errorCheckText]
    rfl

/-! ## Resources -/

theorem mapGet_mapSet {α : Type} (m : List (String × α)) (k : String) (v : α) :
    mapGet (mapSet m k v) k = some v := by
  induction m with
  | nil => simp [mapSet, mapGet]
  | cons p rest ih =>
    obtain ⟨k', v'⟩ := p
    by_cases h : k' = k
    · simp [mapSet, mapGet, h]
    · simp [mapSet, mapGet, h, ih]

/-- C4. When a resource loads, its step stores the loaded resource under its
id in the resource map in every case; when the loader implements the hook and
answers false the step changes neither header nor body, otherwise it appends
the `encoding/json` import to the header and exactly the two statements
`resource<i> := json.RawMessage(...)` and `app.AddResource("<id>", resource<i>)`
to the body. -/
theorem resourceStep_policy (env : Env) (i : Nat) (rc : ResourceConfig) (s : State)
    (resType : String) (loader : Loader) (res : Resource)
    (ht : env.GetTypeFromID rc.ID = .ok resType) (hl : env.GetLoader resType = some loader)
    (hr : loader.LoadResource rc = .ok res) :
    (loader.Generate = some false →
      resourceStep env i rc s = Step.ok { s with resources := mapSet s.resources rc.ID res }) ∧
    (loader.Generate ≠ some false →
      resourceStep env i rc s
        = Step.ok { s with
            header := s.header ++ " \"encoding/json\" \n ",
            output := s.output ++ ("resource" ++ toString i ++ " := json.RawMessage(`" ++ rc.Data
              ++ "`)\n") ++ ("app.AddResource(\"" ++ rc.ID ++ "\", " ++ "resource" ++ toString i
              ++ ")\n"),
            resources := mapSet s.resources rc.ID res }) ∧
    mapGet (resourceStep env i rc s).state.resources rc.ID = some res := by
  have hgen : loader.Generate ≠ some false →
      resourceStep env i rc s
        = Step.ok { s with
            header := s.header ++ " \"encoding/json\" \n ",
            output := s.output ++ ("resource" ++ toString i ++ " := json.RawMessage(`" ++ rc.Data
              ++ "`)\n") ++ ("app.AddResource(\"" ++ rc.ID ++ "\", " ++ "resource" ++ toString i
              ++ ")\n"),
            resources := mapSet s.resources rc.ID res } := by
    intro h
    have hg : (match loader.Generate with | some g => g | none => true) = true := by
      cases hG : loader.Generate with
      | none => rfl
      | some g =>
        cases g with
        | true => rfl
        | false => exact absurd hG h
    simp only [resourceStep, ht, hl, hr, hg, if_true, State.emit, State.addHeader,
      resourceLiteralStmt, addResourceStmt, resourceName, String.append_assoc]
  have hskip : loader.Generate = some false →
      resourceStep env i rc s = Step.ok { s with resources := mapSet s.resources rc.ID res } := by
    intro h
    simp [resourceStep, ht, hl, hr, h]
  refine ⟨hskip, hgen, ?_⟩
  by_cases h : loader.Generate = some false
  · rw [hskip h]
    exact mapGet_mapSet _ _ _
  · rw [hgen h]
    exact mapGet_mapSet _ _ _

/-- The two cases of C4 on sample resources: one loader opts out, one has no hook. -/
theorem resourceStep_policy_witness :
    (resourceStep (demoEnv []) 0 skippedResource stateWithT1
        = Step.ok { stateWithT1 with resources := [("skip:r1", ⟨"skip:r1"⟩)] }) ∧
    (resourceStep (demoEnv []) 1 flowResource stateWithT1
        = Step.ok { stateWithT1 with
            header := " \"encoding/json\" \n ",
            output := "resource1 := json.RawMessage(`\x7b\x7d`)\napp.AddResource(\"flow:r2\", resource1)\n",
            resources := [("flow:r2", ⟨"flow:r2"⟩)] }) ∧
    mapGet (resourceStep (demoEnv []) 0 skippedResource stateWithT1).state.resources "skip:r1"
      = some ⟨"skip:r1"⟩ :=
  ⟨(resourceStep_policy (demoEnv []) 0 skippedResource stateWithT1 "skip" (demoLoader "skip")
      ⟨"skip:r1"⟩ rfl rfl rfl).1 rfl,
   (resourceStep_policy (demoEnv []) 1 flowResource stateWithT1 "flow" (demoLoader "flow")
      ⟨"flow:r2"⟩ rfl rfl rfl).2.1 (by decide),
   (resourceStep_policy (demoEnv []) 0 skippedResource stateWithT1 "skip" (demoLoader "skip")
      ⟨"skip:r1"⟩ rfl rfl rfl).2.2⟩

/-! ## The import stage -/

theorem forRange_state_inv {α σ : Type} {body : Nat → α → σ → Step σ} {P : σ → Prop}
    (hb : ∀ i x s, P s → P (body i x s).state) (xs : List α) :
    ∀ (i : Nat) (s : σ), P s → P (forRange body i xs s).state := by
  induction xs with
  | nil => intro i s h; exact h
  | cons x xs ih =>
    intro i s h
    rw [forRange_cons]
    have hx := hb i x s h
    cases hbx : body i x s with
    | ok t =>
      rw [hbx] at hx
      exact ih (i + 1) t hx
    | abort t e =>
      rw [hbx] at hx
      exact hx

theorem importStep_state (env : Env) (val : Import) (s : State) :
    (importStep env val s).state.pkgs = mapSet s.pkgs val.CanonicalAlias val ∧
    (importStep env val s).state.output = s.output ∧
    (importStep env val s).state.files = s.files ∧
    (importStep env val s).failure
      = (match env.GetContribType val with
          | .error e => some (Failure.error e)
          | .ok k =>
            (env.RegisterAlias s.aliases k val.CanonicalAlias val.GoImportPath).map
              Failure.error) := by
  unfold importStep
  cases env.GetContribType val with
  | error e => simp [Step.failure, Step.state]
  | ok k =>
    simp only []
    cases env.RegisterAlias s.aliases k val.CanonicalAlias val.GoImportPath with
    | some e => simp [Step.failure, Step.state]
    | none => by_cases hk : k = "activity" <;> simp [Step.failure, Step.state, hk, State.addHeader]

/-- C5, the claim as stated fails: two distinct imports with the same canonical
alias `rest`, registered for different contribution types, do not abort the
pass; the alias map ends up binding `rest` to the second import only, and the
header holds a line for each. -/
theorem duplicate_alias_not_rejected :
    (demoEnv restKindsDiffer).ParseImports twoRestImports.Imports
      = [⟨"rest", "github.com/acme/trigger/rest"⟩, ⟨"rest", "github.com/acme/action/rest"⟩] ∧
    (Generate (demoEnv restKindsDiffer) twoRestImports "main.go" emptyWorld).failure = none ∧
    (Generate (demoEnv restKindsDiffer) twoRestImports "main.go" emptyWorld).state.pkgs
      = [("rest", ⟨"rest", "github.com/acme/action/rest"⟩)] ∧
    (Generate (demoEnv restKindsDiffer) twoRestImports "main.go" emptyWorld).state.header
      = "package main\n\nimport (\nrest \"github.com/acme/trigger/rest\"\n"
        ++ "rest \"github.com/acme/action/rest\"\n \"github.com/project-flogo/core/api\" \n "
        ++ " \"github.com/project-flogo/core/engine\" \n \n )\n" := by
  refine ⟨rfl, rfl, rfl, rfl⟩

/-- C5, amended. The import stage aborts exactly when the dependency resolver
or the alias registration returns an error for an import, with that error; an
abort of the import stage ends the pass before any body text is emitted and
before the output file is touched. The alias map of the pass makes no check of
its own: each import overwrites the entry under its canonical alias. -/
theorem import_stage_abort (env : Env) (config : Config) (file : String) (w : World)
    (ht : config.Type_ = "flogo:app") :
    (∀ (val : Import) (s : State),
      (importStep env val s).state.pkgs = mapSet s.pkgs val.CanonicalAlias val ∧
      mapGet (importStep env val s).state.pkgs val.CanonicalAlias = some val ∧
      (importStep env val s).failure
        = (match env.GetContribType val with
            | .error e => some (Failure.error e)
            | .ok k =>
              (env.RegisterAlias s.aliases k val.CanonicalAlias val.GoImportPath).map
                Failure.error)) ∧
    (∀ (s : State) (f : Failure),
      forRange (fun _ => importStep env) 0 (env.ParseImports config.Imports)
          ((State.init w).addHeader ("package main\n\n" ++ "import (\n")) = Step.abort s f →
      Generate env config file w = Step.abort s f ∧ s.output = "" ∧ s.files = w.files) := by
  refine ⟨?_, ?_⟩
  · intro val s
    obtain ⟨h1, _, _, h4⟩ := importStep_state env val s
    exact ⟨h1, by rw [h1]; exact mapGet_mapSet _ _ _, h4⟩
  · intro s f h
    have hinv := @forRange_state_inv Import State (fun _ => importStep env)
      (fun t : State => t.output = "" ∧ t.files = w.files)
      (fun _ val t ht => by
        obtain ⟨_, h2, h3, _⟩ := importStep_state env val t
        exact ⟨h2.trans ht.1, h3.trans ht.2⟩)
      (env.ParseImports config.Imports) 0
      ((State.init w).addHeader ("package main\n\n" ++ "import (\n")) ⟨rfl, rfl⟩
    rw [h] at hinv
    refine ⟨?_, hinv.1, hinv.2⟩
    simp only [Generate, synthesize, ht, ne_eq, not_true_eq_false, if_false, h, Step.bind_abort]

/-- The amended C5 on two imports with alias `rest` of the same contribution
type: the registration of the second fails and the pass ends there. -/
theorem import_stage_abort_witness :
    twoRestImports.Type_ = "flogo:app" ∧
    (Generate (demoEnv restKindsEqual) twoRestImports "main.go" emptyWorld).failure
      = some (Failure.error "trigger alias already registered: rest") ∧
    (Generate (demoEnv restKindsEqual) twoRestImports "main.go" emptyWorld).state.output = "" ∧
    (Generate (demoEnv restKindsEqual) twoRestImports "main.go" emptyWorld).state.files = [] :=
  have h := (import_stage_abort (demoEnv restKindsEqual) twoRestImports "main.go" emptyWorld rfl).2
    (forRange (fun _ => importStep (demoEnv restKindsEqual)) 0
      ((demoEnv restKindsEqual).ParseImports twoRestImports.Imports)
      ((State.init emptyWorld).addHeader ("package main\n\n" ++ "import (\n"))).state
    (Failure.error "trigger alias already registered: rest") rfl
  ⟨rfl, by rw [h.1]; rfl, by rw [h.1]; exact h.2.1, by rw [h.1]; exact h.2.2⟩

/-! ## The import list of the header -/

set_option maxRecDepth 100000

/-- C6, the code at the failing input: with two serialized resources the pass
reaches concatenation and the header import list holds the path
`encoding/json` twice, once per resource. -/
theorem json_import_repeated :
    (Generate (demoEnv []) twoResourcesApp "main.go" emptyWorld).failure = none ∧
    (synthesize (demoEnv []) twoResourcesApp emptyWorld).state.header
      = "package main\n\nimport (\n \"github.com/project-flogo/core/api\" \n "
        ++ " \"github.com/project-flogo/core/engine\" \n "
        ++ " \"encoding/json\" \n " ++ " \"encoding/json\" \n " ++ "\n )\n" ∧
    (synthesize (demoEnv []) twoResourcesApp emptyWorld).state.output
      = "/*\n* Name: demo\n* Type: flogo:app\n* Version: 1.0.0\n* Description: \n"
        ++ "* AppModel: 1.1.0\n*/\n\nfunc main() \x7b\nvar err error\napp := api.NewApp()\n"
        ++ "resource0 := json.RawMessage(`\x7b\x7d`)\napp.AddResource(\"flow:r1\", resource0)\n"
        ++ "resource1 := json.RawMessage(`\x7b\x7d`)\napp.AddResource(\"flow:r2\", resource1)\n"
        ++ "e, err := api.NewEngine(app)\nif err != nil \x7b\npanic(err)\n\x7d\n"
        ++ "engine.RunEngine(e)\n\x7d\n" := by
  refine ⟨rfl, rfl, rfl⟩

/-! ## Header entries for the qualifiers of the body -/

theorem occursIn_append_self (e h : String) : occursIn e (h ++ e) := by
  unfold occursIn
  rw [String.data_append]
  exact (List.suffix_append _ _).isInfix

theorem occursIn_append_right {e h : String} (t : String) (he : occursIn e h) :
    occursIn e (h ++ t) := by
  unfold occursIn at he ⊢
  rw [String.data_append]
  exact he.trans (List.prefix_append _ _).isInfix

theorem Grows.refl (s : State) : Grows s s := ⟨⟨"", by simp⟩, rfl⟩

theorem Grows.trans {a b c : State} (h1 : Grows a b) (h2 : Grows b c) : Grows a c := by
  obtain ⟨⟨t1, e1⟩, p1⟩ := h1
  obtain ⟨⟨t2, e2⟩, p2⟩ := h2
  exact ⟨⟨t1 ++ t2, by rw [e2, e1, String.append_assoc]⟩, p2.trans p1⟩

theorem Grows.occursIn {a b : State} {e : String} (h : Grows a b) (he : occursIn e a.header) :
    occursIn e b.header := by
  obtain ⟨⟨t, ht⟩, _⟩ := h
  rw [ht]
  exact occursIn_append_right t he

theorem Grows.emit (s : State) (t : String) : Grows s (s.emit t) := Grows.refl s

theorem Grows.check (s : State) : Grows s s.check := Grows.refl s

theorem Grows.addHeader (s : State) (t : String) : Grows s (s.addHeader t) := ⟨⟨t, rfl⟩, rfl⟩

theorem forRange_ok_rel {α σ : Type} {body : Nat → α → σ → Step σ} {R : σ → σ → Prop}
    (hrefl : ∀ s, R s s) (htrans : ∀ a b c, R a b → R b c → R a c)
    (hb : ∀ i x s t, body i x s = Step.ok t → R s t) (xs : List α) :
    ∀ (i : Nat) (s t : σ), forRange body i xs s = Step.ok t → R s t := by
  induction xs with
  | nil =>
    intro i s t h
    cases h
    exact hrefl s
  | cons x xs ih =>
    intro i s t h
    rw [forRange_cons] at h
    obtain ⟨u, hu, hrest⟩ := Step.bind_eq_ok h
    exact htrans _ _ _ (hb i x s u hu) (ih (i + 1) u t hrest)

theorem forRange_ok_mem {α σ : Type} {body : Nat → α → σ → Step σ} {R : σ → σ → Prop}
    (hrefl : ∀ s, R s s) (htrans : ∀ a b c, R a b → R b c → R a c)
    (hb : ∀ i x s t, body i x s = Step.ok t → R s t) (xs : List α) :
    ∀ (i : Nat) (s t : σ), forRange body i xs s = Step.ok t → ∀ x ∈ xs,
      ∃ j u v, body j x u = Step.ok v ∧ R s u ∧ R v t := by
  induction xs with
  | nil => intro i s t _ x hx; cases hx
  | cons y ys ih =>
    intro i s t h x hx
    rw [forRange_cons] at h
    obtain ⟨u, hu, hrest⟩ := Step.bind_eq_ok h
    rcases List.mem_cons.mp hx with rfl | hmem
    · exact ⟨i, s, u, hu, hrefl s, forRange_ok_rel hrefl htrans hb ys (i + 1) u t hrest⟩
    · obtain ⟨j, a, b, hab, h1, h2⟩ := ih (i + 1) u t hrest x hmem
      exact ⟨j, a, b, hab, htrans _ _ _ (hb i y s u hu) h1, h2⟩

theorem schemaStep_grows {env : Env} {entry : String × Value} {s t : State}
    (h : schemaStep env entry s = Step.ok t) : Grows s t := by
  unfold schemaStep at h
  split at h
  · cases h
  · cases h
    exact Grows.refl s

theorem factoryStep_grows {fac : Factory} {s t : State}
    (h : factoryStep fac s = Step.ok t) : Grows s t := by
  unfold factoryStep at h
  split at h
  · cases h
  · cases h
    exact Grows.refl s

theorem resourceStep_ok {env : Env} {i : Nat} {rc : ResourceConfig} {s t : State}
    (h : resourceStep env i rc s = Step.ok t) :
    Grows s t ∧ ∀ resType loader, env.GetTypeFromID rc.ID = .ok resType →
      env.GetLoader resType = some loader → loader.Generate ≠ some false →
      occursIn " \"encoding/json\" \n " t.header := by
  unfold resourceStep at h
  cases h1 : env.GetTypeFromID rc.ID with
  | error e => simp [h1] at h
  | ok resType =>
    cases h2 : env.GetLoader resType with
    | none => simp [h1, h2] at h
    | some loader =>
      cases h3 : loader.LoadResource rc with
      | error e => simp [h1, h2, h3] at h
      | ok res =>
        simp only [h1, h2, h3] at h
        cases hg : loader.Generate with
        | none =>
          simp only [hg, if_true, Step.ok.injEq] at h
          subst h
          refine ⟨⟨⟨_, rfl⟩, rfl⟩, ?_⟩
          intro _ _ _ _ _
          exact occursIn_append_self _ _
        | some g =>
          cases g with
          | true =>
            simp only [hg, if_true, Step.ok.injEq] at h
            subst h
            refine ⟨⟨⟨_, rfl⟩, rfl⟩, ?_⟩
            intro _ _ _ _ _
            exact occursIn_append_self _ _
          | false =>
            simp only [hg, Step.ok.injEq] at h
            subst h
            refine ⟨Grows.refl s, ?_⟩
            intro resType' loader' e1 e2 e3
            cases e1
            rw [h2] at e2
            cases e2
            exact absurd hg e3

theorem propertiesStage_grows (env : Env) (props : List Attribute) (s : State) :
    Grows s (propertiesStage env props s) := by
  have hfold : ∀ (l : List Attribute) (t : State),
      Grows t (l.foldl (fun st property => st.emit (addPropertyStmt env property)) t) := by
    intro l
    induction l with
    | nil => intro t; exact Grows.refl t
    | cons p ps ih =>
      intro t
      rw [List.foldl_cons]
      exact (Grows.emit t _).trans (ih _)
  unfold propertiesStage
  split
  · exact (Grows.addHeader s _).trans (hfold _ _)
  · exact Grows.refl s

theorem channelsStage_ok {channels : List String} {s t : State}
    (h : channelsStage channels s = Step.ok t) :
    Grows s t ∧ (channels ≠ [] →
      occursIn " \"github.com/project-flogo/core/engine/channels\" \n " t.header) := by
  unfold channelsStage at h
  split at h
  · rw [channelLoop_eq] at h
    cases h
    refine ⟨(Grows.addHeader s _).trans (Grows.emit _ _), ?_⟩
    intro _
    exact occursIn_append_self _ _
  · rename_i hlen
    cases h
    refine ⟨Grows.refl s, ?_⟩
    intro hne
    cases channels with
    | nil => exact absurd rfl hne
    | cons c cs => simp at hlen

theorem settingsStep_grows {env : Env} {imports : List Import} {name : String}
    {act : ActionConfig} {s t : State} (h : settingsStep env imports name act s = Step.ok t) :
    Grows s t := by
  unfold settingsStep at h
  split at h
  · split at h
    · cases h
    · cases h
      exact ((Grows.emit s _).trans (Grows.emit _ _)).trans (Grows.emit _ _)
  · cases h
    exact Grows.emit s _

theorem actionStep_grows {env : Env} {imports : List Import} {i : Nat} {act : ActionConfig}
    {s t : State} (h : actionStep env imports i act s = Step.ok t) : Grows s t := by
  unfold actionStep at h
  split at h
  · cases h
  · obtain ⟨u, hu, hrest⟩ := Step.bind_eq_ok h
    split at hrest
    · cases hrest
    · cases hrest
      exact (settingsStep_grows hu).trans ((Grows.emit u _).trans (Grows.check _))

theorem handlerActionTail_grows (env : Env) (i j k : Nat) (act : HandlerActionConfig)
    (s : State) : Grows s (handlerActionTail env i j k act s) := by
  unfold handlerActionTail
  simp only []
  refine (Grows.check s).trans ?_
  split <;> split <;> split <;> exact Grows.refl _

theorem handlerActionStep_grows {env : Env} {imports : List Import} {i j k : Nat}
    {act : HandlerActionConfig} {s t : State}
    (h : handlerActionStep env imports i j k act s = Step.ok t) : Grows s t := by
  unfold handlerActionStep at h
  obtain ⟨u, hu, hrest⟩ := Step.bind_eq_ok h
  cases hrest
  refine Grows.trans ?_ (handlerActionTail_grows env i j k act u)
  unfold handlerActionHead at hu
  split at hu
  · cases hu
    exact Grows.emit s _
  · split at hu
    · cases hu
    · obtain ⟨v, hv, hrest⟩ := Step.bind_eq_ok hu
      split at hrest
      · cases hrest
      · cases hrest
        exact (settingsStep_grows hv).trans (Grows.emit v _)

theorem handlerStep_grows {env : Env} {imports : List Import} {i j : Nat}
    {handler : HandlerConfig} {s t : State}
    (h : handlerStep env imports i j handler s = Step.ok t) : Grows s t := by
  unfold handlerStep at h
  exact ((Grows.emit s _).trans (Grows.check _)).trans
    (forRange_ok_rel Grows.refl (fun _ _ _ => Grows.trans)
      (fun _ _ _ _ hb => handlerActionStep_grows hb) _ _ _ _ h)

theorem triggerStep_grows {env : Env} {imports : List Import} {i : Nat}
    {trigger : TriggerConfig} {s t : State}
    (h : triggerStep env imports i trigger s = Step.ok t) : Grows s t := by
  unfold triggerStep at h
  split at h
  · cases h
  · split at h
    · cases h
    · exact (Grows.emit s _).trans
        (forRange_ok_rel Grows.refl (fun _ _ _ => Grows.trans)
          (fun _ _ _ _ hb => handlerStep_grows hb) _ _ _ _ h)

theorem epilogue_grows (s : State) : Grows s (epilogue s) := ⟨⟨"\n )\n", rfl⟩, rfl⟩

theorem mapGet_mapSet_ne {α : Type} (m : List (String × α)) {k k' : String} (v : α)
    (h : k' ≠ k) : mapGet (mapSet m k v) k' = mapGet m k' := by
  induction m with
  | nil => simp [mapSet, mapGet, h.symm]
  | cons p rest ih =>
    obtain ⟨a, b⟩ := p
    by_cases ha : a = k
    · subst ha
      simp [mapSet, mapGet, h.symm]
    · by_cases ha' : a = k'
      · subst ha'
        simp [mapSet, mapGet, h]
      · simp [mapSet, mapGet, ha, ha', ih]

theorem AliasesInHeader.grows {env : Env} {s t : State} (hs : AliasesInHeader env s)
    (h : Grows s t) : AliasesInHeader env t := by
  intro key imp hget
  rw [h.2] at hget
  obtain ⟨h1, h2⟩ := hs key imp hget
  refine ⟨h1, fun kind hk => ?_⟩
  exact ⟨fun hne => h.occursIn ((h2 kind hk).1 hne), fun he => h.occursIn ((h2 kind hk).2 he)⟩

theorem importStep_aliases {env : Env} {val : Import} {s t : State}
    (hs : AliasesInHeader env s) (h : importStep env val s = Step.ok t) :
    AliasesInHeader env t := by
  unfold importStep at h
  cases h1 : env.GetContribType val with
  | error e => simp [h1] at h
  | ok k =>
    simp only [h1] at h
    cases h2 : env.RegisterAlias s.aliases k val.CanonicalAlias val.GoImportPath with
    | some e => simp [h2] at h
    | none =>
      simp only [h2] at h
      have hkey : ∀ (line : String) (u : State), u.pkgs = mapSet s.pkgs val.CanonicalAlias val →
          u.header = s.header ++ line →
          ((k ≠ "activity" → line = importLine val) ∧ (k = "activity" → line = blankImportLine val)) →
          AliasesInHeader env u := by
        intro line u hp hh hline key imp hget
        rw [hp] at hget
        by_cases hk : key = val.CanonicalAlias
        · subst hk
          rw [mapGet_mapSet] at hget
          cases hget
          refine ⟨rfl, fun kind hkind => ?_⟩
          rw [h1] at hkind
          cases hkind
          rw [hh]
          exact ⟨fun hne => (hline.1 hne) ▸ occursIn_append_self _ _,
            fun he => (hline.2 he) ▸ occursIn_append_self _ _⟩
        · rw [mapGet_mapSet_ne _ _ hk] at hget
          obtain ⟨h3, h4⟩ := hs key imp hget
          refine ⟨h3, fun kind hkind => ?_⟩
          rw [hh]
          exact ⟨fun hne => occursIn_append_right _ ((h4 kind hkind).1 hne),
            fun he => occursIn_append_right _ ((h4 kind hkind).2 he)⟩
      by_cases hk : k = "activity"
      · simp only [hk, ne_eq, not_true_eq_false, if_false, Step.ok.injEq] at h
        subst h
        exact hkey (blankImportLine val) _ rfl rfl ⟨fun hne => absurd hk hne, fun _ => rfl⟩
      · simp only [ne_eq, hk, not_false_eq_true, if_true, Step.ok.injEq] at h
        subst h
        exact hkey (importLine val) _ rfl rfl ⟨fun _ => rfl, fun he => absurd he hk⟩

/-- C7, the claim as stated fails. An action whose reference resolves to an import
of contribution type `activity` is written `&log.Action{}` while the
header imports the path blank (`_ "..."`), binding no alias `log`; and for a
descriptor with a property the statement `data.string` has no header entry
for exactly `"github.com/project-flogo/core/data"`. Both passes reach
concatenation. -/
theorem qualifier_without_binding :
    ((Generate (demoEnv logIsActivity) activityAsAction "main.go" emptyWorld).failure = none ∧
      (synthesize (demoEnv logIsActivity) activityAsAction emptyWorld).state.header
        = "package main\n\nimport (\n_ \"github.com/acme/activity/log\"\n"
          ++ " \"github.com/project-flogo/core/api\" \n "
          ++ " \"github.com/project-flogo/core/engine\" \n \n )\n" ∧
      occursIn "err = app.AddAction(\"a\", &log.Action\x7b\x7d, actionSettings0)\n"
        (synthesize (demoEnv logIsActivity) activityAsAction emptyWorld).state.output ∧
      ¬ occursIn "log \"github.com/acme/activity/log\""
        (synthesize (demoEnv logIsActivity) activityAsAction emptyWorld).state.header) ∧
    ((Generate (demoEnv []) onePropertyApp "main.go" emptyWorld).failure = none ∧
      occursIn "app.AddProperty(\"x\", data.string, \"hello\")\n"
        (synthesize (demoEnv []) onePropertyApp emptyWorld).state.output ∧
      ¬ occursIn "\"github.com/project-flogo/core/data\""
        (synthesize (demoEnv []) onePropertyApp emptyWorld).state.header) := by
  refine ⟨⟨rfl, rfl, ?_, ?_⟩, rfl, ?_, ?_⟩ <;> decide

/-! ## The text handed to the parser -/

/-- C8, the code at the failing input: for a descriptor of type `flogo:app`
with one property, every collaborator succeeding, the text handed to the
parser imports the path `github.com/project-flogo/core/data ` – with a space
before the closing quote, which is no valid Go import path. -/
theorem data_import_path_malformed :
    onePropertyApp.Type_ = "flogo:app" ∧
    (synthesize (demoEnv []) onePropertyApp emptyWorld).failure = none ∧
    (synthesize (demoEnv []) onePropertyApp emptyWorld).state.text
      = "package main\n\nimport (\n \"github.com/project-flogo/core/api\" \n "
        ++ " \"github.com/project-flogo/core/engine\" \n "
        ++ " \"github.com/project-flogo/core/data \" \n" ++ "\n )\n"
        ++ "/*\n* Name: demo\n* Type: flogo:app\n* Version: 1.0.0\n* Description: \n"
        ++ "* AppModel: 1.1.0\n*/\n\nfunc main() \x7b\nvar err error\napp := api.NewApp()\n"
        ++ "app.AddProperty(\"x\", data.string, \"hello\")\n"
        ++ "e, err := api.NewEngine(app)\nif err != nil \x7b\npanic(err)\n\x7d\n"
        ++ "engine.RunEngine(e)\n\x7d\n" := by
  refine ⟨rfl, rfl, rfl⟩

/-! ## The type marker -/

theorem Step.bind_failure_ne {σ : Type} {x : Step σ} {f : σ → Step σ} {e : Failure}
    (hx : x.failure ≠ some e) (hf : ∀ s, (f s).failure ≠ some e) : (x.bind f).failure ≠ some e := by
  cases x with
  | ok s => exact hf s
  | abort s e' => exact hx

theorem forRange_failure_ne {α σ : Type} {body : Nat → α → σ → Step σ} {e : Failure}
    (hb : ∀ i x s, (body i x s).failure ≠ some e) (xs : List α) :
    ∀ (i : Nat) (s : σ), (forRange body i xs s).failure ≠ some e := by
  induction xs with
  | nil => intro i s; simp [Step.failure]
  | cons x xs ih =>
    intro i s
    rw [forRange_cons]
    exact Step.bind_failure_ne (hb i x s) (ih (i + 1))

theorem actionImport_error {pkgs : List (String × Import)} {ref : String} {f : Failure}
    (h : actionImport pkgs ref = .error f) : f = sliceFailure := by
  unfold actionImport at h
  repeat' split at h
  all_goals first | (cases h; rfl) | cases h

theorem triggerImport_error {pkgs : List (String × Import)} {ref : String} {f : Failure}
    (h : triggerImport pkgs ref = .error f) : f = sliceFailure := by
  unfold triggerImport at h
  repeat' split at h
  all_goals first | (cases h; rfl) | cases h

theorem importStep_failure_ne (env : Env) (val : Import) (s : State) :
    (importStep env val s).failure ≠ some Failure.invalidAppType := by
  unfold importStep
  cases env.GetContribType val with
  | error e => simp [Step.failure]
  | ok k =>
    simp only []
    cases env.RegisterAlias s.aliases k val.CanonicalAlias val.GoImportPath with
    | some e => simp [Step.failure]
    | none => by_cases hk : k = "activity" <;> simp [Step.failure, hk]

theorem schemaStep_failure_ne (env : Env) (entry : String × Value) (s : State) :
    (schemaStep env entry s).failure ≠ some Failure.invalidAppType := by
  unfold schemaStep
  split <;> simp [Step.failure]

theorem factoryStep_failure_ne (fac : Factory) (s : State) :
    (factoryStep fac s).failure ≠ some Failure.invalidAppType := by
  unfold factoryStep
  split <;> simp [Step.failure]

theorem resourceStep_failure_ne (env : Env) (i : Nat) (rc : ResourceConfig) (s : State) :
    (resourceStep env i rc s).failure ≠ some Failure.invalidAppType := by
  unfold resourceStep
  repeat' split
  all_goals simp [Step.failure, nilFailure]

theorem channelsStage_failure_ne (channels : List String) (s : State) :
    (channelsStage channels s).failure ≠ some Failure.invalidAppType := by
  unfold channelsStage
  split
  · exact forRange_failure_ne (fun i x t => by simp [channelStep, Step.failure]) _ _ _
  · simp [Step.failure]

theorem settingsStep_failure_ne (env : Env) (imports : List Import) (name : String)
    (act : ActionConfig) (s : State) :
    (settingsStep env imports name act s).failure ≠ some Failure.invalidAppType := by
  unfold settingsStep
  repeat' split
  all_goals simp [Step.failure]

theorem actionStep_failure_ne (env : Env) (imports : List Import) (i : Nat) (act : ActionConfig)
    (s : State) : (actionStep env imports i act s).failure ≠ some Failure.invalidAppType := by
  unfold actionStep
  split
  · rename_i f hf
    rw [actionImport_error hf]
    simp [Step.failure, sliceFailure]
  · refine Step.bind_failure_ne (settingsStep_failure_ne _ _ _ _ _) ?_
    intro t
    split <;> simp [Step.failure, nilFailure]

theorem handlerActionStep_failure_ne (env : Env) (imports : List Import) (i j k : Nat)
    (act : HandlerActionConfig) (s : State) :
    (handlerActionStep env imports i j k act s).failure ≠ some Failure.invalidAppType := by
  unfold handlerActionStep
  refine Step.bind_failure_ne ?_ (fun t => by simp [Step.failure])
  unfold handlerActionHead
  split
  · simp [Step.failure]
  · split
    · rename_i f hf
      rw [actionImport_error hf]
      simp [Step.failure, sliceFailure]
    · refine Step.bind_failure_ne (settingsStep_failure_ne _ _ _ _ _) ?_
      intro t
      split <;> simp [Step.failure, nilFailure]

theorem triggerStep_failure_ne (env : Env) (imports : List Import) (i : Nat)
    (trigger : TriggerConfig) (s : State) :
    (triggerStep env imports i trigger s).failure ≠ some Failure.invalidAppType := by
  unfold triggerStep
  split
  · rename_i f hf
    rw [triggerImport_error hf]
    simp [Step.failure, sliceFailure]
  · split
    · simp [Step.failure, nilFailure]
    · refine forRange_failure_ne ?_ _ _ _
      intro j handler t
      unfold handlerStep
      exact forRange_failure_ne (handlerActionStep_failure_ne env imports i j) _ _ _

theorem validate_failure_ne (env : Env) (file : String) (s : State) :
    (validate env file s).failure ≠ some Failure.invalidAppType := by
  unfold validate
  cases env.Create file with
  | some e => simp [Step.failure]
  | none =>
    simp only []
    cases env.ParseFile file s.text with
    | some diag => simp [Step.failure]
    | none =>
      simp only []
      cases (env.Fprint s.text).2 with
      | some e => simp [Step.failure]
      | none => simp [Step.failure]

/-- C9. A descriptor whose type marker is not `flogo:app` makes the pass abort
with the invalid-type failure as its first effect: the world is the one the
pass started in (no alias, no schema, no property manager, no file) and header
and body are empty; and a descriptor of type `flogo:app` never meets that failure. -/
theorem Generate_type_marker (env : Env) (config : Config) (file : String) (w : World) :
    (config.Type_ ≠ "flogo:app" →
      Generate env config file w = Step.abort (State.init w) Failure.invalidAppType ∧
      (Generate env config file w).state.toWorld = w ∧
      (Generate env config file w).state.pkgs = [] ∧
      (Generate env config file w).state.header = "" ∧
      (Generate env config file w).state.output = "") ∧
    (config.Type_ = "flogo:app" →
      (Generate env config file w).failure ≠ some Failure.invalidAppType) := by
  constructor
  · intro h
    have hg : Generate env config file w = Step.abort (State.init w) Failure.invalidAppType := by
      simp [Generate, synthesize, h]
    rw [hg]
    exact ⟨rfl, rfl, rfl, rfl, rfl⟩
  · intro h
    unfold Generate
    refine Step.bind_failure_ne ?_ (validate_failure_ne env file)
    unfold synthesize
    rw [if_neg (by simp [h])]
    refine Step.bind_failure_ne (forRange_failure_ne (fun _ => importStep_failure_ne env) _ _ _) ?_
    intro s1
    refine Step.bind_failure_ne (forRange_failure_ne (fun _ => schemaStep_failure_ne env) _ _ _) ?_
    intro s3
    refine Step.bind_failure_ne (forRange_failure_ne (fun _ => factoryStep_failure_ne) _ _ _) ?_
    intro s5
    refine Step.bind_failure_ne (forRange_failure_ne (resourceStep_failure_ne env) _ _ _) ?_
    intro s6
    refine Step.bind_failure_ne (channelsStage_failure_ne _ _) ?_
    intro s7
    refine Step.bind_failure_ne (forRange_failure_ne (actionStep_failure_ne env _) _ _ _) ?_
    intro s8
    refine Step.bind_failure_ne (forRange_failure_ne (triggerStep_failure_ne env _) _ _ _) ?_
    intro s9
    simp [Step.failure]

/-- The two sides of C9 on sample descriptors. -/
theorem Generate_type_marker_witness :
    (wrongTypeApp.Type_ ≠ "flogo:app" ∧
      Generate (demoEnv []) wrongTypeApp "main.go" emptyWorld
        = Step.abort (State.init emptyWorld) Failure.invalidAppType) ∧
    (emptyApp.Type_ = "flogo:app" ∧
      (Generate (demoEnv []) emptyApp "main.go" emptyWorld).failure
        ≠ some Failure.invalidAppType) :=
  ⟨⟨by decide, ((Generate_type_marker (demoEnv []) wrongTypeApp "main.go" emptyWorld).1
      (by decide)).1⟩,
   ⟨rfl, (Generate_type_marker (demoEnv []) emptyApp "main.go" emptyWorld).2 rfl⟩⟩

/-! ## Validation and the output file -/

/-- C10, the claim as stated fails: with a printer that reports an error the
text parses, and yet the destination file holds the raw header+body text. -/
theorem raw_text_written_after_successful_parse :
    failingPrinterEnv.ParseFile "main.go"
        (synthesize failingPrinterEnv emptyApp emptyWorld).state.text = none ∧
    mapGet (Generate failingPrinterEnv emptyApp "main.go" emptyWorld).state.files "main.go"
      = some (synthesize failingPrinterEnv emptyApp emptyWorld).state.text ∧
    (Generate failingPrinterEnv emptyApp "main.go" emptyWorld).failure
      = some (Failure.error "main.go: write main.go: no space left on device") := by
  refine ⟨rfl, ?_, ?_⟩ <;> rfl

/-- C10, amended. Once the destination file is created: if parsing fails the
file holds exactly the raw header+body text and the pass fails with the
message `<file>: <diagnostic>`; if parsing and printing succeed the file holds
exactly what the printer wrote; if parsing succeeds and the printer reports an
error, the file holds what the printer wrote followed by the raw text, and the
pass fails with the message `<file>: <printer error>`. -/
theorem Generate_written_text (env : Env) (config : Config) (file : String) (w : World)
    (s : State) (hs : synthesize env config w = Step.ok s) (hc : env.Create file = none) :
    (∀ diag, env.ParseFile file (s.header ++ s.output) = some diag →
      (Generate env config file w).failure = some (Failure.error (file ++ ": " ++ diag)) ∧
      mapGet (Generate env config file w).state.files file = some (s.header ++ s.output)) ∧
    (env.ParseFile file (s.header ++ s.output) = none →
      ((env.Fprint (s.header ++ s.output)).2 = none →
        (Generate env config file w).failure = none ∧
        mapGet (Generate env config file w).state.files file
          = some (env.Fprint (s.header ++ s.output)).1) ∧
      (∀ e, (env.Fprint (s.header ++ s.output)).2 = some e →
        (Generate env config file w).failure = some (Failure.error (file ++ ": " ++ e)) ∧
        mapGet (Generate env config file w).state.files file
          = some ((env.Fprint (s.header ++ s.output)).1 ++ (s.header ++ s.output)))) := by
  refine ⟨?_, ?_⟩
  · intro diag hp
    simp only [Generate, hs, Step.bind_ok, validate, hc, State.text, hp, Step.failure, Step.state,
      mapGet_mapSet, and_self]
  · intro hp
    refine ⟨?_, ?_⟩
    · intro hf
      simp only [Generate, hs, Step.bind_ok, validate, hc, State.text, hp, hf, Step.failure,
        Step.state, mapGet_mapSet, and_self]
    · intro e hf
      simp only [Generate, hs, Step.bind_ok, validate, hc, State.text, hp, hf, Step.failure,
        Step.state, mapGet_mapSet, and_self]

/-- The three cases of the amended C10 on the sample descriptor. -/
theorem Generate_written_text_witness :
    (mapGet (Generate failingParserEnv emptyApp "main.go" emptyWorld).state.files "main.go"
        = some (synthesize (demoEnv []) emptyApp emptyWorld).state.text ∧
      (Generate failingParserEnv emptyApp "main.go" emptyWorld).failure
        = some (Failure.error "main.go: main.go:1:1: expected declaration")) ∧
    (mapGet (Generate (demoEnv []) emptyApp "main.go" emptyWorld).state.files "main.go"
        = some ("// formatted\n" ++ (synthesize (demoEnv []) emptyApp emptyWorld).state.text) ∧
      (Generate (demoEnv []) emptyApp "main.go" emptyWorld).failure = none) ∧
    (mapGet (Generate failingPrinterEnv emptyApp "main.go" emptyWorld).state.files "main.go"
        = some ("" ++ (synthesize (demoEnv []) emptyApp emptyWorld).state.text)) :=
  ⟨(((Generate_written_text failingParserEnv emptyApp "main.go" emptyWorld
        (synthesize failingParserEnv emptyApp emptyWorld).state rfl rfl).1
        "main.go:1:1: expected declaration" rfl).symm),
   (((Generate_written_text (demoEnv []) emptyApp "main.go" emptyWorld
        (synthesize (demoEnv []) emptyApp emptyWorld).state rfl rfl).2 rfl).1 rfl).symm,
   (((Generate_written_text failingPrinterEnv emptyApp "main.go" emptyWorld
        (synthesize failingPrinterEnv emptyApp emptyWorld).state rfl rfl).2 rfl).2
        "write main.go: no space left on device" rfl).2⟩

/-! ## Resolution of references -/

theorem dropBytes_zero (cs : List Char) : dropBytes cs 0 = some cs := by
  cases cs <;> rfl

theorem takeBytes_zero (cs : List Char) : takeBytes cs 0 = some [] := by
  cases cs <;> rfl

theorem sliceTo_zero (ref : String) : sliceTo ref 0 = some (some "") := by
  simp [sliceTo, takeBytes_zero]

theorem actionImport_eq (pkgs : List (String × Import)) (ref : String) :
    actionImport pkgs ref = .ok (mapGet pkgs ref) := by
  have hne : (some "" : Option String) ≠ some "#" := by decide
  simp [actionImport, sliceTo_zero, hne]

theorem triggerImport_eq (pkgs : List (String × Import)) (ref : String) :
    triggerImport pkgs ref
      = match ref.data with
        | [] => .error sliceFailure
        | c :: cs => .ok (if c.utf8Size = 1 then mapGet pkgs (String.mk cs) else none) := by
  have hne : (some "" : Option String) ≠ some "#" := by decide
  obtain ⟨data⟩ := ref
  cases data with
  | nil => rfl
  | cons c cs =>
    have hpos := Char.utf8Size_pos c
    have hlen : 1 ≤ utf8Length (c :: cs) := by
      simp only [utf8Length]
      omega
    simp only [triggerImport, sliceTo_zero, if_neg hne, sliceFrom, if_pos hlen]
    by_cases h1 : c.utf8Size = 1
    · have hle : c.utf8Size ≤ 0 + 1 := by omega
      simp [dropBytes, hle, h1, dropBytes_zero, lookupSliced]
    · have hle : ¬ c.utf8Size ≤ 0 + 1 := by omega
      simp [dropBytes, hle, h1, lookupSliced]

/-- C11, the code at the failing input. The test `Ref[:0] == "#"` compares the
empty string with the sigil, so an action reference is always looked up
verbatim: for the reference `#flow`, with the alias `flow` bound, the lookup
misses and the pass aborts with a nil dereference after the literal settings
statement, without an `AddAction` statement; only the bare reference `flow`
gives the statement qualified by `flow`. -/
theorem action_reference_sigil_kept :
    (∀ (pkgs : List (String × Import)) (ref : String),
      actionImport pkgs ref = .ok (mapGet pkgs ref)) ∧
    mapGet (synthesize (demoEnv restFlowKinds) sigilActionApp emptyWorld).state.pkgs "flow"
      = some ⟨"flow", "github.com/acme/action/flow"⟩ ∧
    (Generate (demoEnv restFlowKinds) sigilActionApp "main.go" emptyWorld).failure
      = some nilFailure ∧
    (Generate (demoEnv restFlowKinds) sigilActionApp "main.go" emptyWorld).state.output
      = prologue sigilActionApp ++ "actionSettings0 := map[string]interface \x7b\x7d(nil)\n" ∧
    (Generate (demoEnv restFlowKinds) bareActionApp "main.go" emptyWorld).failure = none ∧
    occursIn "err = app.AddAction(\"a1\", &flow.Action\x7b\x7d, actionSettings0)\n"
      (synthesize (demoEnv restFlowKinds) bareActionApp emptyWorld).state.output := by
  refine ⟨actionImport_eq, rfl, rfl, rfl, rfl, ?_⟩
  decide

/-- C12, the code at the failing input. Both branches of the trigger path
slice `Ref[1:]`, so the first byte of a trigger reference is dropped whatever
it is (a reference whose first character takes several bytes leaves bytes that
are no text and no key of the alias map): `#rest` resolves to the import
`rest`, while the bare reference `rest` is looked up as `est`, misses, and the
pass aborts with a nil dereference; `érest` misses as well; the action path
looks the same bare reference up verbatim. -/
theorem trigger_reference_first_character_dropped :
    (∀ (pkgs : List (String × Import)) (ref : String),
      triggerImport pkgs ref
        = match ref.data with
          | [] => .error sliceFailure
          | c :: cs => .ok (if c.utf8Size = 1 then mapGet pkgs (String.mk cs) else none)) ∧
    occursIn "trg0 := app.NewTrigger(&rest.Trigger\x7b\x7d, map[string]interface \x7b\x7d(nil))\n"
      (synthesize (demoEnv restFlowKinds) sigilTriggerApp emptyWorld).state.output ∧
    (Generate (demoEnv restFlowKinds) sigilTriggerApp "main.go" emptyWorld).failure = none ∧
    triggerImport (synthesize (demoEnv restFlowKinds) bareTriggerApp emptyWorld).state.pkgs "rest"
      = .ok none ∧
    triggerImport (synthesize (demoEnv restFlowKinds) bareTriggerApp emptyWorld).state.pkgs "érest"
      = .ok none ∧
    actionImport (synthesize (demoEnv restFlowKinds) bareTriggerApp emptyWorld).state.pkgs "rest"
      = .ok (some ⟨"rest", "github.com/acme/trigger/rest"⟩) ∧
    (Generate (demoEnv restFlowKinds) bareTriggerApp "main.go" emptyWorld).failure
      = some nilFailure ∧
    (Generate (demoEnv restFlowKinds) bareTriggerApp "main.go" emptyWorld).state.output
      = prologue bareTriggerApp := by
  refine ⟨triggerImport_eq, ?_, rfl, rfl, rfl, rfl, rfl, rfl⟩
  decide

/-! ## Schemas -/

/-- C13, the code at the failing input. A failed registration of a schema
aborts the pass before any body text and before the output file exists; but
the result of `schema.ResolveSchemas()` is discarded, so the outcome of the
pass does not depend on it: with a batch resolution that reports a failure
the pass still runs to its end and writes the output file. -/
theorem resolve_failure_ignored :
    (∀ (env : Env) (r : List (String × Value) → Option String) (config : Config)
        (file : String) (w : World),
      Generate { env with ResolveSchemas := r } config file w = Generate env config file w) ∧
    ((Generate failingRegisterEnv oneSchemaApp "main.go" emptyWorld).failure
        = some (Failure.error "invalid schema: s1") ∧
      (Generate failingRegisterEnv oneSchemaApp "main.go" emptyWorld).state.output = "" ∧
      (Generate failingRegisterEnv oneSchemaApp "main.go" emptyWorld).state.files = []) ∧
    (failingResolveEnv.ResolveSchemas
        (synthesize failingResolveEnv oneSchemaApp emptyWorld).state.schemas
        = some "unable to resolve schema: s1" ∧
      (Generate failingResolveEnv oneSchemaApp "main.go" emptyWorld).failure = none ∧
      (Generate failingResolveEnv oneSchemaApp "main.go" emptyWorld).state.schemasResolved = true ∧
      mapGet (Generate failingResolveEnv oneSchemaApp "main.go" emptyWorld).state.files "main.go"
        = some ("// formatted\n"
            ++ (synthesize failingResolveEnv oneSchemaApp emptyWorld).state.text)) := by
  refine ⟨?_, ⟨rfl, rfl, rfl⟩, rfl, rfl, rfl, rfl⟩
  intro env r config file w
  rfl

/-! ## Determinism and the iteration order of maps -/

theorem forRange_congr {α σ : Type} {f g : Nat → α → σ → Step σ} (xs : List α)
    (h : ∀ i x s, x ∈ xs → f i x s = g i x s) :
    ∀ (i : Nat) (s : σ), forRange f i xs s = forRange g i xs s := by
  induction xs with
  | nil => intro i s; rfl
  | cons x xs ih =>
    intro i s
    rw [forRange_cons, forRange_cons, h i x s (List.mem_cons_self _ _)]
    congr 1
    funext t
    exact ih (fun j y u hy => h j y u (List.mem_cons_of_mem _ hy)) (i + 1) t

/-- C14, the claim as stated fails: two passes over the same descriptor that
differ only in the order in which `range` visits the entries of a map (each
order a permutation of the entries) write the two output mappings of an
action in different orders, and so produce different texts. -/
theorem mapping_order_not_fixed :
    reversedRangeEnv = { demoEnv restFlowKinds with rangeOrder := List.reverse } ∧
    ((demoEnv restFlowKinds).rangeOrder mappedAction.Output).Perm mappedAction.Output ∧
    (reversedRangeEnv.rangeOrder mappedAction.Output).Perm mappedAction.Output ∧
    setOutputMappingsStmt (demoEnv restFlowKinds) 0 0 0 mappedAction.Output
      = "action0_0_0.SetOutputMappings([]string\x7b\"out3\", \"o2true\"\x7d...)\n" ∧
    setOutputMappingsStmt reversedRangeEnv 0 0 0 mappedAction.Output
      = "action0_0_0.SetOutputMappings([]string\x7b\"o2true\", \"out3\"\x7d...)\n" ∧
    (synthesize (demoEnv restFlowKinds) mappedApp emptyWorld).failure = none ∧
    (synthesize reversedRangeEnv mappedApp emptyWorld).failure = none ∧
    (synthesize (demoEnv restFlowKinds) mappedApp emptyWorld).state.text
      ≠ (synthesize reversedRangeEnv mappedApp emptyWorld).state.text := by
  refine ⟨rfl, List.Perm.refl _, List.reverse_perm _, rfl, rfl, rfl, rfl, ?_⟩
  intro h
  -- the two texts first differ at character 685, inside the output mapping list
  have hchar := congrArg (fun t : String => t.data.get? 685) h
  revert hchar
  decide

/-- C14, amended. The text is determined by the descriptor, the results of the
collaborators and the order in which `range` visits the schema map and the
mapping maps of the descriptor: a pass that differs only in the visiting order
of other maps is the same pass. The entries of a mapping list are written in
the visiting order of the map, one per key; that order is fixed by the
descriptor only for mappings with at most one key. -/
theorem text_determined_up_to_range_order (env : Env)
    (r : List (String × Value) → List (String × Value)) (config : Config) (w : World)
    (hperm : ∀ m, (env.rangeOrder m).Perm m)
    (hs : r config.Schemas = env.rangeOrder config.Schemas)
    (hm : ∀ trigger ∈ config.Triggers, ∀ handler ∈ trigger.Handlers,
      ∀ act ∈ handler.Actions,
        r act.Input = env.rangeOrder act.Input ∧ r act.Output = env.rangeOrder act.Output) :
    synthesize { env with rangeOrder := r } config w = synthesize env config w ∧
    (∀ m, (mappingEntries env m).Perm (m.map fun kv => kv.1 ++ env.plainV kv.2)) ∧
    (∀ m, m.length ≤ 1 → mappingEntries env m = m.map fun kv => kv.1 ++ env.plainV kv.2) := by
  refine ⟨?_, fun m => (hperm m).map _, ?_⟩
  · have htail : ∀ (i j k : Nat) (act : HandlerActionConfig) (t : State),
        r act.Input = env.rangeOrder act.Input → r act.Output = env.rangeOrder act.Output →
        handlerActionTail { env with rangeOrder := r } i j k act t
          = handlerActionTail env i j k act t := by
      intro i j k act t h1 h2
      simp only [handlerActionTail, setInputMappingsStmt, setOutputMappingsStmt,
        mappingEntries, h1, h2]
    have htrig : ∀ (i : Nat) (trigger : TriggerConfig) (t : State),
        trigger ∈ config.Triggers →
        triggerStep { env with rangeOrder := r } (env.ParseImports config.Imports) i trigger t
          = triggerStep env (env.ParseImports config.Imports) i trigger t := by
      intro i trigger t htr
      have hh : ∀ (u : State),
          forRange (handlerStep { env with rangeOrder := r }
              (env.ParseImports config.Imports) i) 0 trigger.Handlers u
            = forRange (handlerStep env (env.ParseImports config.Imports) i) 0
                trigger.Handlers u := by
        intro u
        refine forRange_congr _ ?_ 0 u
        intro j handler v hhd
        unfold handlerStep
        refine forRange_congr _ ?_ 0 _
        intro k act x hact
        have := hm trigger htr handler hhd act hact
        unfold handlerActionStep
        congr 1
        funext y
        rw [htail i j k act y this.1 this.2]
      unfold triggerStep
      simp only [hh]
      rfl
    have hloop := fun (u : State) =>
      forRange_congr (f := triggerStep { env with rangeOrder := r }
        (env.ParseImports config.Imports))
        (g := triggerStep env (env.ParseImports config.Imports)) config.Triggers
        (fun i x v hx => htrig i x v hx) 0 u
    simp only [synthesize, hs, hloop]
    rfl
  · intro m hlen
    have hp := hperm m
    unfold mappingEntries
    match m, hlen, hp with
    | [], _, hp => rw [List.perm_nil.mp hp]
    | [a], _, hp => rw [List.perm_singleton.mp hp]
    | _ :: _ :: _, hlen, _ => simp at hlen

/-- The amended C14 on the sample descriptor: visiting the maps in the order of
the descriptor, whatever the order on other maps. -/
theorem text_determined_up_to_range_order_witness :
    synthesize
        { demoEnv restFlowKinds with
          rangeOrder := fun m => if m.length = 3 then m.reverse else m } mappedApp emptyWorld
      = synthesize (demoEnv restFlowKinds) mappedApp emptyWorld :=
  (text_determined_up_to_range_order (demoEnv restFlowKinds)
    (fun m => if m.length = 3 then m.reverse else m) mappedApp emptyWorld
    (fun m => List.Perm.refl m) rfl
    (by
      intro trigger htr handler hhd act hact
      simp only [mappedApp, restFlowApp, emptyApp, List.mem_singleton] at htr
      subst htr
      simp only [List.mem_singleton] at hhd
      subst hhd
      simp only [List.mem_singleton] at hact
      subst hact
      exact ⟨rfl, rfl⟩)).1

/-! ## Properties -/

theorem propertyLoop_eq (env : Env) (props : List Attribute) : ∀ (s : State),
    props.foldl (fun st property => st.emit (addPropertyStmt env property)) s
      = s.emit (joinStmts (props.map (addPropertyStmt env))) := by
  induction props with
  | nil => intro s; simp
  | cons p ps ih =>
    intro s
    rw [List.foldl_cons, ih, State.emit_emit]
    rfl

/-- C15. For a non-empty property list the pass appends exactly one
`app.AddProperty("<name>", data.<type name>, <literal value>)` statement per
property, in descriptor order (and one data entry to the header); for the
property `x` of type `string` and value `hello`, whose literal is `"hello"`,
the statement is `app.AddProperty("x", data.string, "hello")`; for an empty
list neither body nor header changes. -/
theorem propertiesStage_statements (env : Env) (s : State) :
    propertiesStage env [] s = s ∧
    (∀ (p : Attribute) (ps : List Attribute),
      propertiesStage env (p :: ps) s
        = (s.addHeader " \"github.com/project-flogo/core/data \" \n").emit
            (joinStmts ((p :: ps).map fun q =>
              "app.AddProperty(\"" ++ q.Name ++ "\", data." ++ q.TypeName ++ ", "
                ++ env.sharpV q.Value ++ ")\n"))) ∧
    (env.sharpV (.str "hello") = "\"hello\"" →
      propertiesStage env [⟨"x", "string", .str "hello"⟩] s
        = (s.addHeader " \"github.com/project-flogo/core/data \" \n").emit
            "app.AddProperty(\"x\", data.string, \"hello\")\n") := by
  have hcons : ∀ (p : Attribute) (ps : List Attribute),
      propertiesStage env (p :: ps) s
        = (s.addHeader " \"github.com/project-flogo/core/data \" \n").emit
            (joinStmts ((p :: ps).map (addPropertyStmt env))) := by
    intro p ps
    simp only [propertiesStage, List.length_cons, Nat.zero_lt_succ, if_true]
    exact propertyLoop_eq env (p :: ps) _
  refine ⟨rfl, hcons, ?_⟩
  intro h
  rw [hcons]
  simp [addPropertyStmt, h, String.append_assoc]

/-- The example of C15 in the sample environment. -/
theorem propertiesStage_statements_witness :
    (demoEnv []).sharpV (.str "hello") = "\"hello\"" ∧
    propertiesStage (demoEnv []) [⟨"x", "string", .str "hello"⟩] stateWithT1
      = (stateWithT1.addHeader " \"github.com/project-flogo/core/data \" \n").emit
          "app.AddProperty(\"x\", data.string, \"hello\")\n" :=
  ⟨rfl, (propertiesStage_statements (demoEnv []) stateWithT1).2.2 rfl⟩

/-! ## The file system is untouched before validation -/

theorem Step.bind_state_inv {σ : Type} {P : σ → Prop} {x : Step σ} {f : σ → Step σ}
    (hx : P x.state) (hf : ∀ s, P s → P (f s).state) : P (x.bind f).state := by
  cases x with
  | ok s => exact hf s hx
  | abort s e => exact hx

theorem schemaStep_files (env : Env) (entry : String × Value) (s : State) :
    (schemaStep env entry s).state.files = s.files := by
  unfold schemaStep
  split <;> rfl

theorem factoryStep_files (fac : Factory) (s : State) :
    (factoryStep fac s).state.files = s.files := by
  unfold factoryStep
  split <;> rfl

theorem resourceStep_files (env : Env) (i : Nat) (rc : ResourceConfig) (s : State) :
    (resourceStep env i rc s).state.files = s.files := by
  unfold resourceStep
  cases env.GetTypeFromID rc.ID with
  | error e => rfl
  | ok resType =>
    simp only []
    cases env.GetLoader resType with
    | none => rfl
    | some loader =>
      simp only []
      cases loader.LoadResource rc with
      | error e => rfl
      | ok res =>
        simp only [Step.state]
        split <;> rfl

theorem propertiesStage_files (env : Env) (props : List Attribute) (s : State) :
    (propertiesStage env props s).files = s.files := by
  unfold propertiesStage
  split
  · rw [propertyLoop_eq]
    rfl
  · rfl

theorem channelsStage_files (channels : List String) (s : State) :
    (channelsStage channels s).state.files = s.files := by
  unfold channelsStage
  split
  · rw [channelLoop_eq]
    rfl
  · rfl

theorem settingsStep_files (env : Env) (imports : List Import) (name : String)
    (act : ActionConfig) (s : State) :
    (settingsStep env imports name act s).state.files = s.files := by
  unfold settingsStep
  split
  · split <;> rfl
  · rfl

theorem actionStep_files (env : Env) (imports : List Import) (i : Nat) (act : ActionConfig)
    (s : State) : (actionStep env imports i act s).state.files = s.files := by
  unfold actionStep
  rw [actionImport_eq]
  simp only []
  refine @Step.bind_state_inv State (fun t => t.files = s.files) _ _
    (settingsStep_files env imports _ act s) ?_
  intro t ht
  split
  · exact ht
  · exact ht

theorem handlerActionStep_files (env : Env) (imports : List Import) (i j k : Nat)
    (act : HandlerActionConfig) (s : State) :
    (handlerActionStep env imports i j k act s).state.files = s.files := by
  unfold handlerActionStep
  refine @Step.bind_state_inv State (fun t => t.files = s.files) _ _ ?_ ?_
  · unfold handlerActionHead
    split
    · rfl
    · rw [actionImport_eq]
      simp only []
      refine @Step.bind_state_inv State (fun t => t.files = s.files) _ _
        (settingsStep_files env imports _ act.Config s) ?_
      intro t ht
      split
      · exact ht
      · exact ht
  · intro t ht
    simp only [Step.state, handlerActionTail]
    split <;> split <;> split <;> exact ht

theorem handlerStep_files (env : Env) (imports : List Import) (i j : Nat)
    (handler : HandlerConfig) (s : State) :
    (handlerStep env imports i j handler s).state.files = s.files := by
  unfold handlerStep
  exact @forRange_state_inv HandlerActionConfig State (handlerActionStep env imports i j)
    (fun t => t.files = s.files)
    (fun k act t ht => (handlerActionStep_files env imports i j k act t).trans ht) _ 0 _ rfl

theorem triggerStep_files (env : Env) (imports : List Import) (i : Nat)
    (trigger : TriggerConfig) (s : State) :
    (triggerStep env imports i trigger s).state.files = s.files := by
  unfold triggerStep
  split
  · rfl
  · split
    · rfl
    · exact @forRange_state_inv HandlerConfig State (handlerStep env imports i)
        (fun t => t.files = s.files)
        (fun j handler t ht => (handlerStep_files env imports i j handler t).trans ht) _ 0 _ rfl

theorem synthesize_files (env : Env) (config : Config) (w : World) :
    (synthesize env config w).state.files = w.files := by
  unfold synthesize
  split
  · rfl
  · simp only []
    refine @Step.bind_state_inv State (fun t => t.files = w.files) _ _ ?_ ?_
    · exact @forRange_state_inv Import State (fun _ => importStep env)
        (fun t => t.files = w.files)
        (fun _ val t ht => (importStep_state env val t).2.2.1.trans ht) _ 0 _ rfl
    intro s1 h1
    refine @Step.bind_state_inv State (fun t => t.files = w.files) _ _ ?_ ?_
    · exact @forRange_state_inv (String × Value) State (fun _ => schemaStep env)
        (fun t => t.files = w.files)
        (fun _ e t ht => (schemaStep_files env e t).trans ht) _ 0 _ h1
    intro s3 h3
    refine @Step.bind_state_inv State (fun t => t.files = w.files) _ _ ?_ ?_
    · exact @forRange_state_inv Factory State (fun _ => factoryStep)
        (fun t => t.files = w.files)
        (fun _ e t ht => (factoryStep_files e t).trans ht) _ 0 _ h3
    intro s5 h5
    refine @Step.bind_state_inv State (fun t => t.files = w.files) _ _ ?_ ?_
    · exact @forRange_state_inv ResourceConfig State (resourceStep env)
        (fun t => t.files = w.files)
        (fun i e t ht => (resourceStep_files env i e t).trans ht) _ 0 _ h5
    intro s6 h6
    refine @Step.bind_state_inv State (fun t => t.files = w.files) _ _ ?_ ?_
    · exact (channelsStage_files _ _).trans ((propertiesStage_files env _ s6).trans h6)
    intro s7 h7
    refine @Step.bind_state_inv State (fun t => t.files = w.files) _ _ ?_ ?_
    · exact @forRange_state_inv ActionConfig State (actionStep env _)
        (fun t => t.files = w.files)
        (fun i e t ht => (actionStep_files env _ i e t).trans ht) _ 0 _ h7
    intro s8 h8
    refine @Step.bind_state_inv State (fun t => t.files = w.files) _ _ ?_ ?_
    · exact @forRange_state_inv TriggerConfig State (triggerStep env _)
        (fun t => t.files = w.files)
        (fun i e t ht => (triggerStep_files env _ i e t).trans ht) _ 0 _ h8
    intro s9 h9
    exact h9

theorem Generate_of_synthesize_abort {env : Env} {config : Config} {w : World} {t : State}
    {f : Failure} (file : String) (h : synthesize env config w = Step.abort t f) :
    Generate env config file w = Step.abort t f ∧ t.files = w.files := by
  have hf := synthesize_files env config w
  rw [h] at hf
  exact ⟨by simp [Generate, h], hf⟩

/-! ## Pluggable generators -/

/-- C16. An action whose factory has the generation capability, whatever its
id: the generator is called with the settings name `actionSettings<i>`; a
fragment returned without error is appended verbatim, between two newlines,
right before the wiring statement that passes the same settings name, and no
literal settings statement is written; an error of the generator aborts the
step with that error. Without the capability the literal
`<settingsName> := <settings>` precedes the same wiring statement. The same
holds for an inline action of a handler (one without an id), with the settings
name `settings<i>_<j>_<k>`. A step that aborts ends the pass with the file
system untouched. -/
theorem generator_capability (env : Env) (imports : List Import) (i j k : Nat)
    (act : ActionConfig) (hact : HandlerActionConfig) (s : State) (qual : String)
    (hq : canonicalAliasOf env (mapGet s.pkgs act.Ref) = some qual) :
    ((∀ gen, (env.GetFactory act.Ref).bind Factory.Generate = some gen →
      (∀ code, gen ("actionSettings" ++ toString i) imports act = .ok code →
        actionStep env imports i act s
          = Step.ok (s.emit ("\n" ++ code ++ "\n"
              ++ addActionStmt act.Id qual ("actionSettings" ++ toString i) ++ errorCheckText))) ∧
      (∀ e, gen ("actionSettings" ++ toString i) imports act = .error e →
        actionStep env imports i act s = Step.abort s (Failure.error e))) ∧
     ((env.GetFactory act.Ref).bind Factory.Generate = none →
      actionStep env imports i act s
        = Step.ok (s.emit (("actionSettings" ++ toString i) ++ " := " ++ env.sharpV act.Settings
            ++ "\n" ++ addActionStmt act.Id qual ("actionSettings" ++ toString i)
            ++ errorCheckText)))) ∧
    (hact.Config.Id = "" →
      ∀ hqual, canonicalAliasOf env (mapGet s.pkgs hact.Config.Ref) = some hqual →
      (∀ gen, (env.GetFactory hact.Config.Ref).bind Factory.Generate = some gen →
        (∀ code,
          gen ("settings" ++ toString i ++ "_" ++ toString j ++ "_" ++ toString k) imports
            hact.Config = .ok code →
          handlerActionHead env imports i j k hact s
            = Step.ok (s.emit ("\n" ++ code ++ "\n"
                ++ newActionStmt i j k hqual
                    ("settings" ++ toString i ++ "_" ++ toString j ++ "_" ++ toString k)))) ∧
        (∀ e,
          gen ("settings" ++ toString i ++ "_" ++ toString j ++ "_" ++ toString k) imports
            hact.Config = .error e →
          handlerActionStep env imports i j k hact s = Step.abort s (Failure.error e))) ∧
      ((env.GetFactory hact.Config.Ref).bind Factory.Generate = none →
        handlerActionHead env imports i j k hact s
          = Step.ok (s.emit (("settings" ++ toString i ++ "_" ++ toString j ++ "_" ++ toString k)
              ++ " := " ++ env.sharpV hact.Config.Settings ++ "\n"
              ++ newActionStmt i j k hqual
                  ("settings" ++ toString i ++ "_" ++ toString j ++ "_" ++ toString k))))) ∧
    (∀ (config : Config) (file : String) (w : World) (t : State) (f : Failure),
      synthesize env config w = Step.abort t f →
      Generate env config file w = Step.abort t f ∧ t.files = w.files) := by
  have hname : settingsName i j k
      = "settings" ++ toString i ++ "_" ++ toString j ++ "_" ++ toString k := rfl
  refine ⟨⟨?_, ?_⟩, ?_, ?_⟩
  · intro gen hgen
    refine ⟨?_, ?_⟩
    · intro code hcode
      simp only [actionStep, actionImport_eq, settingsStep, hgen, actionSettingsName, hcode,
        Step.bind_ok, hq, State.check_eq, State.emit_emit]
      simp only [String.append_assoc]
    · intro e he
      simp only [actionStep, actionImport_eq, settingsStep, hgen, actionSettingsName, he,
        Step.bind_abort]
  · intro hnone
    simp only [actionStep, actionImport_eq, settingsStep, hnone, actionSettingsName,
      settingsLiteralStmt, Step.bind_ok, hq, State.check_eq, State.emit_emit]
    simp only [String.append_assoc]
  · intro hid hqual hh
    have hid2 : ¬ hact.Config.Id ≠ "" := by rw [hid]; simp
    refine ⟨?_, ?_⟩
    · intro gen hgen
      refine ⟨?_, ?_⟩
      · intro code hcode
        simp only [handlerActionHead, hid2, if_false, actionImport_eq, settingsStep, hgen,
          hname, hcode, Step.bind_ok, hh, State.emit_emit]
      · intro e he
        simp only [handlerActionStep, handlerActionHead, hid2, if_false, actionImport_eq,
          settingsStep, hgen, hname, he, Step.bind_abort]
    · intro hnone
      simp only [handlerActionHead, hid2, if_false, actionImport_eq, settingsStep, hnone,
        hname, settingsLiteralStmt, Step.bind_ok, hh, State.emit_emit]
  · intro config file w t f h
    exact Generate_of_synthesize_abort file h

/-- C16 in the sample environment: the fragment written for the action `flow`
with the id `a1` and for an inline action of a handler, the abort when the
generator of `rest` fails, and the abort of the pass on a descriptor with such
an action. -/
theorem generator_capability_witness :
    actionStep generatorEnv [] 0 ⟨"flow", .null, "a1"⟩ stateWithFlow
      = Step.ok (stateWithFlow.emit
          ("\nactionSettings0 := &flow.Settings\x7b\x7d\n"
            ++ "err = app.AddAction(\"a1\", &flow.Action\x7b\x7d, actionSettings0)\n"
            ++ "if err != nil \x7b\npanic(err)\n\x7d\n")) ∧
    actionStep generatorEnv [] 0 ⟨"rest", .null, "a1"⟩ stateWithFlow
      = Step.abort stateWithFlow (Failure.error "cannot generate settings") ∧
    handlerActionHead generatorEnv [] 0 1 2 ⟨⟨"flow", .null, ""⟩, "", [], []⟩ stateWithFlow
      = Step.ok (stateWithFlow.emit
          ("\nsettings0_1_2 := &flow.Settings\x7b\x7d\n"
            ++ newActionStmt 0 1 2 "flow" "settings0_1_2")) ∧
    (Generate generatorEnv brokenActionApp "main.go" emptyWorld).failure
      = some (Failure.error "cannot generate settings") ∧
    (Generate generatorEnv brokenActionApp "main.go" emptyWorld).state.files = [] :=
  ⟨((generator_capability generatorEnv [] 0 0 0 ⟨"flow", .null, "a1"⟩
        ⟨⟨"flow", .null, ""⟩, "", [], []⟩ stateWithFlow "flow" rfl).1.1
        (fun name _ _ => .ok (name ++ " := &flow.Settings\x7b\x7d")) rfl).1 _ rfl,
   ((generator_capability generatorEnv [] 0 0 0 ⟨"rest", .null, "a1"⟩
        ⟨⟨"rest", .null, ""⟩, "", [], []⟩ stateWithFlow "rest" rfl).1.1
        (fun _ _ _ => .error "cannot generate settings") rfl).2 _ rfl,
   (((generator_capability generatorEnv [] 0 1 2 ⟨"flow", .null, "a1"⟩
        ⟨⟨"flow", .null, ""⟩, "", [], []⟩ stateWithFlow "flow" rfl).2.1 rfl "flow" rfl).1
        (fun name _ _ => .ok (name ++ " := &flow.Settings\x7b\x7d")) rfl).1 _ rfl,
   rfl, rfl⟩

/-! ## Condition and mappings of a handler action -/

/-- C17. After the statement of a handler action at (i,j,k) the pass writes
the error check, then a `SetCondition` statement exactly when the condition is
non-empty, a `SetInputMappings` statement exactly when the input mapping is
non-empty and a `SetOutputMappings` statement exactly when the output mapping
is non-empty; the list of a mapping statement has one entry per key of the
mapping, each the key immediately followed by the rendering of its value. -/
theorem handlerAction_condition_and_mappings (env : Env) (imports : List Import) (i j k : Nat)
    (act : HandlerActionConfig) (s : State) (hperm : ∀ m, (env.rangeOrder m).Perm m) :
    handlerActionStep env imports i j k act s
      = (handlerActionHead env imports i j k act s).bind (fun t =>
          Step.ok (t.emit (errorCheckText
            ++ (if act.If = "" then ""
                else "action" ++ toString i ++ "_" ++ toString j ++ "_" ++ toString k
                  ++ ".SetCondition(\"" ++ act.If ++ "\")\n")
            ++ (if act.Input.length = 0 then ""
                else "action" ++ toString i ++ "_" ++ toString j ++ "_" ++ toString k
                  ++ ".SetInputMappings(" ++ env.sharpVStrings (mappingEntries env act.Input)
                  ++ "...)\n")
            ++ (if act.Output.length = 0 then ""
                else "action" ++ toString i ++ "_" ++ toString j ++ "_" ++ toString k
                  ++ ".SetOutputMappings(" ++ env.sharpVStrings (mappingEntries env act.Output)
                  ++ "...)\n")))) ∧
    (mappingEntries env act.Input).Perm (act.Input.map fun kv => kv.1 ++ env.plainV kv.2) ∧
    (mappingEntries env act.Output).Perm (act.Output.map fun kv => kv.1 ++ env.plainV kv.2) := by
  refine ⟨?_, (hperm act.Input).map _, (hperm act.Output).map _⟩
  unfold handlerActionStep
  congr 1
  funext t
  congr 1
  simp only [handlerActionTail, State.check_eq, setConditionStmt, setInputMappingsStmt,
    setOutputMappingsStmt, actionName, Nat.pos_iff_ne_zero]
  by_cases h1 : act.If = "" <;> by_cases h2 : act.Input.length = 0 <;>
    by_cases h3 : act.Output.length = 0 <;>
    simp [h1, h2, h3, State.emit_emit, String.append_assoc]

/-- C17 on a sample action with a condition, one input and two output mappings. -/
theorem handlerAction_condition_and_mappings_witness :
    (∀ m, ((demoEnv []).rangeOrder m).Perm m) ∧
    handlerActionStep (demoEnv []) [] 0 0 1 mappedAction stateWithT1
      = Step.ok (stateWithT1.emit
          ("action0_0_1, err := handler0_0.NewAction(\"a1\")\n"
            ++ "if err != nil \x7b\npanic(err)\n\x7d\n"
            ++ "action0_0_1.SetCondition(\"$.x > 1\")\n"
            ++ "action0_0_1.SetInputMappings([]string\x7b\"in=$.y\"\x7d...)\n"
            ++ "action0_0_1.SetOutputMappings([]string\x7b\"out3\", \"o2true\"\x7d...)\n")) :=
  ⟨fun m => List.Perm.refl m,
   ((handlerAction_condition_and_mappings (demoEnv []) [] 0 0 1 mappedAction stateWithT1
      (fun m => List.Perm.refl m)).1).trans rfl⟩

/-! ## The body is the rendering of its pieces -/

theorem joinStmts_append (a b : List String) :
    joinStmts (a ++ b) = joinStmts a ++ joinStmts b := by
  induction a with
  | nil => simp
  | cons x xs ih => simp [ih, String.append_assoc]

@[simp] theorem renderPieces_nil : renderPieces [] = "" := rfl

@[simp] theorem renderPieces_cons (p : Piece) (ps : List Piece) :
    renderPieces (p :: ps) = p.render ++ renderPieces ps := rfl

theorem renderPieces_append (a b : List Piece) :
    renderPieces (a ++ b) = renderPieces a ++ renderPieces b := by
  simp [renderPieces, joinStmts_append]

theorem forRange_pieces {α : Type} {body : Nat → α → State → Step State}
    {f : List (String × Import) → Nat → α → List Piece}
    (hb : ∀ i x s t, body i x s = Step.ok t →
      t.pkgs = s.pkgs ∧ t.output = s.output ++ renderPieces (f s.pkgs i x)) (xs : List α) :
    ∀ (i : Nat) (s t : State), forRange body i xs s = Step.ok t →
      t.pkgs = s.pkgs ∧
      t.output = s.output
        ++ renderPieces (((xs.enumFrom i).map fun p => f s.pkgs p.1 p.2).flatten) := by
  induction xs with
  | nil =>
    intro i s t h
    cases h
    simp
  | cons x xs ih =>
    intro i s t h
    rw [forRange_cons] at h
    obtain ⟨u, hu, hrest⟩ := Step.bind_eq_ok h
    obtain ⟨hp, ho⟩ := hb i x s u hu
    obtain ⟨hp2, ho2⟩ := ih (i + 1) u t hrest
    refine ⟨hp2.trans hp, ?_⟩
    rw [ho2, ho, hp]
    simp [List.enumFrom_cons, renderPieces_append, String.append_assoc]

theorem resourceStep_pieces {env : Env} {i : Nat} {rc : ResourceConfig} {s t : State}
    (h : resourceStep env i rc s = Step.ok t) :
    t.pkgs = s.pkgs ∧ t.output = s.output ++ renderPieces (resourcePieces env i rc) := by
  unfold resourceStep at h
  cases h1 : env.GetTypeFromID rc.ID with
  | error e => simp [h1] at h
  | ok resType =>
    cases h2 : env.GetLoader resType with
    | none => simp [h1, h2] at h
    | some loader =>
      cases h3 : loader.LoadResource rc with
      | error e => simp [h1, h2, h3] at h
      | ok res =>
        simp only [h1, h2, h3] at h
        cases hg : loader.Generate with
        | none =>
          have hser : serialized env rc = true := by simp [serialized, h1, h2, hg]
          simp only [hg, if_true, Step.ok.injEq] at h
          subst h
          simp [resourcePieces, hser, State.emit, State.addHeader, Piece.render,
            String.append_assoc]
        | some g =>
          cases g with
          | true =>
            have hser : serialized env rc = true := by simp [serialized, h1, h2, hg]
            simp only [hg, if_true, Step.ok.injEq] at h
            subst h
            simp [resourcePieces, hser, State.emit, State.addHeader, Piece.render,
              String.append_assoc]
          | false =>
            have hser : serialized env rc = false := by simp [serialized, h1, h2, hg]
            simp only [hg, Step.ok.injEq] at h
            subst h
            simp [resourcePieces, hser]

theorem propertiesStage_pieces (env : Env) (props : List Attribute) (s : State) :
    (propertiesStage env props s).pkgs = s.pkgs ∧
    (propertiesStage env props s).output
      = s.output ++ renderPieces (propertyPieces env props) := by
  have hr : renderPieces (propertyPieces env props)
      = joinStmts (props.map (addPropertyStmt env)) := by
    simp [renderPieces, propertyPieces, List.map_map, Function.comp_def, Piece.render]
  unfold propertiesStage
  split
  · rw [propertyLoop_eq, hr]
    exact ⟨rfl, rfl⟩
  · rename_i hlen
    cases props with
    | nil => simp [propertyPieces]
    | cons p ps => simp at hlen

theorem channelsStage_pieces {channels : List String} {s t : State}
    (h : channelsStage channels s = Step.ok t) :
    t.pkgs = s.pkgs ∧ t.output = s.output ++ renderPieces (indexed channels channelPieces) := by
  unfold channelsStage at h
  split at h
  · have hloop := @forRange_pieces String channelStep (fun _ => channelPieces)
      (fun i c u v huv => by
        cases huv
        simp [State.emit, State.check, errorCheck_eq, channelPieces, Piece.render,
          String.append_assoc])
      channels 0 _ t h
    exact hloop
  · rename_i hlen
    cases h
    cases channels with
    | nil => simp [indexed]
    | cons c cs => simp at hlen

theorem settingsStep_pieces {env : Env} {imports : List Import} {name : String}
    {act : ActionConfig} {s t : State} (h : settingsStep env imports name act s = Step.ok t) :
    t.pkgs = s.pkgs ∧
    t.output = s.output ++ renderPieces (settingsPieces env imports name act) := by
  unfold settingsStep at h
  cases hg : (env.GetFactory act.Ref).bind Factory.Generate with
  | none =>
    simp only [hg, Step.ok.injEq] at h
    subst h
    simp [settingsPieces, hg, State.emit, Piece.render]
  | some gen =>
    simp only [hg] at h
    cases hc : gen name imports act with
    | error e => simp [hc] at h
    | ok code =>
      simp only [hc, Step.ok.injEq] at h
      subst h
      simp [settingsPieces, hg, hc, State.emit, Piece.render, String.append_assoc]

theorem qualifierOf_eq {env : Env} {pkgs : List (String × Import)} {key qual : String}
    (h : canonicalAliasOf env (mapGet pkgs key) = some qual) : qualifierOf env pkgs key = qual := by
  simp [qualifierOf, h]

theorem actionStep_pieces {env : Env} {imports : List Import} {i : Nat} {act : ActionConfig}
    {s t : State} (h : actionStep env imports i act s = Step.ok t) :
    t.pkgs = s.pkgs ∧
    t.output = s.output ++ renderPieces (actionPieces env imports s.pkgs i act) := by
  unfold actionStep at h
  rw [actionImport_eq] at h
  obtain ⟨u, hu, hrest⟩ := Step.bind_eq_ok h
  obtain ⟨hp, ho⟩ := settingsStep_pieces hu
  cases hq : canonicalAliasOf env (mapGet s.pkgs act.Ref) with
  | none => simp [hq] at hrest
  | some qual =>
    simp only [hq, Step.ok.injEq] at hrest
    subst hrest
    refine ⟨hp, ?_⟩
    simp [actionPieces, renderPieces_append, State.check, State.emit, errorCheck_eq, ho,
      qualifierOf_eq hq, Piece.render, String.append_assoc]

theorem handlerActionStep_pieces {env : Env} {imports : List Import} {i j k : Nat}
    {act : HandlerActionConfig} {s t : State}
    (h : handlerActionStep env imports i j k act s = Step.ok t) :
    t.pkgs = s.pkgs ∧
    t.output = s.output ++ renderPieces (handlerActionPieces env imports s.pkgs i j k act) := by
  unfold handlerActionStep at h
  obtain ⟨u, hu, hrest⟩ := Step.bind_eq_ok h
  cases hrest
  have htail : ∀ v : State, (handlerActionTail env i j k act v).pkgs = v.pkgs ∧
      (handlerActionTail env i j k act v).output
        = v.output ++ renderPieces ([Piece.check]
            ++ (if act.If ≠ "" then [Piece.plain (setConditionStmt i j k act.If)] else [])
            ++ (if 0 < act.Input.length then
                  [Piece.plain (setInputMappingsStmt env i j k act.Input)] else [])
            ++ (if 0 < act.Output.length then
                  [Piece.plain (setOutputMappingsStmt env i j k act.Output)] else [])) := by
    intro v
    unfold handlerActionTail
    by_cases h1 : act.If ≠ "" <;> by_cases h2 : 0 < act.Input.length <;>
      by_cases h3 : 0 < act.Output.length <;>
      simp [h1, h2, h3, State.check, State.emit, errorCheck_eq, Piece.render,
        String.append_assoc]
  have hhead : u.pkgs = s.pkgs ∧
      u.output = s.output ++ renderPieces
        (if act.Config.Id ≠ "" then [Piece.assign (lookupActionStmt i j k act.Config.Id)]
          else settingsPieces env imports (settingsName i j k) act.Config
            ++ [Piece.assign (newActionStmt i j k (qualifierOf env s.pkgs act.Config.Ref)
                  (settingsName i j k))]) := by
    unfold handlerActionHead at hu
    by_cases hid : act.Config.Id ≠ ""
    · rw [if_pos hid] at hu
      cases hu
      rw [if_pos hid]
      simp [State.emit, Piece.render]
    · rw [if_neg hid, actionImport_eq] at hu
      rw [if_neg hid]
      obtain ⟨v, hv, hrest⟩ := Step.bind_eq_ok hu
      obtain ⟨hp, ho⟩ := settingsStep_pieces hv
      cases hq : canonicalAliasOf env (mapGet s.pkgs act.Config.Ref) with
      | none => simp [hq] at hrest
      | some qual =>
        simp only [hq, Step.ok.injEq] at hrest
        subst hrest
        refine ⟨hp, ?_⟩
        simp [renderPieces_append, State.emit, ho, qualifierOf_eq hq, Piece.render,
          String.append_assoc]
  refine ⟨(htail u).1.trans hhead.1, ?_⟩
  rw [(htail u).2, hhead.2]
  simp only [handlerActionPieces, renderPieces_append, String.append_assoc]

theorem handlerStep_pieces {env : Env} {imports : List Import} {i j : Nat}
    {handler : HandlerConfig} {s t : State}
    (h : handlerStep env imports i j handler s = Step.ok t) :
    t.pkgs = s.pkgs ∧
    t.output = s.output ++ renderPieces (handlerPieces env imports s.pkgs i j handler) := by
  unfold handlerStep at h
  obtain ⟨hp, ho⟩ := @forRange_pieces HandlerActionConfig (handlerActionStep env imports i j)
    (fun pkgs => handlerActionPieces env imports pkgs i j)
    (fun k act u v huv => handlerActionStep_pieces huv) handler.Actions 0 _ t h
  refine ⟨hp, ?_⟩
  rw [ho]
  simp [handlerPieces, indexed, renderPieces_append, State.check, State.emit, errorCheck_eq,
    Piece.render, String.append_assoc]

theorem triggerStep_pieces {env : Env} {imports : List Import} {i : Nat}
    {trigger : TriggerConfig} {s t : State}
    (h : triggerStep env imports i trigger s = Step.ok t) :
    t.pkgs = s.pkgs ∧
    t.output = s.output ++ renderPieces (triggerPieces env imports s.pkgs i trigger) := by
  unfold triggerStep at h
  cases hi : triggerImport s.pkgs trigger.Ref with
  | error f =>
    rw [hi] at h
    cases h
  | ok trigImport =>
    rw [hi] at h
    cases hq : canonicalAliasOf env trigImport with
    | none =>
      dsimp only at h
      rw [hq] at h
      cases h
    | some qual =>
      dsimp only at h
      rw [hq] at h
      obtain ⟨hp, ho⟩ := @forRange_pieces HandlerConfig (handlerStep env imports i)
        (fun pkgs => handlerPieces env imports pkgs i)
        (fun j hd u v huv => handlerStep_pieces huv) trigger.Handlers 0 _ t h
      refine ⟨hp, ?_⟩
      rw [ho]
      have hqual : triggerQualifier env s.pkgs trigger.Ref = qual := by
        simp [triggerQualifier, hi, hq]
      simp only [triggerPieces, indexed, renderPieces_cons, Piece.render, hqual,
        State.emit, String.append_assoc]

theorem synthesize_pieces {env : Env} {config : Config} {w : World} {s : State}
    (hs : synthesize env config w = Step.ok s) :
    s.output = prologue config ++ renderPieces (bodyPieces env config s.pkgs) := by
  unfold synthesize at hs
  split at hs
  · cases hs
  · obtain ⟨s1, h1, hs⟩ := Step.bind_eq_ok hs
    obtain ⟨s3, h3, hs⟩ := Step.bind_eq_ok hs
    obtain ⟨s5, h5, hs⟩ := Step.bind_eq_ok hs
    obtain ⟨s6, h6, hs⟩ := Step.bind_eq_ok hs
    obtain ⟨s7, h7, hs⟩ := Step.bind_eq_ok hs
    obtain ⟨s8, h8, hs⟩ := Step.bind_eq_ok hs
    obtain ⟨s9, h9, hs⟩ := Step.bind_eq_ok hs
    cases hs
    -- no body text before the prologue
    have o1 : s1.output = "" :=
      @forRange_ok_rel Import State (fun _ => importStep env)
        (fun a b : State => b.output = a.output) (fun _ => rfl)
        (fun _ _ _ hab hbc => hbc.trans hab)
        (fun _ val u v huv => by
          have huv2 : importStep env val u = Step.ok v := huv
          have := (importStep_state env val u).2.1
          rw [huv2] at this
          exact this) _ 0 _ s1 h1
    have o3 : s3.output = "" :=
      (@forRange_ok_rel (String × Value) State (fun _ => schemaStep env)
        (fun a b : State => b.output = a.output) (fun _ => rfl)
        (fun _ _ _ hab hbc => hbc.trans hab)
        (fun _ e u v huv => by
          have huv2 : schemaStep env e u = Step.ok v := huv
          clear huv
          rename' huv2 => huv
          unfold schemaStep at huv
          split at huv
          · cases huv
          · cases huv
            rfl) _ 0 _ s3 h3).trans o1
    have o5 : s5.output = "" :=
      (@forRange_ok_rel Factory State (fun _ => factoryStep)
        (fun a b : State => b.output = a.output) (fun _ => rfl)
        (fun _ _ _ hab hbc => hbc.trans hab)
        (fun _ e u v huv => by
          have huv2 : factoryStep e u = Step.ok v := huv
          clear huv
          rename' huv2 => huv
          unfold factoryStep at huv
          split at huv
          · cases huv
          · cases huv
            rfl) _ 0 _ s5 h5).trans o3
    obtain ⟨p6, q6⟩ := @forRange_pieces ResourceConfig (resourceStep env)
      (fun _ => resourcePieces env) (fun i rc u v huv => resourceStep_pieces huv)
      config.Resources 0 _ s6 h6
    obtain ⟨p67, q67⟩ := propertiesStage_pieces env config.Properties s6
    obtain ⟨p7, q7⟩ := channelsStage_pieces h7
    obtain ⟨p8, q8⟩ := @forRange_pieces ActionConfig (actionStep env _)
      (fun pkgs => actionPieces env (env.ParseImports config.Imports) pkgs)
      (fun i a u v huv => actionStep_pieces huv) config.Actions 0 _ s8 h8
    obtain ⟨p9, q9⟩ := @forRange_pieces TriggerConfig (triggerStep env _)
      (fun pkgs => triggerPieces env (env.ParseImports config.Imports) pkgs)
      (fun i a u v huv => triggerStep_pieces huv) config.Triggers 0 _ s9 h9
    have e9 : (epilogue s9).output
        = s9.output ++ renderPieces enginePieces := by
      simp [epilogue, State.emit, State.check, State.addHeader, errorCheck_eq, enginePieces,
        Piece.render, String.append_assoc]
    have pk9 : (epilogue s9).pkgs = s9.pkgs := rfl
    have pk8 : s8.pkgs = s9.pkgs := p9.symm
    have pk7 : s7.pkgs = s9.pkgs := p8.symm.trans pk8
    rw [e9, q9, q8, q7, q67, q6, pk9]
    simp only [State.emit, o5, String.empty_append, bodyPieces, indexed, renderPieces_append,
      String.append_assoc, pk8, pk7]

/-! ## Qualifiers of the body and their header entries -/

theorem propertiesStage_header (env : Env) {props : List Attribute} (s : State)
    (h : props ≠ []) :
    occursIn " \"github.com/project-flogo/core/data \" \n" (propertiesStage env props s).header := by
  have hlen : 0 < props.length := List.length_pos.mpr h
  unfold propertiesStage
  rw [if_pos hlen, propertyLoop_eq]
  exact occursIn_append_self _ _

theorem synthesize_header_entries (env : Env) (config : Config) (w : World) (s : State)
    (hs : synthesize env config w = Step.ok s) :
    (∀ rc ∈ config.Resources, ∀ resType loader, env.GetTypeFromID rc.ID = .ok resType →
      env.GetLoader resType = some loader → loader.Generate ≠ some false →
      occursIn " \"encoding/json\" \n " s.header) ∧
    (config.Channels ≠ [] →
      occursIn " \"github.com/project-flogo/core/engine/channels\" \n " s.header) ∧
    (config.Properties ≠ [] →
      occursIn " \"github.com/project-flogo/core/data \" \n" s.header) ∧
    (∀ (key : String) (imp : Import), mapGet s.pkgs key = some imp →
      imp.CanonicalAlias = key ∧
      ∀ kind, env.GetContribType imp = .ok kind →
        (kind ≠ "activity" →
          occursIn (imp.CanonicalAlias ++ " \"" ++ imp.GoImportPath ++ "\"\n") s.header) ∧
        (kind = "activity" → occursIn ("_ \"" ++ imp.GoImportPath ++ "\"\n") s.header)) := by
  unfold synthesize at hs
  split at hs
  · cases hs
  · obtain ⟨s1, h1, hs⟩ := Step.bind_eq_ok hs
    obtain ⟨s3, h3, hs⟩ := Step.bind_eq_ok hs
    obtain ⟨s5, h5, hs⟩ := Step.bind_eq_ok hs
    obtain ⟨s6, h6, hs⟩ := Step.bind_eq_ok hs
    obtain ⟨s7, h7, hs⟩ := Step.bind_eq_ok hs
    obtain ⟨s8, h8, hs⟩ := Step.bind_eq_ok hs
    obtain ⟨s9, h9, hs⟩ := Step.bind_eq_ok hs
    cases hs
    -- the alias map and the import lines after the import stage
    have a1 : AliasesInHeader env s1 := by
      have hinit : AliasesInHeader env
          ((State.init w).addHeader ("package main\n\n" ++ "import (\n")) := by
        intro key imp hget
        simp [State.addHeader, State.init, mapGet] at hget
      have hloop : ∀ (xs : List Import) (i : Nat) (a b : State), AliasesInHeader env a →
          forRange (fun _ => importStep env) i xs a = Step.ok b → AliasesInHeader env b := by
        intro xs
        induction xs with
        | nil => intro i a b ha h; cases h; exact ha
        | cons x xs ih =>
          intro i a b ha h
          rw [forRange_cons] at h
          obtain ⟨u, hu, hrest⟩ := Step.bind_eq_ok h
          exact ih (i + 1) u b (importStep_aliases ha hu) hrest
      exact hloop _ _ _ _ hinit h1
    -- every later stage only appends to the header and keeps the alias map
    have g13 : Grows s1 s3 :=
      ((Grows.addHeader s1 _).trans (Grows.addHeader _ _)).trans
        (forRange_ok_rel Grows.refl (fun _ _ _ => Grows.trans)
          (fun _ _ _ _ hb => schemaStep_grows hb) _ _ _ _ h3)
    have g35 : Grows s3 s5 := by
      have h := forRange_ok_rel (R := Grows) Grows.refl (fun _ _ _ => Grows.trans)
        (fun _ _ _ _ hb => factoryStep_grows hb) _ _ _ _ h5
      exact h
    have g56 : Grows s5 s6 :=
      (Grows.emit s5 _).trans
        (forRange_ok_rel Grows.refl (fun _ _ _ => Grows.trans)
          (fun _ _ _ _ hb => (resourceStep_ok hb).1) _ _ _ _ h6)
    have g67 : Grows s6 s7 := (propertiesStage_grows env _ s6).trans (channelsStage_ok h7).1
    have g78 : Grows s7 s8 :=
      forRange_ok_rel Grows.refl (fun _ _ _ => Grows.trans)
        (fun _ _ _ _ hb => actionStep_grows hb) _ _ _ _ h8
    have g89 : Grows s8 s9 :=
      forRange_ok_rel Grows.refl (fun _ _ _ => Grows.trans)
        (fun _ _ _ _ hb => triggerStep_grows hb) _ _ _ _ h9
    have g9 : Grows s9 (epilogue s9) := epilogue_grows s9
    refine ⟨?_, ?_, ?_, ?_⟩
    · intro rc hrc resType loader ht hl hg
      obtain ⟨j, u, v, huv, _, hv⟩ :=
        forRange_ok_mem Grows.refl (fun _ _ _ => Grows.trans)
          (fun _ _ _ _ hb => (resourceStep_ok hb).1) _ _ _ _ h6 rc hrc
      have hjson := (resourceStep_ok huv).2 resType loader ht hl hg
      exact (((((hv.trans g67).trans g78).trans g89).trans g9)).occursIn hjson
    · intro hne
      exact ((g78.trans g89).trans g9).occursIn ((channelsStage_ok h7).2 hne)
    · intro hne
      exact ((((channelsStage_ok h7).1.trans g78).trans g89).trans g9).occursIn
        (propertiesStage_header env s6 hne)
    · exact a1.grows ((((((g13.trans g35).trans g56).trans g67).trans g78).trans g89).trans g9)


theorem occursIn_append_left (h : String) {e t : String} (he : occursIn e t) :
    occursIn e (h ++ t) := by
  unfold occursIn at he ⊢
  rw [String.data_append]
  exact he.trans (List.suffix_append _ _).isInfix

theorem occursIn_prefix (e t : String) : occursIn e (e ++ t) := by
  unfold occursIn
  rw [String.data_append]
  exact (List.prefix_append _ _).isInfix

theorem occursIn_renderPieces {p : Piece} {ps : List Piece} (h : p ∈ ps) :
    occursIn p.render (renderPieces ps) := by
  induction ps with
  | nil => cases h
  | cons q qs ih =>
    rw [renderPieces_cons]
    rcases List.mem_cons.mp h with rfl | hmem
    · exact occursIn_prefix _ _
    · exact occursIn_append_left _ (ih hmem)

theorem mem_enumFrom_pieces {α : Type} (f : Nat → α → List Piece) {p : Piece} :
    ∀ (xs : List α) (n i : Nat) (x : α), xs[i]? = some x → p ∈ f (n + i) x →
      p ∈ ((xs.enumFrom n).map fun q => f q.1 q.2).flatten := by
  intro xs
  induction xs with
  | nil => intro n i x hx _; simp at hx
  | cons y ys ih =>
    intro n i x hx hp
    rw [List.enumFrom_cons, List.map_cons, List.flatten_cons, List.mem_append]
    cases i with
    | zero =>
      simp only [List.getElem?_cons_zero, Option.some.injEq] at hx
      subst hx
      exact Or.inl hp
    | succ k =>
      simp only [List.getElem?_cons_succ] at hx
      refine Or.inr (ih (n + 1) k x hx ?_)
      have : n + 1 + k = n + (k + 1) := by omega
      rw [this]
      exact hp

theorem mem_indexed {α : Type} {f : Nat → α → List Piece} {xs : List α} {i : Nat} {x : α}
    {p : Piece} (hx : xs[i]? = some x) (hp : p ∈ f i x) : p ∈ indexed xs f := by
  unfold indexed
  refine mem_enumFrom_pieces f xs 0 i x hx ?_
  rw [Nat.zero_add]
  exact hp

theorem mem_of_getElem?_eq_some {α : Type} {xs : List α} {i : Nat} {x : α}
    (h : xs[i]? = some x) : x ∈ xs := by
  induction xs generalizing i with
  | nil => simp at h
  | cons y ys ih =>
    cases i with
    | zero =>
      simp only [List.getElem?_cons_zero, Option.some.injEq] at h
      subst h
      exact List.mem_cons_self _ _
    | succ k =>
      simp only [List.getElem?_cons_succ] at h
      exact List.mem_cons_of_mem _ (ih h)

theorem actionStep_resolves {env : Env} {imports : List Import} {i : Nat} {act : ActionConfig}
    {s t : State} (h : actionStep env imports i act s = Step.ok t) :
    ∃ qual, canonicalAliasOf env (mapGet s.pkgs act.Ref) = some qual := by
  unfold actionStep at h
  rw [actionImport_eq] at h
  dsimp only at h
  obtain ⟨u, _, hrest⟩ := Step.bind_eq_ok h
  cases hq : canonicalAliasOf env (mapGet s.pkgs act.Ref) with
  | none =>
    rw [hq] at hrest
    cases hrest
  | some qual => exact ⟨qual, rfl⟩

theorem handlerActionStep_resolves {env : Env} {imports : List Import} {i j k : Nat}
    {act : HandlerActionConfig} {s t : State}
    (h : handlerActionStep env imports i j k act s = Step.ok t) (hid : act.Config.Id = "") :
    ∃ qual, canonicalAliasOf env (mapGet s.pkgs act.Config.Ref) = some qual := by
  unfold handlerActionStep at h
  obtain ⟨u, hu, _⟩ := Step.bind_eq_ok h
  unfold handlerActionHead at hu
  have hid2 : ¬ act.Config.Id ≠ "" := by rw [hid]; simp
  rw [if_neg hid2, actionImport_eq] at hu
  dsimp only at hu
  obtain ⟨v, _, hrest⟩ := Step.bind_eq_ok hu
  cases hq : canonicalAliasOf env (mapGet s.pkgs act.Config.Ref) with
  | none =>
    rw [hq] at hrest
    cases hrest
  | some qual => exact ⟨qual, rfl⟩

theorem handlerStep_resolves {env : Env} {imports : List Import} {i j : Nat}
    {handler : HandlerConfig} {s t : State}
    (h : handlerStep env imports i j handler s = Step.ok t) :
    ∀ act ∈ handler.Actions, act.Config.Id = "" →
      ∃ qual, canonicalAliasOf env (mapGet s.pkgs act.Config.Ref) = some qual := by
  intro act hact hid
  unfold handlerStep at h
  obtain ⟨k, u, v, huv, hu, _⟩ :=
    forRange_ok_mem Grows.refl (fun _ _ _ => Grows.trans)
      (fun _ _ _ _ hb => handlerActionStep_grows hb) _ _ _ _ h act hact
  obtain ⟨qual, hq⟩ := handlerActionStep_resolves huv hid
  have hp : u.pkgs = s.pkgs := hu.2
  rw [hp] at hq
  exact ⟨qual, hq⟩

theorem triggerStep_resolves {env : Env} {imports : List Import} {i : Nat}
    {trigger : TriggerConfig} {s t : State}
    (h : triggerStep env imports i trigger s = Step.ok t) :
    (∃ found qual, triggerImport s.pkgs trigger.Ref = .ok found
      ∧ canonicalAliasOf env found = some qual) ∧
    ∀ handler ∈ trigger.Handlers, ∀ act ∈ handler.Actions, act.Config.Id = "" →
      ∃ qual, canonicalAliasOf env (mapGet s.pkgs act.Config.Ref) = some qual := by
  unfold triggerStep at h
  cases hi : triggerImport s.pkgs trigger.Ref with
  | error f =>
    rw [hi] at h
    cases h
  | ok found =>
    rw [hi] at h
    cases hq : canonicalAliasOf env found with
    | none =>
      dsimp only at h
      rw [hq] at h
      cases h
    | some qual =>
      dsimp only at h
      rw [hq] at h
      refine ⟨⟨found, qual, rfl, hq⟩, ?_⟩
      intro handler hh act hact hid
      obtain ⟨j, u, v, huv, hu, _⟩ :=
        forRange_ok_mem Grows.refl (fun _ _ _ => Grows.trans)
          (fun _ _ _ _ hb => handlerStep_grows hb) _ _ _ _ h handler hh
      obtain ⟨q, hq2⟩ := handlerStep_resolves huv act hact hid
      have hp : u.pkgs = s.pkgs := hu.2
      rw [hp] at hq2
      exact ⟨q, hq2⟩

theorem synthesize_resolves {env : Env} {config : Config} {w : World} {s : State}
    (hs : synthesize env config w = Step.ok s) :
    (∀ act ∈ config.Actions,
      ∃ qual, canonicalAliasOf env (mapGet s.pkgs act.Ref) = some qual) ∧
    (∀ trigger ∈ config.Triggers,
      (∃ found qual, triggerImport s.pkgs trigger.Ref = .ok found
        ∧ canonicalAliasOf env found = some qual) ∧
      ∀ handler ∈ trigger.Handlers, ∀ act ∈ handler.Actions, act.Config.Id = "" →
        ∃ qual, canonicalAliasOf env (mapGet s.pkgs act.Config.Ref) = some qual) := by
  unfold synthesize at hs
  split at hs
  · cases hs
  · obtain ⟨s1, _, hs⟩ := Step.bind_eq_ok hs
    obtain ⟨s3, _, hs⟩ := Step.bind_eq_ok hs
    obtain ⟨s5, _, hs⟩ := Step.bind_eq_ok hs
    obtain ⟨s6, _, hs⟩ := Step.bind_eq_ok hs
    obtain ⟨s7, _, hs⟩ := Step.bind_eq_ok hs
    obtain ⟨s8, h8, hs⟩ := Step.bind_eq_ok hs
    obtain ⟨s9, h9, hs⟩ := Step.bind_eq_ok hs
    cases hs
    have g89 : Grows s8 s9 :=
      forRange_ok_rel Grows.refl (fun _ _ _ => Grows.trans)
        (fun _ _ _ _ hb => triggerStep_grows hb) _ _ _ _ h9
    have g9 : Grows s9 (epilogue s9) := epilogue_grows s9
    refine ⟨?_, ?_⟩
    · intro act hact
      obtain ⟨j, u, v, huv, _, hv⟩ :=
        forRange_ok_mem Grows.refl (fun _ _ _ => Grows.trans)
          (fun _ _ _ _ hb => actionStep_grows hb) _ _ _ _ h8 act hact
      obtain ⟨qual, hq⟩ := actionStep_resolves huv
      have hp : (epilogue s9).pkgs = u.pkgs :=
        (((actionStep_grows huv).trans hv).trans (g89.trans g9)).2
      rw [hp]
      exact ⟨qual, hq⟩
    · intro trigger htr
      obtain ⟨j, u, v, huv, _, hv⟩ :=
        forRange_ok_mem Grows.refl (fun _ _ _ => Grows.trans)
          (fun _ _ _ _ hb => triggerStep_grows hb) _ _ _ _ h9 trigger htr
      have hp : (epilogue s9).pkgs = u.pkgs := (((triggerStep_grows huv).trans hv).trans g9).2
      rw [hp]
      exact triggerStep_resolves huv

theorem triggerImport_bound {pkgs : List (String × Import)} {ref : String} {imp : Import}
    (h : triggerImport pkgs ref = .ok (some imp)) : ∃ key, mapGet pkgs key = some imp := by
  rw [triggerImport_eq] at h
  cases hd : ref.data with
  | nil =>
    rw [hd] at h
    cases h
  | cons c cs =>
    rw [hd] at h
    by_cases h1 : c.utf8Size = 1
    · simp only [h1, if_true, Except.ok.injEq] at h
      exact ⟨_, h⟩
    · simp only [h1, if_false, Except.ok.injEq] at h
      cases h

/-- C7, amended. For every descriptor on which the pass reaches concatenation
the body is the prologue followed by the pieces of the driver, and: a resource
that is serialized has its `json.RawMessage` statement in the body and the
entry `"encoding/json"` in the header, one that is not has no statement; a
property has its `data.` statement in the body and the header has the entry
whose path is `github.com/project-flogo/core/data ` with a trailing space; a
channel has its `channels.New` statement in the body and the entry
`"github.com/project-flogo/core/engine/channels"` in the header; and the
qualifier written in `&<qualifier>.Action{}` for an action of the application
or an inline action of a handler, and in `&<qualifier>.Trigger{}` for a
trigger, is the canonical alias of the import its reference resolves to,
whose header line binds that alias to the path of the import when the
contribution type is not `activity`, and is the blank import of that path when
it is. -/
theorem qualifiers_have_header_entries (env : Env) (config : Config) (w : World) (s : State)
    (hs : synthesize env config w = Step.ok s) :
    s.output = prologue config ++ renderPieces (bodyPieces env config s.pkgs) ∧
    (∀ (i : Nat) (rc : ResourceConfig), config.Resources[i]? = some rc →
      (serialized env rc = true →
        occursIn (resourceLiteralStmt i rc.Data) s.output ∧
        occursIn " \"encoding/json\" \n " s.header) ∧
      (serialized env rc = false → resourcePieces env i rc = [])) ∧
    (∀ (i : Nat) (property : Attribute), config.Properties[i]? = some property →
      occursIn (addPropertyStmt env property) s.output ∧
      occursIn " \"github.com/project-flogo/core/data \" \n" s.header) ∧
    (∀ (i : Nat) (channel : String), config.Channels[i]? = some channel →
      occursIn (decodeStmt i channel) s.output ∧ occursIn newChannelStmt s.output ∧
      occursIn " \"github.com/project-flogo/core/engine/channels\" \n " s.header) ∧
    (∀ (i : Nat) (act : ActionConfig), config.Actions[i]? = some act →
      ∃ qual, canonicalAliasOf env (mapGet s.pkgs act.Ref) = some qual ∧
        occursIn (addActionStmt act.Id qual (actionSettingsName i)) s.output ∧
        ∀ imp, mapGet s.pkgs act.Ref = some imp →
          qual = imp.CanonicalAlias ∧
          ∀ kind, env.GetContribType imp = .ok kind →
            (kind ≠ "activity" →
              occursIn (qual ++ " \"" ++ imp.GoImportPath ++ "\"\n") s.header) ∧
            (kind = "activity" → occursIn ("_ \"" ++ imp.GoImportPath ++ "\"\n") s.header)) ∧
    (∀ (i : Nat) (trigger : TriggerConfig), config.Triggers[i]? = some trigger →
      (∃ found qual, triggerImport s.pkgs trigger.Ref = .ok found ∧
        canonicalAliasOf env found = some qual ∧
        occursIn (newTriggerStmt env i qual trigger.Settings) s.output ∧
        ∀ imp, found = some imp →
          qual = imp.CanonicalAlias ∧
          ∀ kind, env.GetContribType imp = .ok kind →
            (kind ≠ "activity" →
              occursIn (qual ++ " \"" ++ imp.GoImportPath ++ "\"\n") s.header) ∧
            (kind = "activity" → occursIn ("_ \"" ++ imp.GoImportPath ++ "\"\n") s.header)) ∧
      ∀ (j : Nat) (handler : HandlerConfig) (k : Nat) (act : HandlerActionConfig),
        trigger.Handlers[j]? = some handler → handler.Actions[k]? = some act →
        act.Config.Id = "" →
        ∃ qual, canonicalAliasOf env (mapGet s.pkgs act.Config.Ref) = some qual ∧
          occursIn (newActionStmt i j k qual (settingsName i j k)) s.output ∧
          ∀ imp, mapGet s.pkgs act.Config.Ref = some imp →
            qual = imp.CanonicalAlias ∧
            ∀ kind, env.GetContribType imp = .ok kind →
              (kind ≠ "activity" →
                occursIn (qual ++ " \"" ++ imp.GoImportPath ++ "\"\n") s.header) ∧
              (kind = "activity" →
                occursIn ("_ \"" ++ imp.GoImportPath ++ "\"\n") s.header)) := by
  have hout := synthesize_pieces hs
  obtain ⟨hjson, hchan, hdata, hbound⟩ := synthesize_header_entries env config w s hs
  obtain ⟨hacts, htrigs⟩ := synthesize_resolves hs
  -- a piece of the body occurs in the output
  have hocc : ∀ p ∈ bodyPieces env config s.pkgs, occursIn p.render s.output := by
    intro p hp
    rw [hout]
    exact occursIn_append_left _ (occursIn_renderPieces hp)
  -- the header entry of a bound import, for the qualifier written
  have hentry : ∀ (found : Option Import) (qual : String) (imp : Import),
      canonicalAliasOf env found = some qual → found = some imp →
      (∃ key, mapGet s.pkgs key = some imp) →
      qual = imp.CanonicalAlias ∧
      ∀ kind, env.GetContribType imp = .ok kind →
        (kind ≠ "activity" →
          occursIn (qual ++ " \"" ++ imp.GoImportPath ++ "\"\n") s.header) ∧
        (kind = "activity" → occursIn ("_ \"" ++ imp.GoImportPath ++ "\"\n") s.header) := by
    intro found qual imp hq hf hkey
    subst hf
    have hqual : qual = imp.CanonicalAlias := by
      simp only [canonicalAliasOf, Option.some.injEq] at hq
      exact hq.symm
    obtain ⟨key, hget⟩ := hkey
    refine ⟨hqual, ?_⟩
    rw [hqual]
    exact (hbound key imp hget).2
  refine ⟨hout, ?_, ?_, ?_, ?_, ?_⟩
  · intro i rc hrc
    refine ⟨?_, ?_⟩
    · intro hser
      refine ⟨?_, ?_⟩
      · refine hocc (.plain (resourceLiteralStmt i rc.Data)) ?_
        unfold bodyPieces
        simp only [List.mem_append]
        refine Or.inl (Or.inl (Or.inl (Or.inl (Or.inl (mem_indexed hrc ?_)))))
        simp [resourcePieces, hser]
      · have hmem := mem_of_getElem?_eq_some hrc
        cases h1 : env.GetTypeFromID rc.ID with
        | error e => simp [serialized, h1] at hser
        | ok resType =>
          cases h2 : env.GetLoader resType with
          | none => simp [serialized, h1, h2] at hser
          | some loader =>
            refine hjson rc hmem resType loader h1 h2 ?_
            intro hg
            simp [serialized, h1, h2, hg] at hser
    · intro hser
      simp [resourcePieces, hser]
  · intro i property hprop
    refine ⟨?_, ?_⟩
    · refine hocc (.plain (addPropertyStmt env property)) ?_
      unfold bodyPieces
      simp only [List.mem_append]
      refine Or.inl (Or.inl (Or.inl (Or.inl (Or.inr ?_))))
      unfold propertyPieces
      exact List.mem_map.mpr ⟨property, mem_of_getElem?_eq_some hprop, rfl⟩
    · refine hdata ?_
      intro hnil
      rw [hnil] at hprop
      simp at hprop
  · intro i channel hch
    have hin : ∀ p ∈ channelPieces i channel, p ∈ bodyPieces env config s.pkgs := by
      intro p hp
      unfold bodyPieces
      simp only [List.mem_append]
      exact Or.inl (Or.inl (Or.inl (Or.inr (mem_indexed hch hp))))
    refine ⟨?_, ?_, ?_⟩
    · exact hocc (.plain (decodeStmt i channel)) (hin _ (by simp [channelPieces]))
    · exact hocc (.assign newChannelStmt) (hin _ (by simp [channelPieces]))
    · refine hchan ?_
      intro hnil
      rw [hnil] at hch
      simp at hch
  · intro i act hact
    obtain ⟨qual, hq⟩ := hacts act (mem_of_getElem?_eq_some hact)
    refine ⟨qual, hq, ?_, ?_⟩
    · refine hocc (.assign (addActionStmt act.Id qual (actionSettingsName i))) ?_
      unfold bodyPieces
      simp only [List.mem_append]
      refine Or.inl (Or.inl (Or.inr (mem_indexed hact ?_)))
      simp [actionPieces, qualifierOf_eq hq]
    · intro imp himp
      exact hentry _ qual imp hq himp ⟨act.Ref, himp⟩
  · intro i trigger htr
    obtain ⟨⟨found, qual, hfound, hq⟩, hinline⟩ := htrigs trigger (mem_of_getElem?_eq_some htr)
    have hin : ∀ p ∈ triggerPieces env (env.ParseImports config.Imports) s.pkgs i trigger,
        p ∈ bodyPieces env config s.pkgs := by
      intro p hp
      unfold bodyPieces
      simp only [List.mem_append]
      exact Or.inl (Or.inr (mem_indexed htr hp))
    refine ⟨⟨found, qual, hfound, hq, ?_, ?_⟩, ?_⟩
    · refine hocc (.plain (newTriggerStmt env i qual trigger.Settings)) (hin _ ?_)
      have hqual : triggerQualifier env s.pkgs trigger.Ref = qual := by
        simp [triggerQualifier, hfound, hq]
      simp [triggerPieces, hqual]
    · intro imp himp
      refine hentry found qual imp hq himp ?_
      rw [himp] at hfound
      exact triggerImport_bound hfound
    · intro j handler k act hh hact hid
      obtain ⟨qual2, hq2⟩ :=
        hinline handler (mem_of_getElem?_eq_some hh) act (mem_of_getElem?_eq_some hact) hid
      refine ⟨qual2, hq2, ?_, ?_⟩
      · refine hocc (.assign (newActionStmt i j k qual2 (settingsName i j k))) (hin _ ?_)
        unfold triggerPieces
        refine List.mem_cons_of_mem _ (mem_indexed hh ?_)
        unfold handlerPieces
        refine List.mem_append_right _ (mem_indexed hact ?_)
        simp [handlerActionPieces, hid, qualifierOf_eq hq2]
      · intro imp himp
        exact hentry _ qual2 imp hq2 himp ⟨act.Config.Ref, himp⟩

/-- The amended C7 on a descriptor with a serialized resource, a property, a
channel, an action with an id, and a trigger with an inline action: the
statements of the body and the header entries of their qualifiers. -/
theorem qualifiers_have_header_entries_witness :
    synthesize (demoEnv restFlowKinds) inlineApp emptyWorld
      = Step.ok (synthesize (demoEnv restFlowKinds) inlineApp emptyWorld).state ∧
    (occursIn (resourceLiteralStmt 0 "\x7b\x7d")
        (synthesize (demoEnv restFlowKinds) inlineApp emptyWorld).state.output ∧
      occursIn " \"encoding/json\" \n "
        (synthesize (demoEnv restFlowKinds) inlineApp emptyWorld).state.header) ∧
    (occursIn newChannelStmt
        (synthesize (demoEnv restFlowKinds) inlineApp emptyWorld).state.output ∧
      occursIn " \"github.com/project-flogo/core/engine/channels\" \n "
        (synthesize (demoEnv restFlowKinds) inlineApp emptyWorld).state.header) ∧
    (occursIn (addActionStmt "a1" "flow" "actionSettings0")
        (synthesize (demoEnv restFlowKinds) inlineApp emptyWorld).state.output ∧
      occursIn "flow \"github.com/acme/action/flow\"\n"
        (synthesize (demoEnv restFlowKinds) inlineApp emptyWorld).state.header) ∧
    (occursIn (newTriggerStmt (demoEnv restFlowKinds) 0 "rest" .null)
        (synthesize (demoEnv restFlowKinds) inlineApp emptyWorld).state.output ∧
      occursIn "rest \"github.com/acme/trigger/rest\"\n"
        (synthesize (demoEnv restFlowKinds) inlineApp emptyWorld).state.header) ∧
    occursIn (newActionStmt 0 0 0 "flow" "settings0_0_0")
      (synthesize (demoEnv restFlowKinds) inlineApp emptyWorld).state.output := by
  obtain ⟨_, hres, _, hchan, hact, htrig⟩ :=
    qualifiers_have_header_entries (demoEnv restFlowKinds) inlineApp emptyWorld
      (synthesize (demoEnv restFlowKinds) inlineApp emptyWorld).state rfl
  refine ⟨rfl, ?_, ?_, ?_, ?_, ?_⟩
  · exact (hres 0 ⟨"flow:r1", "\x7b\x7d"⟩ rfl).1 rfl
  · exact (hchan 0 "A,10" rfl).2
  · obtain ⟨qual, _, hocc, hent⟩ := hact 0 ⟨"flow", .null, "a1"⟩ rfl
    obtain ⟨hq, hk⟩ := hent ⟨"flow", "github.com/acme/action/flow"⟩ rfl
    subst hq
    exact ⟨hocc, (hk "action" rfl).1 (by decide)⟩
  · obtain ⟨⟨found, qual, hfound, _, hocc, hent⟩, _⟩ :=
      htrig 0 ⟨"#rest", .null, [⟨.null, [⟨⟨"flow", .null, ""⟩, "", [], []⟩]⟩]⟩ rfl
    have hf : found = some ⟨"rest", "github.com/acme/trigger/rest"⟩ :=
      Except.ok.inj (hfound.symm.trans rfl)
    obtain ⟨hq, hk⟩ := hent _ hf
    subst hq
    exact ⟨hocc, (hk "trigger" rfl).1 (by decide)⟩
  · obtain ⟨qual, _, hocc, hent⟩ :=
      (htrig 0 ⟨"#rest", .null, [⟨.null, [⟨⟨"flow", .null, ""⟩, "", [], []⟩]⟩]⟩ rfl).2
        0 ⟨.null, [⟨⟨"flow", .null, ""⟩, "", [], []⟩]⟩ 0 ⟨⟨"flow", .null, ""⟩, "", [], []⟩
        rfl rfl rfl
    obtain ⟨hq, _⟩ := hent ⟨"flow", "github.com/acme/action/flow"⟩ rfl
    subst hq
    exact hocc

/-! ## The order of the sections -/

theorem validate_output (env : Env) (file : String) (s : State) :
    (validate env file s).state.output = s.header ++ s.output := by
  unfold validate
  cases env.Create file with
  | some e => rfl
  | none =>
    simp only []
    cases env.ParseFile file s.text with
    | some diag => rfl
    | none =>
      simp only []
      cases (env.Fprint s.text).2 with
      | some e => rfl
      | none => rfl

/-- C18. On a pass that reaches concatenation the final text is the header
followed by the body, and the body is, in this order: the comment block and
the prologue of `main`,
the resource statements by resource index, the property statements by property
index, the channel groups by channel index, the statements of the
application-scope actions by action index, the trigger blocks by trigger index
(each the trigger construction followed by its handlers by handler index, each
handler followed by its actions by action index), and last the engine
construction, its error check and `engine.RunEngine(e)`. -/
theorem body_sections_in_order (env : Env) (config : Config) (w : World) (s : State)
    (hs : synthesize env config w = Step.ok s) :
    (∀ file, (Generate env config file w).state.output = s.header ++ s.output) ∧
    s.output
      = prologue config
        ++ renderPieces (indexed config.Resources (resourcePieces env))
        ++ renderPieces (propertyPieces env config.Properties)
        ++ renderPieces (indexed config.Channels channelPieces)
        ++ renderPieces
            (indexed config.Actions (actionPieces env (env.ParseImports config.Imports) s.pkgs))
        ++ renderPieces
            (indexed config.Triggers (triggerPieces env (env.ParseImports config.Imports) s.pkgs))
        ++ ("e, err := api.NewEngine(app)\n" ++ "if err != nil \x7b\npanic(err)\n\x7d\n"
            ++ "engine.RunEngine(e)\n" ++ "\x7d\n") ∧
    (∀ (imports : List Import) (i : Nat) (trigger : TriggerConfig),
      renderPieces (triggerPieces env imports s.pkgs i trigger)
        = newTriggerStmt env i (triggerQualifier env s.pkgs trigger.Ref) trigger.Settings
          ++ renderPieces (indexed trigger.Handlers (handlerPieces env imports s.pkgs i))) ∧
    (∀ (imports : List Import) (i j : Nat) (handler : HandlerConfig),
      renderPieces (handlerPieces env imports s.pkgs i j handler)
        = newHandlerStmt env i j handler.Settings ++ errorCheckText
          ++ renderPieces
              (indexed handler.Actions (handlerActionPieces env imports s.pkgs i j))) := by
  refine ⟨?_, ?_, ?_, ?_⟩
  · intro file
    simp only [Generate, hs, Step.bind_ok]
    exact validate_output env file s
  · rw [synthesize_pieces hs]
    simp only [bodyPieces, renderPieces_append, String.append_assoc]
    rfl
  · intro imports i trigger
    rfl
  · intro imports i j handler
    simp [handlerPieces, renderPieces_append, Piece.render, String.append_assoc]

/-- C18 on the sample descriptor: the text of each section. -/
theorem body_sections_in_order_witness :
    (synthesize (demoEnv richKinds) richApp emptyWorld).state.output
      = prologue richApp
        ++ "resource0 := json.RawMessage(`\x7b\x7d`)\napp.AddResource(\"flow:r1\", resource0)\n"
        ++ "app.AddProperty(\"x\", data.string, \"hello\")\n"
        ++ ("name, buffSize := channels.Decode(\"A,10\")\n_, err = channels.New(name, buffSize)\n"
            ++ "if err != nil \x7b\npanic(err)\n\x7d\n"
            ++ "name, buffSize = channels.Decode(\"B,5\")\n_, err = channels.New(name, buffSize)\n"
            ++ "if err != nil \x7b\npanic(err)\n\x7d\n")
        ++ ("actionSettings0 := map[string]interface \x7b\x7d(nil)\n"
            ++ "err = app.AddAction(\"a1\", &flow.Action\x7b\x7d, actionSettings0)\n"
            ++ "if err != nil \x7b\npanic(err)\n\x7d\n")
        ++ ("trg0 := app.NewTrigger(&rest.Trigger\x7b\x7d, map[string]interface \x7b\x7d(nil))\n"
            ++ "handler0_0, err := trg0.NewHandler(map[string]interface \x7b\x7d(nil))\n"
            ++ "if err != nil \x7b\npanic(err)\n\x7d\n"
            ++ "action0_0_0, err := handler0_0.NewAction(\"a1\")\n"
            ++ "if err != nil \x7b\npanic(err)\n\x7d\n"
            ++ "settings0_0_1 := map[string]interface \x7b\x7d\x7b\x7d\n"
            ++ "action0_0_1, err := handler0_0.NewAction(&flow.Action\x7b\x7d, settings0_0_1)\n"
            ++ "if err != nil \x7b\npanic(err)\n\x7d\n"
            ++ "action0_0_1.SetCondition(\"$.x > 1\")\n"
            ++ "action0_0_1.SetInputMappings([]string\x7b\"in=$.y\"\x7d...)\n")
        ++ ("e, err := api.NewEngine(app)\n" ++ "if err != nil \x7b\npanic(err)\n\x7d\n"
            ++ "engine.RunEngine(e)\n" ++ "\x7d\n") :=
  ((body_sections_in_order (demoEnv richKinds) richApp emptyWorld
    (synthesize (demoEnv richKinds) richApp emptyWorld).state rfl).2.1).trans rfl

/-! ## Error checks -/

theorem checksFollowAssign_append : ∀ (a b : List Piece),
    checksFollowAssign a = true → checksFollowAssign b = true →
    checksFollowAssign (a ++ b) = true := by
  intro a
  induction a using checksFollowAssign.induct with
  | case1 => intro b _ hb; exact hb
  | case2 text rest ih =>
    intro b ha hb
    simp only [checksFollowAssign] at ha
    simp only [List.cons_append, checksFollowAssign]
    exact ih b ha hb
  | case3 text tail hne =>
    intro b ha _
    cases tail with
    | nil => simp [checksFollowAssign] at ha
    | cons p ps =>
      cases p with
      | check => exact absurd rfl (hne ps)
      | plain t => simp [checksFollowAssign] at ha
      | assign t => simp [checksFollowAssign] at ha
      | fragment c => simp [checksFollowAssign] at ha
  | case4 tail =>
    intro b ha _
    simp [checksFollowAssign] at ha
  | case5 head rest h1 h2 h3 ih =>
    intro b ha hb
    cases head with
    | check => exact absurd rfl h3
    | assign t => exact absurd rfl (h2 t)
    | plain t =>
      simp only [checksFollowAssign] at ha
      simp only [List.cons_append, checksFollowAssign]
      exact ih b ha hb
    | fragment c =>
      simp only [checksFollowAssign] at ha
      simp only [List.cons_append, checksFollowAssign]
      exact ih b ha hb
theorem checksFollowAssign_flatten (ls : List (List Piece))
    (h : ∀ l ∈ ls, checksFollowAssign l = true) : checksFollowAssign ls.flatten = true := by
  induction ls with
  | nil => rfl
  | cons l ls ih =>
    rw [List.flatten_cons]
    exact checksFollowAssign_append l _ (h l (List.mem_cons_self _ _))
      (ih fun m hm => h m (List.mem_cons_of_mem _ hm))

theorem checksFollowAssign_indexed {α : Type} (xs : List α) (f : Nat → α → List Piece)
    (h : ∀ i x, checksFollowAssign (f i x) = true) : checksFollowAssign (indexed xs f) = true := by
  unfold indexed
  refine checksFollowAssign_flatten _ ?_
  intro l hl
  obtain ⟨p, _, rfl⟩ := List.mem_map.mp hl
  exact h p.1 p.2

theorem countChecks_append (a b : List Piece) :
    countChecks (a ++ b) = countChecks a + countChecks b := by
  simp [countChecks, List.count_append]

theorem countChecks_indexed {α : Type} (xs : List α) (f : Nat → α → List Piece) (c : α → Nat)
    (h : ∀ i x, countChecks (f i x) = c x) : countChecks (indexed xs f) = (xs.map c).sum := by
  have hgen : ∀ (ys : List α) (i : Nat),
      countChecks ((ys.enumFrom i).map fun p => f p.1 p.2).flatten = (ys.map c).sum := by
    intro ys
    induction ys with
    | nil => intro i; rfl
    | cons y ys ih =>
      intro i
      simp only [List.enumFrom_cons, List.map_cons, List.flatten_cons, List.sum_cons]
      rw [countChecks_append, h, ih]
  exact hgen xs 0

theorem settingsPieces_checks (env : Env) (imports : List Import) (name : String)
    (act : ActionConfig) :
    checksFollowAssign (settingsPieces env imports name act) = true ∧
    countChecks (settingsPieces env imports name act) = 0 := by
  unfold settingsPieces
  cases (env.GetFactory act.Ref).bind Factory.Generate with
  | none => exact ⟨rfl, rfl⟩
  | some gen =>
    simp only []
    cases gen name imports act with
    | error e => exact ⟨rfl, rfl⟩
    | ok code => exact ⟨rfl, rfl⟩

theorem resourcePieces_checks (env : Env) (i : Nat) (rc : ResourceConfig) :
    checksFollowAssign (resourcePieces env i rc) = true ∧
    countChecks (resourcePieces env i rc) = 0 := by
  unfold resourcePieces
  split <;> exact ⟨rfl, rfl⟩

theorem propertyPieces_checks (env : Env) (props : List Attribute) :
    checksFollowAssign (propertyPieces env props) = true ∧
    countChecks (propertyPieces env props) = 0 := by
  unfold propertyPieces
  induction props with
  | nil => exact ⟨rfl, rfl⟩
  | cons p ps ih =>
    refine ⟨?_, ?_⟩
    · simp only [List.map_cons, checksFollowAssign]
      exact ih.1
    · have := ih.2
      simp only [countChecks] at this ⊢
      simp [List.count_cons, this]

theorem channelPieces_checks (i : Nat) (channel : String) :
    checksFollowAssign (channelPieces i channel) = true ∧
    countChecks (channelPieces i channel) = 1 := ⟨rfl, rfl⟩

theorem actionPieces_checks (env : Env) (imports : List Import) (pkgs : List (String × Import))
    (i : Nat) (act : ActionConfig) :
    checksFollowAssign (actionPieces env imports pkgs i act) = true ∧
    countChecks (actionPieces env imports pkgs i act) = 1 := by
  obtain ⟨h1, h2⟩ := settingsPieces_checks env imports (actionSettingsName i) act
  unfold actionPieces
  exact ⟨checksFollowAssign_append _ _ h1 rfl, by rw [countChecks_append, h2]; rfl⟩

theorem handlerActionPieces_checks (env : Env) (imports : List Import)
    (pkgs : List (String × Import)) (i j k : Nat) (act : HandlerActionConfig) :
    checksFollowAssign (handlerActionPieces env imports pkgs i j k act) = true ∧
    countChecks (handlerActionPieces env imports pkgs i j k act) = 1 := by
  obtain ⟨h1, h2⟩ := settingsPieces_checks env imports (settingsName i j k) act.Config
  have htail : ∀ (a b c : List Piece),
      (a = [] ∨ ∃ t, a = [Piece.plain t]) → (b = [] ∨ ∃ t, b = [Piece.plain t]) →
      (c = [] ∨ ∃ t, c = [Piece.plain t]) →
      checksFollowAssign (a ++ b ++ c) = true ∧ countChecks (a ++ b ++ c) = 0 := by
    intro a b c ha hb hc
    rcases ha with rfl | ⟨t, rfl⟩ <;> rcases hb with rfl | ⟨u, rfl⟩ <;>
      rcases hc with rfl | ⟨v, rfl⟩ <;> exact ⟨rfl, rfl⟩
  obtain ⟨t1, t2⟩ := htail
    (if act.If ≠ "" then [Piece.plain (setConditionStmt i j k act.If)] else [])
    (if 0 < act.Input.length then [Piece.plain (setInputMappingsStmt env i j k act.Input)]
      else [])
    (if 0 < act.Output.length then [Piece.plain (setOutputMappingsStmt env i j k act.Output)]
      else [])
    (by split <;> simp) (by split <;> simp) (by split <;> simp)
  have hmid : ∀ (rest : List Piece), checksFollowAssign rest = true → countChecks rest = 0 →
      ∀ (front : List Piece) (text : String), checksFollowAssign front = true →
        countChecks front = 0 →
        checksFollowAssign (front ++ [Piece.assign text] ++ [Piece.check] ++ rest) = true ∧
        countChecks (front ++ [Piece.assign text] ++ [Piece.check] ++ rest) = 1 := by
    intro rest hr hc front text hf hfc
    refine ⟨?_, ?_⟩
    · rw [List.append_assoc, List.append_assoc]
      refine checksFollowAssign_append _ _ hf ?_
      simpa [checksFollowAssign] using hr
    · rw [countChecks_append, countChecks_append, countChecks_append, hfc, hc]
      rfl
  unfold handlerActionPieces
  by_cases hid : act.Config.Id ≠ ""
  · rw [if_pos hid]
    have := hmid _ t1 t2 [] (lookupActionStmt i j k act.Config.Id) rfl rfl
    simpa [List.append_assoc] using this
  · rw [if_neg hid]
    have := hmid _ t1 t2 (settingsPieces env imports (settingsName i j k) act.Config)
      (newActionStmt i j k (qualifierOf env pkgs act.Config.Ref) (settingsName i j k)) h1 h2
    simpa [List.append_assoc] using this

theorem handlerPieces_checks (env : Env) (imports : List Import) (pkgs : List (String × Import))
    (i j : Nat) (handler : HandlerConfig) :
    checksFollowAssign (handlerPieces env imports pkgs i j handler) = true ∧
    countChecks (handlerPieces env imports pkgs i j handler) = 1 + handler.Actions.length := by
  have h1 := checksFollowAssign_indexed handler.Actions (handlerActionPieces env imports pkgs i j)
    (fun k act => (handlerActionPieces_checks env imports pkgs i j k act).1)
  have h2 := countChecks_indexed handler.Actions (handlerActionPieces env imports pkgs i j)
    (fun _ => 1) (fun k act => (handlerActionPieces_checks env imports pkgs i j k act).2)
  unfold handlerPieces
  refine ⟨checksFollowAssign_append _ _ rfl h1, ?_⟩
  rw [countChecks_append, h2]
  simp [countChecks]

theorem triggerPieces_checks (env : Env) (imports : List Import) (pkgs : List (String × Import))
    (i : Nat) (trigger : TriggerConfig) :
    checksFollowAssign (triggerPieces env imports pkgs i trigger) = true ∧
    countChecks (triggerPieces env imports pkgs i trigger)
      = trigger.Handlers.length + (trigger.Handlers.map fun h => h.Actions.length).sum := by
  have h1 := checksFollowAssign_indexed trigger.Handlers (handlerPieces env imports pkgs i)
    (fun j hd => (handlerPieces_checks env imports pkgs i j hd).1)
  have h2 := countChecks_indexed trigger.Handlers (handlerPieces env imports pkgs i)
    (fun hd => 1 + hd.Actions.length)
    (fun j hd => (handlerPieces_checks env imports pkgs i j hd).2)
  have hsum : ∀ (l : List HandlerConfig),
      (l.map fun hd => 1 + hd.Actions.length).sum
        = l.length + (l.map fun h => h.Actions.length).sum := by
    intro l
    induction l with
    | nil => rfl
    | cons x xs ih => simp only [List.map_cons, List.sum_cons, List.length_cons, ih]; omega
  unfold triggerPieces
  refine ⟨?_, ?_⟩
  · simp only [checksFollowAssign]
    exact h1
  · have : countChecks (Piece.plain (newTriggerStmt env i
        (triggerQualifier env pkgs trigger.Ref) trigger.Settings)
        :: indexed trigger.Handlers (handlerPieces env imports pkgs i))
        = countChecks (indexed trigger.Handlers (handlerPieces env imports pkgs i)) := by
      simp [countChecks, List.count_cons]
    rw [this, h2, hsum]

/-- C19. The body of a pass that reaches concatenation is the prologue
followed by the rendering of its pieces, generator fragments being pieces of
their own; among these pieces every statement that assigns `err` (channel
creation, `AddAction`, handler construction, handler-action lookup or
construction, engine construction) is immediately followed by the error
check, the error check occurs nowhere else, and the number of error checks is
channels + application actions + handlers + handler actions + 1. -/
theorem error_checks_follow_assignments (env : Env) (config : Config) (w : World) (s : State)
    (hs : synthesize env config w = Step.ok s) :
    s.output = prologue config ++ renderPieces (bodyPieces env config s.pkgs) ∧
    checksFollowAssign (bodyPieces env config s.pkgs) = true ∧
    countChecks (bodyPieces env config s.pkgs)
      = config.Channels.length + config.Actions.length
        + (config.Triggers.map fun t => t.Handlers.length).sum
        + (config.Triggers.map fun t => (t.Handlers.map fun h => h.Actions.length).sum).sum
        + 1 ∧
    Piece.check.render = "if err != nil \x7b\npanic(err)\n\x7d\n" := by
  refine ⟨synthesize_pieces hs, ?_, ?_, rfl⟩
  · unfold bodyPieces
    refine checksFollowAssign_append _ _ (checksFollowAssign_append _ _
      (checksFollowAssign_append _ _ (checksFollowAssign_append _ _
        (checksFollowAssign_append _ _ ?_ ?_) ?_) ?_) ?_) rfl
    · exact checksFollowAssign_indexed _ _ fun i rc => (resourcePieces_checks env i rc).1
    · exact (propertyPieces_checks env _).1
    · exact checksFollowAssign_indexed _ _ fun i c => (channelPieces_checks i c).1
    · exact checksFollowAssign_indexed _ _ fun i a => (actionPieces_checks env _ _ i a).1
    · exact checksFollowAssign_indexed _ _ fun i t => (triggerPieces_checks env _ _ i t).1
  · have hsum : ∀ (l : List TriggerConfig),
        (l.map fun t => t.Handlers.length
            + (t.Handlers.map fun h => h.Actions.length).sum).sum
          = (l.map fun t => t.Handlers.length).sum
            + (l.map fun t => (t.Handlers.map fun h => h.Actions.length).sum).sum := by
      intro l
      induction l with
      | nil => rfl
      | cons x xs ih => simp only [List.map_cons, List.sum_cons, ih]; omega
    have hc1 : ∀ (l : List String), (l.map fun _ => 1).sum = l.length := by
      intro l
      induction l with
      | nil => rfl
      | cons x xs ih => simp only [List.map_cons, List.sum_cons, List.length_cons, ih]; omega
    have hc2 : ∀ (l : List ActionConfig), (l.map fun _ => 1).sum = l.length := by
      intro l
      induction l with
      | nil => rfl
      | cons x xs ih => simp only [List.map_cons, List.sum_cons, List.length_cons, ih]; omega
    have hc0 : ∀ (l : List ResourceConfig), (l.map fun _ => 0).sum = 0 := by
      intro l
      induction l with
      | nil => rfl
      | cons x xs ih => simp only [List.map_cons, List.sum_cons, ih]
    unfold bodyPieces
    rw [countChecks_append, countChecks_append, countChecks_append, countChecks_append,
      countChecks_append,
      countChecks_indexed _ _ (fun _ => 0) (fun i rc => (resourcePieces_checks env i rc).2),
      (propertyPieces_checks env _).2,
      countChecks_indexed _ _ (fun _ => 1) (fun i c => (channelPieces_checks i c).2),
      countChecks_indexed _ _ (fun _ => 1) (fun i a => (actionPieces_checks env _ _ i a).2),
      countChecks_indexed _ _ _ (fun i t => (triggerPieces_checks env _ _ i t).2),
      hsum, hc0, hc1, hc2]
    have : countChecks enginePieces = 1 := rfl
    rw [this]
    omega
/-- C19 on the sample descriptor: two channels, one application action, one
handler and two handler actions give seven error checks. -/
theorem error_checks_follow_assignments_witness :
    checksFollowAssign (bodyPieces (demoEnv richKinds) richApp
        (synthesize (demoEnv richKinds) richApp emptyWorld).state.pkgs) = true ∧
    countChecks (bodyPieces (demoEnv richKinds) richApp
        (synthesize (demoEnv richKinds) richApp emptyWorld).state.pkgs) = 7 :=
  have h := error_checks_follow_assignments (demoEnv richKinds) richApp emptyWorld
    (synthesize (demoEnv richKinds) richApp emptyWorld).state rfl
  ⟨h.2.1, h.2.2.1⟩

/-! ## Slicing of references -/

/-- C20, the code at the failing input. The action paths never slice out of
bounds (only `Ref[:0]` is evaluated there), but the trigger path evaluates
`Ref[1:]` on every reference: for a trigger whose reference is the empty
string the pass aborts with a slice-bounds panic. -/
theorem empty_trigger_reference_slice_panics :
    (∀ (pkgs : List (String × Import)) (ref : String),
      actionImport pkgs ref ≠ .error sliceFailure) ∧
    (∀ (pkgs : List (String × Import)), triggerImport pkgs "" = .error sliceFailure) ∧
    emptyRefTriggerApp.Type_ = "flogo:app" ∧
    (Generate (demoEnv restFlowKinds) emptyRefTriggerApp "main.go" emptyWorld).failure
      = some sliceFailure ∧
    (Generate (demoEnv restFlowKinds) emptyRefTriggerApp "main.go" emptyWorld).state.files = [] := by
  refine ⟨?_, ?_, rfl, rfl, rfl⟩
  · intro pkgs ref
    rw [actionImport_eq]
    simp
  · intro pkgs
    rfl

end api
